import Mathlib

/-!
# alloctools: a registered-memory pool allocator

A shallow embedding of the C++ sources under `include/alloctools` and the
properties of the pool that follow from them.

Conventions of the embedding

* `unsigned int` / `uint32_t` values are natural numbers reduced `% 2 ^ 32`
  at every operation that can wrap.
* A `memory_region*` is a natural number naming an object of the C++ heap;
  `nullptr` results are `Option.none`.  The heap (`World.objects`) maps live
  pointers to region objects.
* The region provider (libfabric `fi_mr_reg` / `fi_close`) is external to the
  repository.  The `World` carries the status codes it is going to answer
  (`register_status`, `unregister_status`), hands out unique handles on
  success and records every call, in the manner of a counting mock provider.
* `operator new` never fails: the heap of the embedding is unbounded.
* The address a `T*` holds is an integer; `p + n` lies `n * sizeof(T)` bytes
  further.
* A sequence of calls is a list of operations run in program order
  (`tracked_stack.run`, `memory_pool.run`); `tracked_stack.outstanding`
  records which regions `pop` has handed out and not got back.
* Threads that share a pool take turns, one atomic action at a time, in the
  order of a schedule (`shared_pool.run`).  The atomic actions are the calls
  `free_list_.pop` and `free_list_.push` of the `boost::lockfree::stack` and
  the increments and decrements of the counters, whose `value_` is a
  `std::atomic<T>`.
* The debug printers `pool_deb`, `mps_deb`, `memr_deb` are `enable_print<false>`,
  so every `GHEX_DP_ONLY` block, and the poisoning in `push`, is dead code.
  `RMA_POOL_DEBUG_SET` is not defined.
-/

namespace alloctools

/-! ## debugging/performance_counter.hpp -/

/-- The template `performance_counter<T, enabled>` for an unsigned `T` of
`bits` bits.  The disabled specialisation has no state: its `value_` is never
read nor written. -/
structure performance_counter (bits : Nat) (enabled : Bool) where
  value_ : Nat
deriving DecidableEq, Repr

namespace performance_counter

variable {bits : Nat} {enabled : Bool}

/-- The converting constructor `performance_counter(const T& init)`. -/
def init (bits : Nat) (enabled : Bool) (x : Nat) : performance_counter bits enabled :=
  ⟨if enabled then x % 2 ^ bits else 0⟩

/-- The conversion `operator T() const`. -/
def read (c : performance_counter bits enabled) : Nat :=
  if enabled then c.value_ else 0

/-- The prefix `operator++()`. -/
def pre_inc (c : performance_counter bits enabled) : performance_counter bits enabled :=
  if enabled then ⟨(c.value_ + 1) % 2 ^ bits⟩ else c

/-- The prefix `operator--()`. -/
def pre_dec (c : performance_counter bits enabled) : performance_counter bits enabled :=
  if enabled then ⟨(c.value_ + (2 ^ bits - 1)) % 2 ^ bits⟩ else c

/-- The compound `operator+=(const T& rhs)`. -/
def add_assign (c : performance_counter bits enabled) (rhs : Nat) :
    performance_counter bits enabled :=
  if enabled then ⟨(c.value_ + rhs) % 2 ^ bits⟩ else c

/-- The compound `operator-=(const T& rhs)`. -/
def sub_assign (c : performance_counter bits enabled) (rhs : Nat) :
    performance_counter bits enabled :=
  if enabled then ⟨(c.value_ + (2 ^ bits - rhs % 2 ^ bits)) % 2 ^ bits⟩ else c

/-- The assignment `operator=(const T& x)`. -/
def assign (c : performance_counter bits enabled) (x : Nat) : performance_counter bits enabled :=
  if enabled then ⟨x % 2 ^ bits⟩ else c

/-- The postfix `operator++(int x)`, whose body is `value_ += x`: `x` is the
`int` parameter that marks the postfix form, converted to `T`.  The expression
`c++` passes `0` for it. -/
def post_inc (c : performance_counter bits enabled) (x : Int) :
    performance_counter bits enabled :=
  c.add_assign (x % 2 ^ bits).toNat

/-- The postfix `operator--(int x)`, whose body is `value_ -= x`.  The
expression `c--` passes `0` for `x`. -/
def post_dec (c : performance_counter bits enabled) (x : Int) :
    performance_counter bits enabled :=
  c.sub_assign (x % 2 ^ bits).toNat

/-- The value an operator returns: the enabled operators return the value they
have just stored (`return ++value_`, `return (value_ += rhs)`, ...), the
disabled ones return `0`; both are what the counter reads as afterwards. -/
def returned (after : performance_counter bits enabled) : Nat :=
  after.read

/-- The text that `operator<<(std::ostream&, performance_counter const&)`
writes: the value of an enabled counter, the word `undefined` for a disabled
one. -/
def format (c : performance_counter bits enabled) : String :=
  if enabled then toString c.value_ else "undefined"

/-- The value is one an object of type `T` can hold. -/
def in_range (c : performance_counter bits enabled) : Prop :=
  c.value_ < 2 ^ bits

instance (c : performance_counter bits enabled) : Decidable c.in_range :=
  inferInstanceAs (Decidable (c.value_ < 2 ^ bits))

end performance_counter

/-! ## memory_region.hpp and detail/memory_region_impl.hpp -/

def BLOCK_USER : Nat := 1
def BLOCK_TEMP : Nat := 2
def BLOCK_PARTIAL : Nat := 4

/-- The class `memory_region_impl<RegionProvider>` with the fields of its base
`memory_region`.  `region_` is the provider handle, `none` for `nullptr`. -/
structure memory_region_impl where
  address_ : Nat
  base_addr_ : Nat
  size_ : Nat
  used_space_ : Nat
  flags_ : Nat
  region_ : Option Nat
deriving DecidableEq, Repr

namespace memory_region_impl

/-- The default constructor `memory_region_impl()`. -/
def default : memory_region_impl :=
  { address_ := 0, base_addr_ := 0, size_ := 0, used_space_ := 0, flags_ := 0, region_ := none }

/-- The constructor `memory_region_impl(region, address, base_address, size, flags)`. -/
def make (region : Option Nat) (address base_address size flags : Nat) : memory_region_impl :=
  { address_ := address, base_addr_ := base_address, size_ := size, used_space_ := 0,
    flags_ := flags, region_ := region }

def get_address (r : memory_region_impl) : Nat := r.address_
def get_base_address (r : memory_region_impl) : Nat := r.base_addr_
def get_size (r : memory_region_impl) : Nat := r.size_
def get_region (r : memory_region_impl) : Option Nat := r.region_

/-- The member `set_message_length(uint32_t length)`: the argument is converted
to the 32-bit parameter and stored. -/
def set_message_length (r : memory_region_impl) (length : Nat) : memory_region_impl :=
  { r with used_space_ := length % 2 ^ 32 }

/-- The member `get_message_length()`, which returns a `uint32_t`. -/
def get_message_length (r : memory_region_impl) : Nat :=
  r.used_space_ % 2 ^ 32

def set_user_region (r : memory_region_impl) : memory_region_impl :=
  { r with flags_ := r.flags_ ||| BLOCK_USER }

def get_user_region (r : memory_region_impl) : Bool :=
  (r.flags_ &&& BLOCK_USER) == BLOCK_USER

def set_temp_region (r : memory_region_impl) : memory_region_impl :=
  { r with flags_ := r.flags_ ||| BLOCK_TEMP }

def get_temp_region (r : memory_region_impl) : Bool :=
  (r.flags_ &&& BLOCK_TEMP) == BLOCK_TEMP

def set_partial_region (r : memory_region_impl) : memory_region_impl :=
  { r with flags_ := r.flags_ ||| BLOCK_PARTIAL }

def get_partial_region (r : memory_region_impl) : Bool :=
  (r.flags_ &&& BLOCK_PARTIAL) == BLOCK_PARTIAL

end memory_region_impl

/-! ## The environment: region provider and C++ heap -/

/-- The arguments of one `register_memory` call. -/
structure register_call where
  pd : Nat
  buf : Nat
  len : Nat
  access : Nat
  offset : Nat
  requested_key : Nat
  flags : Nat
deriving DecidableEq, Repr

/-- The provider and the heap.  Logs have the most recent call first. -/
structure World where
  /-- The status codes the provider answers to the coming `register_memory`
  calls, `0` once the list is used up. -/
  register_status : List Int
  /-- The status codes the provider answers to the coming `unregister_memory` calls. -/
  unregister_status : List Int
  /-- The value of `RegionProvider::flags()`. -/
  provider_flags : Nat
  /-- The next unused provider handle. -/
  next_handle : Nat
  /-- Every `register_memory` call made so far. -/
  register_log : List register_call
  /-- The handle of every `unregister_memory` call made so far. -/
  unregister_log : List Nat
  /-- The next unused heap address for `new char[n]`. -/
  next_buffer : Nat
  /-- The live `char[]` arrays: address and length. -/
  buffers : List (Nat × Nat)
  /-- The address of every `delete[]` made so far. -/
  delete_log : List Nat
  /-- The next unused address for `new memory_region_impl`. -/
  next_object : Nat
  /-- The live region objects. -/
  objects : List (Nat × memory_region_impl)
  /-- The content of a handle field that no constructor initialised. -/
  indeterminate : Option Nat
deriving DecidableEq, Repr

namespace World

/-- A fresh process: nothing allocated, nothing registered, a provider that
answers the given status codes. -/
def fresh (register_status unregister_status : List Int) : World :=
  { register_status := register_status, unregister_status := unregister_status,
    provider_flags := 16128,
    next_handle := 1, register_log := [], unregister_log := [],
    next_buffer := 4096, buffers := [], delete_log := [],
    next_object := 1, objects := [], indeterminate := none }

/-- The call `RegionProvider::register_memory(pd, buf, len, access, offset,
requested_key, flags, &mr, nullptr)`: on status `0` the provider stores a new
handle through `mr`, otherwise it leaves `mr` as it was. -/
def register_memory (w : World) (pd buf len access offset requested_key flags : Nat)
    (mr : Option Nat) : Int × Option Nat × World :=
  let ret := w.register_status.headD 0
  let call : register_call := ⟨pd, buf, len, access, offset, requested_key, flags⟩
  let w1 := { w with register_status := w.register_status.tail,
                     register_log := call :: w.register_log }
  if ret = 0 then
    (ret, some w.next_handle, { w1 with next_handle := w.next_handle + 1 })
  else
    (ret, mr, w1)

/-- The call `RegionProvider::unregister_memory(mr)`. -/
def unregister_memory (w : World) (mr : Nat) : Int × World :=
  (w.unregister_status.headD 0,
   { w with unregister_status := w.unregister_status.tail,
            unregister_log := mr :: w.unregister_log })

/-- The expression `new char[length]`. -/
def new_array (w : World) (length : Nat) : Nat × World :=
  (w.next_buffer,
   { w with next_buffer := w.next_buffer + length + 1,
            buffers := (w.next_buffer, length) :: w.buffers })

/-- The statement `delete[] buffer`. -/
def delete_array (w : World) (buffer : Nat) : World :=
  { w with buffers := w.buffers.filter (fun b => b.1 != buffer),
           delete_log := buffer :: w.delete_log }

/-- The expression `new memory_region_impl(...)` for an object already built. -/
def new_object (w : World) (r : memory_region_impl) : Nat × World :=
  (w.next_object,
   { w with next_object := w.next_object + 1,
            objects := (w.next_object, r) :: w.objects })

/-- The object a pointer refers to, if it is live. -/
def deref (w : World) (p : Nat) : Option memory_region_impl :=
  w.objects.lookup p

/-- The storage of the object is given back (the end of `delete region`). -/
def free_object (w : World) (p : Nat) : World :=
  { w with objects := w.objects.filter (fun o => o.1 != p) }

end World

namespace memory_region_impl

/-- The constructor `memory_region_impl(pd, buffer, length)`, which registers
an existing buffer.  It does not initialise `region_` before the provider is
called. -/
def make_user (w : World) (pd buffer length : Nat) : memory_region_impl × World :=
  let res := w.register_memory pd buffer length w.provider_flags 0 buffer 0 w.indeterminate
  ({ address_ := buffer, base_addr_ := buffer, size_ := length, used_space_ := length,
     flags_ := BLOCK_USER, region_ := res.2.1 }, res.2.2)

/-- The member `allocate(pd, length)`: the status of the provider is logged
only and the function returns `0`. -/
def allocate (r : memory_region_impl) (w : World) (pd length : Nat) :
    Int × memory_region_impl × World :=
  let a := w.new_array length
  let buffer := a.1
  let res := a.2.register_memory pd buffer length a.2.provider_flags 0 buffer 0 r.region_
  (0, { r with address_ := buffer, base_addr_ := buffer, size_ := length, used_space_ := 0,
               region_ := res.2.1 }, res.2.2)

/-- The member `release()`. -/
def release (r : memory_region_impl) (w : World) : Int × memory_region_impl × World :=
  match r.region_ with
  | none => (0, r, w)
  | some h =>
    let buffer := r.get_base_address
    let u := w.unregister_memory h
    if u.1 ≠ 0 then
      (-1, r, u.2)
    else
      let w2 := if !r.get_user_region then u.2.delete_array buffer else u.2
      (0, { r with region_ := none }, w2)

/-- The destructor `~memory_region_impl()`, without the return of the storage
of the object itself. -/
def destroy (r : memory_region_impl) (w : World) : World :=
  if r.get_partial_region then w else (r.release w).2.2

/-- The member `get_local_key()`: the descriptor the provider gives for the
handle of the region.  `provider_local_key` is `RegionProvider::get_local_key`
(`fi_mr_desc`), external to the repository. -/
def get_local_key (provider_local_key : Option Nat → Nat) (r : memory_region_impl) : Nat :=
  provider_local_key r.region_

/-- The member `get_remote_key()`, with `provider_remote_key` for
`RegionProvider::get_remote_key` (`fi_mr_key`). -/
def get_remote_key (provider_remote_key : Option Nat → Nat) (r : memory_region_impl) : Nat :=
  provider_remote_key r.region_

end memory_region_impl

/-- The statement `delete region` on a pointer to a live object: destructor,
then the storage is given back. -/
def World.delete_object (w : World) (p : Nat) (r : memory_region_impl) : World :=
  (r.destroy w).free_object p

/-! ## detail/memory_block_allocator.hpp -/

namespace memory_block_allocator

/-- The function `malloc(pd, bytes)`: a default-constructed region that
allocates and registers `bytes` bytes.  The block is owned by the returned
`shared_ptr`, so the embedding returns it by value. -/
def malloc (w : World) (pd bytes : Nat) : memory_region_impl × World :=
  let res := memory_region_impl.default.allocate w pd bytes
  (res.2.1, res.2.2)

end memory_block_allocator

/-! ## detail/memory_pool_stack.hpp -/

/-- The class `memory_pool_stack<RegionProvider, Allocator, PoolType, ChunkSize>`.
The template argument `ChunkSize` is an argument of the member functions.
`free_list_` has its top first. -/
structure memory_pool_stack (enabled : Bool) where
  accesses_ : performance_counter 32 enabled
  in_use_ : performance_counter 32 enabled
  chunks_avail_ : performance_counter 32 enabled
  pd_ : Nat
  block_list_ : List (Nat × memory_region_impl)
  region_list_ : List Nat
  free_list_ : List Nat
deriving DecidableEq, Repr

namespace memory_pool_stack

variable {enabled : Bool}

/-- The member `chunk_size()`. -/
def chunk_size (ChunkSize : Nat) (_s : memory_pool_stack enabled) : Nat := ChunkSize

/-- The member `push(region)`: `free_list_.push(region)` on the unbounded
lock-free stack, then `--in_use_`. -/
def push (s : memory_pool_stack enabled) (region : Nat) : memory_pool_stack enabled :=
  { s with free_list_ := region :: s.free_list_, in_use_ := s.in_use_.pre_dec }

/-- The assignment `block_list_[key] = block`: a block already stored under
the key loses its last owner and is destroyed. -/
def block_list_assign (bl : List (Nat × memory_region_impl)) (key : Nat)
    (block : memory_region_impl) (w : World) : List (Nat × memory_region_impl) × World :=
  match bl.lookup key with
  | none => ((key, block) :: bl, w)
  | some old => ((key, block) :: bl.filter (fun b => b.1 != key), old.destroy w)

/-- The loop of `allocate_pool` with `k` iterations left: a sub-region is
created at `offset`, appended to `region_list_` and pushed. -/
def allocate_pool_loop (ChunkSize : Nat) (block : memory_region_impl) :
    Nat → Nat → memory_pool_stack enabled → World → memory_pool_stack enabled × World
  | 0, _, s, w => (s, w)
  | k + 1, offset, s, w =>
    let n := w.new_object (memory_region_impl.make block.get_region
      (block.get_base_address + offset) block.get_base_address ChunkSize BLOCK_PARTIAL)
    let s1 := { s with region_list_ := s.region_list_ ++ [n.1] }
    allocate_pool_loop ChunkSize block k (offset + ChunkSize) (s1.push n.1) n.2

/-- The member `allocate_pool(num_chunks)`. -/
def allocate_pool (ChunkSize : Nat) (s : memory_pool_stack enabled) (w : World)
    (num_chunks : Nat) : Bool × memory_pool_stack enabled × World :=
  let b := memory_block_allocator.malloc w s.pd_ (ChunkSize * num_chunks)
  let block := b.1
  let bl := block_list_assign s.block_list_ block.get_address block b.2
  let s1 := { s with block_list_ := bl.1,
                     in_use_ := s.in_use_.add_assign num_chunks,
                     chunks_avail_ := s.chunks_avail_.add_assign num_chunks }
  let res := allocate_pool_loop ChunkSize block num_chunks 0 s1 bl.2
  (true, res.1, res.2)

/-- The constructor `memory_pool_stack(pd, num_initial_chunks)`; the `int`
argument is converted to the `uint32_t` parameter of `allocate_pool`. -/
def make (enabled : Bool) (ChunkSize : Nat) (w : World) (pd num_initial_chunks : Nat) :
    memory_pool_stack enabled × World :=
  let s0 : memory_pool_stack enabled :=
    { accesses_ := performance_counter.init 32 enabled 0,
      in_use_ := performance_counter.init 32 enabled 0,
      chunks_avail_ := performance_counter.init 32 enabled 0,
      pd_ := pd, block_list_ := [], region_list_ := [], free_list_ := [] }
  (allocate_pool ChunkSize s0 w (num_initial_chunks % 2 ^ 32)).2

/-- The loop `for (auto r : region_list_) delete r;` of `DeallocatePool`.  A
pointer that does not refer to a live object makes the behaviour undefined:
no result. -/
def delete_regions (w : World) : List Nat → Option World
  | [] => some w
  | r :: rest =>
    match w.deref r with
    | none => none
    | some region => delete_regions (w.delete_object r region) rest

/-- The call `block_list_.clear()`: every block loses its only owner and is
destroyed.  The order in which an `unordered_map` destroys its elements is
not specified; the embedding takes the order of the list. -/
def clear_blocks (w : World) : List (Nat × memory_region_impl) → World
  | [] => w
  | b :: rest => clear_blocks (b.2.destroy w) rest

/-- The member `DeallocatePool()`: when `in_use_ != 0` a message is traced
only; the free list is drained, every sub-region is deleted, `region_list_`
and `block_list_` are cleared. -/
def DeallocatePool (s : memory_pool_stack enabled) (w : World) :
    Option (memory_pool_stack enabled × World) :=
  match delete_regions w s.region_list_ with
  | none => none
  | some w1 =>
    some ({ s with free_list_ := [], region_list_ := [], block_list_ := [] },
          clear_blocks w1 s.block_list_)

/-- The member `decrement_used_count(N)`. -/
def decrement_used_count (s : memory_pool_stack enabled) (N : Nat) : memory_pool_stack enabled :=
  { s with in_use_ := s.in_use_.sub_assign N }

/-- The member `pop()`. -/
def pop (ChunkSize : Nat) (s : memory_pool_stack enabled) (w : World) :
    Option Nat × memory_pool_stack enabled × World :=
  match s.free_list_ with
  | [] =>
    let res := allocate_pool ChunkSize s w s.in_use_.read
    (none, res.2.1, res.2.2)
  | region :: rest =>
    (some region,
     { s with free_list_ := rest, in_use_ := s.in_use_.pre_inc,
              accesses_ := s.accesses_.pre_inc }, w)

end memory_pool_stack

/-! ## memory_pool.hpp -/

def RDMA_POOL_1K_CHUNK_SIZE : Nat := 0x001 * 0x0400
def RDMA_POOL_SMALL_CHUNK_SIZE : Nat := 0x010 * 0x0400
def RDMA_POOL_MEDIUM_CHUNK_SIZE : Nat := 0x040 * 0x0400
def RDMA_POOL_LARGE_CHUNK_SIZE : Nat := 0x400 * 0x0400

def RDMA_POOL_NUM_1K_CHUNKS : Nat := 1024
def RDMA_POOL_NUM_SMALL_CHUNKS : Nat := 2048
def RDMA_POOL_NUM_MEDIUM_CHUNKS : Nat := 64
def RDMA_POOL_NUM_LARGE_CHUNKS : Nat := 16

/-- The class `memory_pool<RegionProvider, T>`. -/
structure memory_pool (enabled : Bool) where
  protection_domain_ : Nat
  tiny_ : memory_pool_stack enabled
  small_ : memory_pool_stack enabled
  medium_ : memory_pool_stack enabled
  large_ : memory_pool_stack enabled
  temp_regions : Nat
  user_regions : Nat
deriving DecidableEq, Repr

namespace memory_pool

variable {enabled : Bool}

/-- The member initialisers of the constructor, for the given initial chunk
counts of the four stacks. -/
def make_with (enabled : Bool) (w : World) (pd n_tiny n_small n_medium n_large : Nat) :
    memory_pool enabled × World :=
  let t := memory_pool_stack.make enabled RDMA_POOL_1K_CHUNK_SIZE w pd n_tiny
  let s := memory_pool_stack.make enabled RDMA_POOL_SMALL_CHUNK_SIZE t.2 pd n_small
  let m := memory_pool_stack.make enabled RDMA_POOL_MEDIUM_CHUNK_SIZE s.2 pd n_medium
  let l := memory_pool_stack.make enabled RDMA_POOL_LARGE_CHUNK_SIZE m.2 pd n_large
  ({ protection_domain_ := pd, tiny_ := t.1, small_ := s.1, medium_ := m.1, large_ := l.1,
     temp_regions := 0, user_regions := 0 }, l.2)

/-- The constructor `memory_pool(pd)`. -/
def make (enabled : Bool) (w : World) (pd : Nat) : memory_pool enabled × World :=
  make_with enabled w pd RDMA_POOL_NUM_1K_CHUNKS RDMA_POOL_NUM_SMALL_CHUNKS
    RDMA_POOL_NUM_MEDIUM_CHUNKS RDMA_POOL_NUM_LARGE_CHUNKS

/-- The member `allocate_temporary_region(length)`. -/
def allocate_temporary_region (p : memory_pool enabled) (w : World) (length : Nat) :
    Nat × memory_pool enabled × World :=
  let r0 := memory_region_impl.default.set_temp_region
  let a := r0.allocate w p.protection_domain_ length
  let n := a.2.2.new_object a.2.1
  (n.1, { p with temp_regions := (p.temp_regions + 1) % 2 ^ 32 }, n.2)

/-- The member `register_temporary_region(ptr, length)`. -/
def register_temporary_region (p : memory_pool enabled) (w : World) (ptr length : Nat) :
    Nat × memory_pool enabled × World :=
  let c := memory_region_impl.make_user w p.protection_domain_ ptr length
  let n := c.2.new_object c.1.set_temp_region
  (n.1, { p with temp_regions := (p.temp_regions + 1) % 2 ^ 32 }, n.2)

/-- The if-chain of `allocate_region` up to the test of `region == nullptr`. -/
def allocate_region_pop (p : memory_pool enabled) (w : World) (length : Nat) :
    Option Nat × memory_pool enabled × World :=
  if length ≤ p.tiny_.chunk_size RDMA_POOL_1K_CHUNK_SIZE then
    let r := p.tiny_.pop RDMA_POOL_1K_CHUNK_SIZE w
    (r.1, { p with tiny_ := r.2.1 }, r.2.2)
  else if length ≤ p.small_.chunk_size RDMA_POOL_SMALL_CHUNK_SIZE then
    let r := p.small_.pop RDMA_POOL_SMALL_CHUNK_SIZE w
    (r.1, { p with small_ := r.2.1 }, r.2.2)
  else if length ≤ p.medium_.chunk_size RDMA_POOL_MEDIUM_CHUNK_SIZE then
    let r := p.medium_.pop RDMA_POOL_MEDIUM_CHUNK_SIZE w
    (r.1, { p with medium_ := r.2.1 }, r.2.2)
  else if length ≤ p.large_.chunk_size RDMA_POOL_LARGE_CHUNK_SIZE then
    let r := p.large_.pop RDMA_POOL_LARGE_CHUNK_SIZE w
    (r.1, { p with large_ := r.2.1 }, r.2.2)
  else
    (none, p, w)

/-- The member `allocate_region(length)`. -/
def allocate_region (p : memory_pool enabled) (w : World) (length : Nat) :
    Nat × memory_pool enabled × World :=
  let r := p.allocate_region_pop w length
  match r.1 with
  | some region => (region, r.2.1, r.2.2)
  | none => r.2.1.allocate_temporary_region r.2.2 length

/-- The member `deallocate(region)`; `none` when the pointer refers to no live
object (the C++ behaviour is then undefined). -/
def deallocate (p : memory_pool enabled) (w : World) (region : Nat) :
    Option (memory_pool enabled × World) :=
  match w.deref region with
  | none => none
  | some r =>
    if r.get_temp_region || r.get_user_region then
      let p1 :=
        if r.get_temp_region then
          { p with temp_regions := (p.temp_regions + (2 ^ 32 - 1)) % 2 ^ 32 }
        else if r.get_user_region then
          { p with user_regions := (p.user_regions + (2 ^ 32 - 1)) % 2 ^ 32 }
        else p
      some (p1, w.delete_object region r)
    else if r.get_size ≤ p.tiny_.chunk_size RDMA_POOL_1K_CHUNK_SIZE then
      some ({ p with tiny_ := p.tiny_.push region }, w)
    else if r.get_size ≤ p.small_.chunk_size RDMA_POOL_SMALL_CHUNK_SIZE then
      some ({ p with small_ := p.small_.push region }, w)
    else if r.get_size ≤ p.medium_.chunk_size RDMA_POOL_MEDIUM_CHUNK_SIZE then
      some ({ p with medium_ := p.medium_.push region }, w)
    else if r.get_size ≤ p.large_.chunk_size RDMA_POOL_LARGE_CHUNK_SIZE then
      some ({ p with large_ := p.large_.push region }, w)
    else
      some (p, w)

/-- The member `can_allocate_unsafe(length) const`: the answer, and the pool
and the environment, which it leaves as they are. -/
def can_allocate_unsafe (p : memory_pool enabled) (w : World) (length : Nat) :
    Bool × memory_pool enabled × World :=
  if length ≤ p.tiny_.chunk_size RDMA_POOL_1K_CHUNK_SIZE then
    (!p.tiny_.free_list_.isEmpty, p, w)
  else if length ≤ p.small_.chunk_size RDMA_POOL_SMALL_CHUNK_SIZE then
    (!p.small_.free_list_.isEmpty, p, w)
  else if length ≤ p.medium_.chunk_size RDMA_POOL_MEDIUM_CHUNK_SIZE then
    (!p.medium_.free_list_.isEmpty, p, w)
  else if length ≤ p.large_.chunk_size RDMA_POOL_LARGE_CHUNK_SIZE then
    (!p.large_.free_list_.isEmpty, p, w)
  else
    (true, p, w)

/-- The member `deallocate_pools()`: `DeallocatePool()` on the tiny, small,
medium and large stack, in this order. -/
def deallocate_pools (p : memory_pool enabled) (w : World) :
    Option (memory_pool enabled × World) :=
  match p.tiny_.DeallocatePool w with
  | none => none
  | some t =>
    match p.small_.DeallocatePool t.2 with
    | none => none
    | some s =>
      match p.medium_.DeallocatePool s.2 with
      | none => none
      | some m =>
        match p.large_.DeallocatePool m.2 with
        | none => none
        | some l =>
          some ({ p with tiny_ := t.1, small_ := s.1, medium_ := m.1, large_ := l.1 }, l.2)

/-- The destructor `~memory_pool()`: its body is `deallocate_pools()`; the
stacks have no destructor of their own and their containers are empty by
then. -/
def destroy (p : memory_pool enabled) (w : World) : Option (memory_pool enabled × World) :=
  p.deallocate_pools w

/-- The member `get_region(length)`. -/
def get_region (p : memory_pool enabled) (w : World) (length : Nat) :
    Nat × memory_pool enabled × World :=
  p.allocate_region w length

/-- The member `release_region(region)`. -/
def release_region (p : memory_pool enabled) (w : World) (region : Nat) :
    Option (memory_pool enabled × World) :=
  p.deallocate w region

end memory_pool

/-- The function-local static `instance` of `memory_pool::init_memory_pool`,
one for the instantiation of the class template, with the pool objects that
`new memory_pool(pd)` has made (by address) and the environment. -/
structure pool_singleton (enabled : Bool) where
  instance_ : Option Nat
  next_pool : Nat
  pools : List (Nat × memory_pool enabled)
  world : World

namespace pool_singleton

variable {enabled : Bool}

/-- The state before the first call of `init_memory_pool`: `instance(nullptr)`. -/
def fresh (enabled : Bool) (w : World) : pool_singleton enabled :=
  { instance_ := none, next_pool := 1, pools := [], world := w }

/-- The static member `init_memory_pool(pd)` (under its mutex): the returned
pointer and the state after the call. -/
def init_memory_pool (s : pool_singleton enabled) (pd : Nat) :
    Option Nat × pool_singleton enabled :=
  match s.instance_ with
  | some q => (some q, s)
  | none =>
    let m := memory_pool.make enabled s.world pd
    (some s.next_pool,
     { instance_ := some s.next_pool, next_pool := s.next_pool + 1,
       pools := (s.next_pool, m.1) :: s.pools, world := m.2 })

/-- The protection domain of the pool a pointer refers to. -/
def domain_of (s : pool_singleton enabled) (q : Option Nat) : Option Nat :=
  match q with
  | none => none
  | some a => (s.pools.lookup a).map (fun m => m.protection_domain_)

end pool_singleton

/-! ## memory_region_pointer.hpp and memory_region_allocator.hpp -/

/-- An element type `T` of the façade, as far as the façade depends on it: which
type it is and `sizeof(T)`. -/
structure element_type where
  id : Nat
  sizeof : Nat
deriving DecidableEq, Repr

/-- The fancy pointer `memory_region_pointer<T>`: `pointer_` is the address the
`T*` holds (`0` for `nullptr`), `region_` the region pointer (`none` for
`nullptr`). -/
structure memory_region_pointer (T : element_type) where
  pointer_ : Int
  region_ : Option Nat
deriving DecidableEq, Repr

namespace memory_region_pointer

variable {T : element_type}

/-- The default constructor `memory_region_pointer()`. -/
def default (T : element_type) : memory_region_pointer T :=
  ⟨0, none⟩

/-- The constructor `memory_region_pointer(T* native, region_type* r)`. -/
def make (T : element_type) (native : Int) (r : Option Nat) : memory_region_pointer T :=
  ⟨native, r⟩

/-- The copy constructor. -/
def copy (rhs : memory_region_pointer T) : memory_region_pointer T :=
  ⟨rhs.pointer_, rhs.region_⟩

/-- The constructor `memory_region_pointer(std::nullptr_t)`. -/
def of_nullptr (T : element_type) : memory_region_pointer T :=
  ⟨0, none⟩

/-- The conversion `explicit operator bool()`. -/
def to_bool (p : memory_region_pointer T) : Bool :=
  p.pointer_ != 0

/-- The assignment `operator=(T* p)`. -/
def assign_native (_self : memory_region_pointer T) (p : Int) : memory_region_pointer T :=
  ⟨p, none⟩

/-- The assignment `operator=(memory_region_pointer const& rhs)`; when `rhs` is
the object itself nothing is written, and the fields are those of `rhs` too. -/
def assign (_self rhs : memory_region_pointer T) : memory_region_pointer T :=
  ⟨rhs.pointer_, rhs.region_⟩

/-- The assignment `operator=(std::nullptr_t)`. -/
def assign_nullptr (_self : memory_region_pointer T) : memory_region_pointer T :=
  ⟨0, none⟩

/-- The address `pointer_ + n` of a `T*`: `n` elements of `sizeof(T)` bytes further. -/
def advance (T : element_type) (pointer : Int) (n : Int) : Int :=
  pointer + n * T.sizeof

/-- The member `operator+(std::ptrdiff_t n)`. -/
def add (p : memory_region_pointer T) (n : Int) : memory_region_pointer T :=
  make T (advance T p.pointer_ n) p.region_

/-- The member `operator+=(std::ptrdiff_t n)`: the object after the call. -/
def add_assign (p : memory_region_pointer T) (n : Int) : memory_region_pointer T :=
  { p with pointer_ := advance T p.pointer_ n }

/-- The member `operator-(std::ptrdiff_t n)`. -/
def sub (p : memory_region_pointer T) (n : Int) : memory_region_pointer T :=
  make T (advance T p.pointer_ (-n)) p.region_

/-- The member `operator-=(std::ptrdiff_t n)`: the object after the call. -/
def sub_assign (p : memory_region_pointer T) (n : Int) : memory_region_pointer T :=
  { p with pointer_ := advance T p.pointer_ (-n) }

/-- The prefix `operator++()`: the object after the call, which is also what
the returned reference denotes. -/
def pre_inc (p : memory_region_pointer T) : memory_region_pointer T :=
  { p with pointer_ := advance T p.pointer_ 1 }

/-- The prefix `operator--()`. -/
def pre_dec (p : memory_region_pointer T) : memory_region_pointer T :=
  { p with pointer_ := advance T p.pointer_ (-1) }

/-- The postfix `operator++(int)`: the returned copy `tmp` and the object after
the call. -/
def post_inc (p : memory_region_pointer T) : memory_region_pointer T × memory_region_pointer T :=
  let tmp := copy p
  (tmp, p.pre_inc)

/-- The postfix `operator--(int)`: the returned copy `tmp` and the object after
the call. -/
def post_dec (p : memory_region_pointer T) : memory_region_pointer T × memory_region_pointer T :=
  let tmp := copy p
  (tmp, p.pre_dec)

end memory_region_pointer

/-- The part of the process the façade works on: the static data members
`memory_region_allocator<T>::mempool_ptr`, one for each instantiation of the
class template and so one for each element type, the live pool objects by
address, and the environment. -/
structure Process (enabled : Bool) where
  mempool_ptr : Nat → Option Nat
  pools : List (Nat × memory_pool enabled)
  world : World

namespace memory_region_allocator

variable {enabled : Bool}

/-- The definition of the static member: `mempool_ptr = nullptr` for every `T`. -/
def start (pools : List (Nat × memory_pool enabled)) (w : World) : Process enabled :=
  { mempool_ptr := fun _ => none, pools := pools, world := w }

/-- The member `set_memory_pool(mempool)` of `memory_region_allocator<T>`. -/
def set_memory_pool (T : element_type) (s : Process enabled) (mempool : Option Nat) :
    Process enabled :=
  { s with mempool_ptr := fun t => if t = T.id then mempool else s.mempool_ptr t }

/-- The member `get_memory_pool()` of `memory_region_allocator<T>`. -/
def get_memory_pool (T : element_type) (s : Process enabled) : Option Nat :=
  s.mempool_ptr T.id

/-- The member `allocate(n)` of `memory_region_allocator<T>`; `none` when
`mempool_ptr` is null or dangling (the C++ behaviour is then undefined). -/
def allocate (T : element_type) (s : Process enabled) (n : Nat) :
    Option (memory_region_pointer T × Process enabled) :=
  match s.mempool_ptr T.id with
  | none => none
  | some m =>
    match s.pools.lookup m with
    | none => none
    | some pool =>
      let g := pool.get_region s.world n
      match g.2.2.deref g.1 with
      | none => none
      | some region =>
        some ({ pointer_ := (region.get_address : Int), region_ := some g.1 },
              { s with pools := s.pools.map (fun e => if e.1 = m then (m, g.2.1) else e),
                       world := g.2.2 })

/-- The member `deallocate(p, n)` of `memory_region_allocator<T>`. -/
def deallocate (T : element_type) (s : Process enabled) (p : memory_region_pointer T)
    (_n : Nat) : Option (Process enabled) :=
  match s.mempool_ptr T.id, p.region_ with
  | some m, some region =>
    match s.pools.lookup m with
    | none => none
    | some pool =>
      match pool.release_region s.world region with
      | none => none
      | some r =>
        some { s with pools := s.pools.map (fun e => if e.1 = m then (m, r.1) else e),
                      world := r.2 }
  | _, _ => none

end memory_region_allocator

/-! ## Size classes -/

/-- The tag types `pool_tiny`, `pool_small`, `pool_medium`, `pool_large` that
name the four stacks of the pool. -/
inductive PoolType where
  | pool_tiny
  | pool_small
  | pool_medium
  | pool_large
deriving DecidableEq, Repr

/-- The `ChunkSize` template argument of the stack with the given tag. -/
def PoolType.chunk_size : PoolType → Nat
  | .pool_tiny => RDMA_POOL_1K_CHUNK_SIZE
  | .pool_small => RDMA_POOL_SMALL_CHUNK_SIZE
  | .pool_medium => RDMA_POOL_MEDIUM_CHUNK_SIZE
  | .pool_large => RDMA_POOL_LARGE_CHUNK_SIZE

/-- The member of the pool that is the stack with the given tag. -/
def memory_pool.stack {enabled : Bool} (p : memory_pool enabled) :
    PoolType → memory_pool_stack enabled
  | .pool_tiny => p.tiny_
  | .pool_small => p.small_
  | .pool_medium => p.medium_
  | .pool_large => p.large_

/-- The routing rule in the words of the specification: the smallest class
whose chunk size is at least the request length, none when the length exceeds
all classes. -/
def smallest_fitting_class (length : Nat) : Option PoolType :=
  [PoolType.pool_tiny, PoolType.pool_small, PoolType.pool_medium, PoolType.pool_large].find?
    (fun c => decide (length ≤ c.chunk_size))

/-! ## Representation invariants -/

/-- The pointer refers to a live sub-region made by a stack of the given chunk
size: its size is the chunk size and its flags are exactly `BLOCK_PARTIAL`. -/
def World.is_chunk (w : World) (ChunkSize ptr : Nat) : Prop :=
  match w.deref ptr with
  | some r => r.size_ = ChunkSize ∧ r.flags_ = BLOCK_PARTIAL
  | none => False

instance (w : World) (ChunkSize ptr : Nat) : Decidable (w.is_chunk ChunkSize ptr) := by
  unfold World.is_chunk
  split <;> infer_instance

/-- Every live object was handed out by `new`. -/
def World.wf (w : World) : Prop :=
  ∀ o ∈ w.objects, o.1 < w.next_object

instance (w : World) : Decidable w.wf := by
  unfold World.wf
  infer_instance

/-- The invariant of a stack: the free list holds sub-regions of this stack and
the counters hold `unsigned int` values. -/
def memory_pool_stack.wf {enabled : Bool} (ChunkSize : Nat) (s : memory_pool_stack enabled)
    (w : World) : Prop :=
  (∀ ptr ∈ s.free_list_, w.is_chunk ChunkSize ptr) ∧
  s.accesses_.in_range ∧ s.in_use_.in_range ∧ s.chunks_avail_.in_range

instance {enabled : Bool} (ChunkSize : Nat) (s : memory_pool_stack enabled) (w : World) :
    Decidable (s.wf ChunkSize w) := by
  unfold memory_pool_stack.wf
  infer_instance

/-- The invariant of a pool state: the four stacks satisfy theirs and the two
`uint32_t` counters hold `uint32_t` values. -/
def memory_pool.wf {enabled : Bool} (p : memory_pool enabled) (w : World) : Prop :=
  w.wf ∧
  (∀ c : PoolType, (p.stack c).wf c.chunk_size w) ∧
  p.temp_regions < 2 ^ 32 ∧ p.user_regions < 2 ^ 32

instance : Fintype PoolType :=
  ⟨{PoolType.pool_tiny, PoolType.pool_small, PoolType.pool_medium, PoolType.pool_large},
    fun c => by cases c <;> simp⟩

instance {enabled : Bool} (p : memory_pool enabled) (w : World) : Decidable (p.wf w) := by
  unfold memory_pool.wf
  infer_instance

/-- The counters of a stack agree with its free list, in `unsigned int`
arithmetic: `in_use + |free_list| == chunks_avail`. -/
def memory_pool_stack.counters_consistent {enabled : Bool} (s : memory_pool_stack enabled) :
    Prop :=
  s.chunks_avail_.in_range ∧
  (s.in_use_.read + s.free_list_.length) % 2 ^ 32 = s.chunks_avail_.read

instance {enabled : Bool} (s : memory_pool_stack enabled) : Decidable s.counters_consistent := by
  unfold memory_pool_stack.counters_consistent
  infer_instance

/-- The pool with the stack of the given tag replaced. -/
def memory_pool.set_stack {enabled : Bool} (p : memory_pool enabled) (c : PoolType)
    (s : memory_pool_stack enabled) : memory_pool enabled :=
  match c with
  | .pool_tiny => { p with tiny_ := s }
  | .pool_small => { p with small_ := s }
  | .pool_medium => { p with medium_ := s }
  | .pool_large => { p with large_ := s }

/-- The second world differs from the first in the heap of region objects
only: provider, logs and `char[]` arrays are the same. -/
def World.same_provider (w1 w2 : World) : Prop :=
  w2.register_status = w1.register_status ∧ w2.unregister_status = w1.unregister_status ∧
  w2.provider_flags = w1.provider_flags ∧ w2.next_handle = w1.next_handle ∧
  w2.register_log = w1.register_log ∧ w2.unregister_log = w1.unregister_log ∧
  w2.next_buffer = w1.next_buffer ∧ w2.buffers = w1.buffers ∧ w2.delete_log = w1.delete_log ∧
  w2.indeterminate = w1.indeterminate

/-- The region object that `allocate_temporary_region(length)` leaves on the
heap: default-constructed, `BLOCK_TEMP` set, then `allocate(pd, length)`. -/
def temporary_region_of (w : World) (length : Nat) : memory_region_impl :=
  { address_ := w.next_buffer, base_addr_ := w.next_buffer, size_ := length, used_space_ := 0,
    flags_ := BLOCK_TEMP,
    region_ := if w.register_status.headD 0 = 0 then some w.next_handle else none }

/-- The region object that `memory_block_allocator::malloc(pd, bytes)` returns:
default-constructed, then `allocate(pd, bytes)`. -/
def backing_block_of (w : World) (bytes : Nat) : memory_region_impl :=
  { address_ := w.next_buffer, base_addr_ := w.next_buffer, size_ := bytes, used_space_ := 0,
    flags_ := 0,
    region_ := if w.register_status.headD 0 = 0 then some w.next_handle else none }

/-! ## Scenarios -/

/-- The pool of scenario S1 on a fresh process with a provider that never
fails: tiny = 1 KiB x 4, small = 16 KiB x 2, and one chunk each for medium and
large; counters enabled. -/
def scenario_S1 : memory_pool true × World :=
  memory_pool.make_with true (World.fresh [] []) 7 4 2 1 1

/-- The state after `n` further calls `allocate_region(length)`, none of them
released. -/
def allocate_regions {enabled : Bool} (length : Nat) :
    Nat → memory_pool enabled × World → memory_pool enabled × World
  | 0, pw => pw
  | n + 1, pw => allocate_regions length n (pw.1.allocate_region pw.2 length).2

/-- Scenario S1 after four allocations of 512 bytes: the free list of the tiny
class is empty and its four chunks are outstanding. -/
def scenario_S1_exhausted : memory_pool true × World :=
  allocate_regions 512 4 scenario_S1

/-- The pool of scenario S3 when the provider refuses the fifth registration
(status `-12`): the four backing blocks of the constructor are registered, the
next `register_memory` call fails. -/
def scenario_S3_refused : memory_pool true × World :=
  memory_pool.make_with true (World.fresh [0, 0, 0, 0, -12] []) 7 4 2 1 1

/-- Scenario S3: the result of `allocate_region(2 MiB)` on the fresh pool of
scenario S1, with a provider that accepts the registration. -/
def scenario_S3 : Nat × memory_pool true × World :=
  scenario_S1.1.allocate_region scenario_S1.2 2097152

/-- Scenario S4: the result of registering a caller's buffer of 4 KiB at
address `16777216` with the fresh pool of scenario S1. -/
def scenario_S4 : Nat × memory_pool true × World :=
  scenario_S1.1.register_temporary_region scenario_S1.2 16777216 4096

/-- Scenario S4 when the provider refuses the registration of the caller's
buffer (status `-12`): the result of registering a buffer of 4 KiB at address
`16777216` with the pool of scenario S3 whose fifth registration is refused. -/
def scenario_S4_refused : Nat × memory_pool true × World :=
  scenario_S3_refused.1.register_temporary_region scenario_S3_refused.2 16777216 4096

/-- A plain backing block (flags `0`) of 4 KiB that holds the provider handle
`1`, in a process whose provider is going to refuse the `unregister_memory`
call (status `-1`). -/
def scenario_unregister_refused : memory_region_impl × World :=
  ((memory_region_impl.default.allocate (World.fresh [] [-1]) 7 4096).2.1,
   (memory_region_impl.default.allocate (World.fresh [] [-1]) 7 4096).2.2)

/-- The element types `int` and `double` of the façade. -/
def element_int : element_type := ⟨1, 4⟩
def element_double : element_type := ⟨2, 8⟩

/-- A process with the pool of scenario S1 at address `1000` and every
`mempool_ptr` still null. -/
def scenario_process : Process true :=
  memory_region_allocator.start [(1000, scenario_S1.1)] scenario_S1.2

/-- What `DeallocatePool` relies on: every entry of `region_list_` refers to a
live sub-region of the stack, no entry occurs twice, and the blocks of
`block_list_` are not sub-regions. -/
def memory_pool_stack.owns {enabled : Bool} (ChunkSize : Nat) (s : memory_pool_stack enabled)
    (w : World) : Prop :=
  (∀ ptr ∈ s.region_list_, w.is_chunk ChunkSize ptr) ∧
  s.region_list_.Nodup ∧
  (∀ b ∈ s.block_list_, b.2.get_partial_region = false)

instance {enabled : Bool} (ChunkSize : Nat) (s : memory_pool_stack enabled) (w : World) :
    Decidable (s.owns ChunkSize w) := by
  unfold memory_pool_stack.owns
  infer_instance

/-! ## Byte ranges -/

/-- The byte range `[address_, address_ + size_)` of the region lies within
the byte range of the block. -/
def memory_region_impl.within (r block : memory_region_impl) : Prop :=
  block.get_address ≤ r.get_address ∧
  r.get_address + r.get_size ≤ block.get_address + block.get_size

instance (r block : memory_region_impl) : Decidable (r.within block) := by
  unfold memory_region_impl.within
  infer_instance

/-- The byte ranges of the two regions have no byte in common: one ends
before the other starts. -/
def memory_region_impl.disjoint (a b : memory_region_impl) : Prop :=
  a.get_address + a.get_size ≤ b.get_address ∨ b.get_address + b.get_size ≤ a.get_address

instance (a b : memory_region_impl) : Decidable (a.disjoint b) := by
  unfold memory_region_impl.disjoint
  infer_instance

/-- The tiny stack of scenario S1 with one sub-region popped and still
outstanding. -/
def scenario_outstanding : memory_pool_stack true × World :=
  ((scenario_S1.1.tiny_.pop 1024 scenario_S1.2).2.1,
   (scenario_S1.1.tiny_.pop 1024 scenario_S1.2).2.2)

/-- A stack of 1 KiB chunks constructed while the provider refuses the
registration of its block. -/
def scenario_refused_stack : memory_pool_stack true × World :=
  memory_pool_stack.make true 1024 (World.fresh [-12] []) 7 4

/-! ## Sequences of operations on a stack -/

/-- An operation on a stack: `pop()`, `push(region)` or `allocate_pool(num_chunks)`. -/
inductive stack_op
  | pop
  | push (region : Nat)
  | grow (num_chunks : Nat)
deriving DecidableEq, Repr

/-- A stack in its environment, together with the outstanding regions: those
that `pop` has returned and that have not been pushed back since.  The list of
outstanding regions is not a member of the class; it records the history. -/
structure tracked_stack (enabled : Bool) where
  stack : memory_pool_stack enabled
  world : World
  outstanding : List Nat
deriving DecidableEq, Repr

namespace tracked_stack

variable {enabled : Bool}

/-- One operation. -/
def step (ChunkSize : Nat) (t : tracked_stack enabled) : stack_op → tracked_stack enabled
  | .pop =>
    let r := t.stack.pop ChunkSize t.world
    ⟨r.2.1, r.2.2, match r.1 with
                   | some region => region :: t.outstanding
                   | none => t.outstanding⟩
  | .push region => ⟨t.stack.push region, t.world, t.outstanding.erase region⟩
  | .grow num_chunks =>
    let r := t.stack.allocate_pool ChunkSize t.world num_chunks
    ⟨r.2.1, r.2.2, t.outstanding⟩

/-- A sequence of operations, the first of the list first. -/
def run (ChunkSize : Nat) : tracked_stack enabled → List stack_op → tracked_stack enabled
  | t, [] => t
  | t, op :: ops => run ChunkSize (t.step ChunkSize op) ops

/-- The operation is allowed in the state: a pushed region is outstanding. -/
def allowed (t : tracked_stack enabled) : stack_op → Prop
  | .push region => region ∈ t.outstanding
  | _ => True

instance (t : tracked_stack enabled) (op : stack_op) : Decidable (t.allowed op) :=
  match op with
  | .pop => isTrue trivial
  | .push region => inferInstanceAs (Decidable (region ∈ t.outstanding))
  | .grow _ => isTrue trivial

/-- Every `push` of the sequence returns a region that is outstanding when it
is pushed. -/
def disciplined (ChunkSize : Nat) : tracked_stack enabled → List stack_op → Prop
  | _, [] => True
  | t, op :: ops => t.allowed op ∧ disciplined ChunkSize (t.step ChunkSize op) ops

/-- The operation does not take `accesses_` or `chunks_avail_` past the
largest `unsigned int`: a `pop` finds `accesses_` below it, and a growth by `n`
chunks (on a miss, by `in_use_`) finds `chunks_avail_ + n` representable. -/
def representable (t : tracked_stack enabled) : stack_op → Prop
  | .pop => t.stack.accesses_.read + 1 < 2 ^ 32 ∧
      (t.stack.free_list_ = [] → t.stack.chunks_avail_.read + t.stack.in_use_.read < 2 ^ 32)
  | .push _ => True
  | .grow n => t.stack.chunks_avail_.read + n < 2 ^ 32

instance (t : tracked_stack enabled) (op : stack_op) : Decidable (t.representable op) :=
  match op with
  | .pop => inferInstanceAs (Decidable (t.stack.accesses_.read + 1 < 2 ^ 32 ∧
      (t.stack.free_list_ = [] → t.stack.chunks_avail_.read + t.stack.in_use_.read < 2 ^ 32)))
  | .push _ => isTrue trivial
  | .grow n => inferInstanceAs (Decidable (t.stack.chunks_avail_.read + n < 2 ^ 32))

/-- No operation of the sequence takes `accesses_` or `chunks_avail_` past the
largest `unsigned int`. -/
def no_wrap (ChunkSize : Nat) : tracked_stack enabled → List stack_op → Prop
  | _, [] => True
  | t, op :: ops => t.representable op ∧ no_wrap ChunkSize (t.step ChunkSize op) ops

instance decidable_disciplined (ChunkSize : Nat) :
    (t : tracked_stack enabled) → (ops : List stack_op) → Decidable (disciplined ChunkSize t ops)
  | _, [] => isTrue trivial
  | t, op :: ops =>
    @instDecidableAnd _ _ (inferInstanceAs (Decidable (t.allowed op)))
      (decidable_disciplined ChunkSize _ ops)

instance decidable_no_wrap (ChunkSize : Nat) :
    (t : tracked_stack enabled) → (ops : List stack_op) → Decidable (no_wrap ChunkSize t ops)
  | _, [] => isTrue trivial
  | t, op :: ops =>
    @instDecidableAnd _ _ (inferInstanceAs (Decidable (t.representable op)))
      (decidable_no_wrap ChunkSize _ ops)

/-- The free list and the outstanding regions: neither has a region twice, no
region is in both, and all of them were handed out by `new`. -/
def exclusive (t : tracked_stack enabled) : Prop :=
  t.stack.free_list_.Nodup ∧ t.outstanding.Nodup ∧
  (∀ x ∈ t.stack.free_list_, x ∉ t.outstanding) ∧
  (∀ x ∈ t.stack.free_list_, x < t.world.next_object) ∧
  (∀ x ∈ t.outstanding, x < t.world.next_object)

/-- The counters hold `unsigned int` values, `in_use_` counts the outstanding
regions and `accesses_` is at least `in_use_`. -/
def counted (t : tracked_stack enabled) : Prop :=
  t.stack.accesses_.in_range ∧ t.stack.in_use_.in_range ∧ t.stack.chunks_avail_.in_range ∧
  t.stack.in_use_.read = t.outstanding.length ∧
  t.stack.in_use_.read ≤ t.stack.accesses_.read

instance (t : tracked_stack enabled) : Decidable t.exclusive := by
  unfold exclusive
  infer_instance

instance (t : tracked_stack enabled) : Decidable t.counted := by
  unfold counted
  infer_instance

end tracked_stack

/-- The sequence of `k` round trips `pop(); push(region)`. -/
def round_trips (region k : Nat) : List stack_op :=
  (List.replicate k [stack_op.pop, stack_op.push region]).flatten

/-- The tiny stack of scenario S1 with no region outstanding. -/
def scenario_tracked : tracked_stack true :=
  ⟨scenario_S1.1.tiny_, scenario_S1.2, []⟩

/-- A sequence of operations for `scenario_tracked`: two pops, a push of the
region popped first, a pop, a growth by two chunks, a push of the region
popped second. -/
def scenario_ops : List stack_op :=
  [stack_op.pop, stack_op.pop, stack_op.push 4, stack_op.pop, stack_op.grow 2, stack_op.push 3]

/-! ## Sequences of operations on a pool -/

/-- An operation on a pool before its destruction: the members
`allocate_region`, `deallocate` and `register_temporary_region` of the pool
and `pop`, `push` and `allocate_pool` of the stack with the given tag. -/
inductive pool_op
  | allocate_region (length : Nat)
  | deallocate (region : Nat)
  | register_temporary_region (ptr length : Nat)
  | pop (c : PoolType)
  | push (c : PoolType) (region : Nat)
  | grow (c : PoolType) (num_chunks : Nat)
deriving DecidableEq, Repr

/-- A handle field that is null or holds a handle the provider has given out. -/
def World.handle_given (w : World) : Option Nat → Prop
  | none => True
  | some h => h < w.next_handle

instance (w : World) (o : Option Nat) : Decidable (w.handle_given o) :=
  match o with
  | none => isTrue trivial
  | some h => inferInstanceAs (Decidable (h < w.next_handle))

namespace memory_pool

variable {enabled : Bool}

/-- One operation; `none` when `deallocate` is given a pointer that refers to
no live object. -/
def step (p : memory_pool enabled) (w : World) : pool_op → Option (memory_pool enabled × World)
  | .allocate_region length => some (p.allocate_region w length).2
  | .deallocate region => p.deallocate w region
  | .register_temporary_region ptr length => some (p.register_temporary_region w ptr length).2
  | .pop c =>
    some (p.set_stack c ((p.stack c).pop c.chunk_size w).2.1,
          ((p.stack c).pop c.chunk_size w).2.2)
  | .push c region => some (p.set_stack c ((p.stack c).push region), w)
  | .grow c num_chunks =>
    some (p.set_stack c ((p.stack c).allocate_pool c.chunk_size w num_chunks).2.1,
          ((p.stack c).allocate_pool c.chunk_size w num_chunks).2.2)

/-- A sequence of operations, the first of the list first. -/
def run (p : memory_pool enabled) (w : World) :
    List pool_op → Option (memory_pool enabled × World)
  | [] => some (p, w)
  | op :: ops =>
    match p.step w op with
    | none => none
    | some r => run r.1 r.2 ops

/-- The handle is the provider handle of a backing block of one of the four
stacks. -/
def is_block_handle (p : memory_pool enabled) (h : Nat) : Prop :=
  ∃ c : PoolType, ∃ b ∈ (p.stack c).block_list_, b.2.region_ = some h

instance (p : memory_pool enabled) (h : Nat) : Decidable (p.is_block_handle h) := by
  unfold is_block_handle
  infer_instance

/-- A handle field that is null, or holds a handle the provider has given out
and that is not the handle of a backing block. -/
def foreign_handle (p : memory_pool enabled) (w : World) : Option Nat → Prop
  | none => True
  | some h => h < w.next_handle ∧ ¬ p.is_block_handle h

instance (p : memory_pool enabled) (w : World) (o : Option Nat) :
    Decidable (p.foreign_handle w o) :=
  match o with
  | none => isTrue trivial
  | some h => inferInstanceAs (Decidable (h < w.next_handle ∧ ¬ p.is_block_handle h))

/-- A handle field that is null or holds the handle of a backing block. -/
def parent_handle (p : memory_pool enabled) : Option Nat → Prop
  | none => True
  | some h => p.is_block_handle h

instance (p : memory_pool enabled) (o : Option Nat) : Decidable (p.parent_handle o) :=
  match o with
  | none => isTrue trivial
  | some h => inferInstanceAs (Decidable (p.is_block_handle h))

/-- The handles of the backing blocks are kept apart from every other handle:
each block is stored under an address that `new char[]` has given out and its
handle was given out by the provider; a live sub-region holds the handle of a
backing block, every other live region a handle that is not the handle of a
backing block; so does a handle field that no constructor initialised; and
no `unregister_memory` call made so far had the handle of a backing block. -/
def blocks_safe (p : memory_pool enabled) (w : World) : Prop :=
  (∀ c : PoolType, ∀ b ∈ (p.stack c).block_list_,
    b.1 < w.next_buffer ∧ w.handle_given b.2.region_) ∧
  (∀ o ∈ w.objects,
    if o.2.get_partial_region then p.parent_handle o.2.region_
    else p.foreign_handle w o.2.region_) ∧
  p.foreign_handle w w.indeterminate ∧
  (∀ h ∈ w.unregister_log, p.foreign_handle w (some h))

instance (p : memory_pool enabled) (w : World) : Decidable (p.blocks_safe w) := by
  unfold blocks_safe
  infer_instance

end memory_pool

/-- No backing block of the first pool state is missing in the second: the
block map of each stack has only grown. -/
def memory_pool.blocks_kept {enabled : Bool} (p p2 : memory_pool enabled) : Prop :=
  ∀ c : PoolType, (p.stack c).block_list_ <:+ (p2.stack c).block_list_

/-- A sequence of operations for the pool of scenario S1: a small request, an
oversize request, the release of the temporary region it made, the
registration and release of a caller's buffer, the release of the first
region, a growth of the small stack, and a pop and push on the medium stack. -/
def scenario_pool_ops : List pool_op :=
  [pool_op.allocate_region 100, pool_op.allocate_region 2097152, pool_op.deallocate 9,
   pool_op.register_temporary_region 500000 64, pool_op.deallocate 10, pool_op.deallocate 4,
   pool_op.grow PoolType.pool_small 1, pool_op.pop PoolType.pool_medium,
   pool_op.push PoolType.pool_medium 7]

/-- A plain backing block (flags `0`) of 4 KiB that holds the provider handle
`1`, in a process whose provider accepts every call. -/
def scenario_registered_block : memory_region_impl × World :=
  ((memory_region_impl.default.allocate (World.fresh [] []) 7 4096).2.1,
   (memory_region_impl.default.allocate (World.fresh [] []) 7 4096).2.2)

/-- What `deallocate_pools` relies on: each of the four stacks owns its
sub-regions and blocks. -/
def memory_pool.owns {enabled : Bool} (p : memory_pool enabled) (w : World) : Prop :=
  ∀ c : PoolType, (p.stack c).owns c.chunk_size w

instance {enabled : Bool} (p : memory_pool enabled) (w : World) : Decidable (p.owns w) := by
  unfold memory_pool.owns
  infer_instance

/-- The handles of the blocks of a stack, in the order in which
`block_list_.clear()` destroys the blocks. -/
def memory_pool_stack.block_handles {enabled : Bool} (s : memory_pool_stack enabled) :
    List Nat :=
  s.block_list_.filterMap (fun b => b.2.region_)

/-- The pool of scenario S1 constructed while the provider refuses the first
registration, that of the block of the tiny stack (status `-12`). -/
def scenario_pool_refused : memory_pool true × World :=
  memory_pool.make_with true (World.fresh [-12] []) 7 4 2 1 1

/-- The pool of scenario S1 built with counters disabled. -/
def scenario_S1_disabled : memory_pool false × World :=
  memory_pool.make_with false (World.fresh [] []) 7 4 2 1 1

/-- Six requests of 512 bytes, none released, on the pool of scenario S1 with
counters enabled: the result of the sixth. -/
def scenario_sixth_enabled : Nat × memory_pool true × World :=
  (allocate_regions 512 5 scenario_S1).1.allocate_region (allocate_regions 512 5 scenario_S1).2
    512

/-- Six requests of 512 bytes, none released, on the pool of scenario S1 with
counters disabled: the result of the sixth. -/
def scenario_sixth_disabled : Nat × memory_pool false × World :=
  (allocate_regions 512 5 scenario_S1_disabled).1.allocate_region
    (allocate_regions 512 5 scenario_S1_disabled).2 512

/-! ## Concurrent use of a pool -/

namespace memory_pool_stack

variable {enabled : Bool}

/-- The call `free_list_.pop(region)` on the lock-free stack, which is the
first action of `pop()`: the region taken, if there is one. -/
def free_list_pop (s : memory_pool_stack enabled) : Option Nat × memory_pool_stack enabled :=
  match s.free_list_ with
  | [] => (none, s)
  | region :: rest => (some region, { s with free_list_ := rest })

/-- The statement `++in_use_` of `pop()`. -/
def increment_in_use (s : memory_pool_stack enabled) : memory_pool_stack enabled :=
  { s with in_use_ := s.in_use_.pre_inc }

/-- The statement `++accesses_` of `pop()`. -/
def increment_accesses (s : memory_pool_stack enabled) : memory_pool_stack enabled :=
  { s with accesses_ := s.accesses_.pre_inc }

/-- The call `free_list_.push(region)`, which is the first action of `push()`. -/
def free_list_push (s : memory_pool_stack enabled) (region : Nat) : memory_pool_stack enabled :=
  { s with free_list_ := region :: s.free_list_ }

/-- The statement `--in_use_` of `push()`. -/
def decrement_in_use (s : memory_pool_stack enabled) : memory_pool_stack enabled :=
  { s with in_use_ := s.in_use_.pre_dec }

end memory_pool_stack

/-- The stack that the if-chains of `allocate_region` and of `deallocate`
select for a length or a size: the first whose `chunk_size()` is not below
it. -/
def memory_pool.class_of {enabled : Bool} (p : memory_pool enabled) (x : Nat) :
    Option PoolType :=
  if x ≤ p.tiny_.chunk_size RDMA_POOL_1K_CHUNK_SIZE then some .pool_tiny
  else if x ≤ p.small_.chunk_size RDMA_POOL_SMALL_CHUNK_SIZE then some .pool_small
  else if x ≤ p.medium_.chunk_size RDMA_POOL_MEDIUM_CHUNK_SIZE then some .pool_medium
  else if x ≤ p.large_.chunk_size RDMA_POOL_LARGE_CHUNK_SIZE then some .pool_large
  else none

/-- Where a thread stands in the body
`region = allocate_region(length); deallocate(region);` of its loop.  Each
constructor is the state after one atomic action on the shared pool:
`popped` after `free_list_.pop` has given a region, `counted` after
`++in_use_`, `holding` after `++accesses_`, when `allocate_region` has
returned, `pushed` after `free_list_.push`, with `--in_use_` still to come. -/
inductive thread_pc
  | idle
  | popped (c : PoolType) (region : Nat)
  | counted (c : PoolType) (region : Nat)
  | holding (region : Nat)
  | pushed (c : PoolType)
deriving DecidableEq, Repr

/-- A thread: its place in the loop body and the number of iterations of the
loop that it has not begun. -/
structure thread where
  pc : thread_pc
  remaining : Nat
deriving DecidableEq, Repr

/-- The next atomic action of a thread that runs
`region = allocate_region(length); deallocate(region);` in a loop.  A miss of
`free_list_.pop`, a request above all classes and the deletion of a temporary
region are taken as one action each.  `none` when `deallocate` is given a
pointer to no live object. -/
def thread_step {enabled : Bool} (length : Nat) (p : memory_pool enabled) (w : World)
    (t : thread) : Option (memory_pool enabled × World × thread) :=
  match t.pc with
  | .idle =>
    match t.remaining with
    | 0 => some (p, w, t)
    | k + 1 =>
      match p.class_of length with
      | none =>
        some ((p.allocate_region w length).2.1, (p.allocate_region w length).2.2,
              ⟨.holding (p.allocate_region w length).1, k⟩)
      | some c =>
        match (p.stack c).free_list_pop.1 with
        | some region => some (p.set_stack c (p.stack c).free_list_pop.2, w, ⟨.popped c region, k⟩)
        | none =>
          some ((p.allocate_region w length).2.1, (p.allocate_region w length).2.2,
                ⟨.holding (p.allocate_region w length).1, k⟩)
  | .popped c region =>
    some (p.set_stack c (p.stack c).increment_in_use, w, ⟨.counted c region, t.remaining⟩)
  | .counted c region =>
    some (p.set_stack c (p.stack c).increment_accesses, w, ⟨.holding region, t.remaining⟩)
  | .holding region =>
    match w.deref region with
    | none => none
    | some r =>
      if r.get_temp_region || r.get_user_region then
        match p.deallocate w region with
        | none => none
        | some res => some (res.1, res.2, ⟨.idle, t.remaining⟩)
      else
        match p.class_of r.get_size with
        | some c =>
          some (p.set_stack c ((p.stack c).free_list_push region), w, ⟨.pushed c, t.remaining⟩)
        | none => some (p, w, ⟨.idle, t.remaining⟩)
  | .pushed c =>
    some (p.set_stack c (p.stack c).decrement_in_use, w, ⟨.idle, t.remaining⟩)

/-- A pool shared by threads. -/
structure shared_pool (enabled : Bool) where
  pool : memory_pool enabled
  world : World
  threads : List thread
deriving DecidableEq, Repr

namespace shared_pool

variable {enabled : Bool}

/-- The thread with index `i` takes its next atomic action; an index that
names no thread changes nothing. -/
def step (length : Nat) (st : shared_pool enabled) (i : Nat) : Option (shared_pool enabled) :=
  match st.threads[i]? with
  | none => some st
  | some t =>
    match thread_step length st.pool st.world t with
    | none => none
    | some res => some ⟨res.1, res.2.1, st.threads.set i res.2.2⟩

/-- A schedule: the threads take their actions in the order of the list, one
action for each entry. -/
def run (length : Nat) : shared_pool enabled → List Nat → Option (shared_pool enabled)
  | st, [] => some st
  | st, i :: schedule =>
    match st.step length i with
    | none => none
    | some st2 => run length st2 schedule

end shared_pool

namespace thread_pc

/-- The region a thread has taken from the free list and not put back. -/
def held : thread_pc → List Nat
  | .popped _ region => [region]
  | .counted _ region => [region]
  | .holding region => [region]
  | _ => []

/-- One for a thread that holds no region. -/
def waits : thread_pc → Nat
  | .idle => 1
  | .pushed _ => 1
  | _ => 0

/-- One for a thread whose `++in_use_` has not been undone by its `--in_use_`. -/
def uses : thread_pc → Nat
  | .counted _ _ => 1
  | .holding _ => 1
  | .pushed _ => 1
  | _ => 0

/-- One for a thread that has taken a region and not yet done its `++accesses_`. -/
def pending : thread_pc → Nat
  | .popped _ _ => 1
  | .counted _ _ => 1
  | _ => 0

/-- The stack a thread is working on, if it is working on one, is `c`. -/
def tagged (c : PoolType) : thread_pc → Prop
  | .popped c2 _ => c2 = c
  | .counted c2 _ => c2 = c
  | .pushed c2 => c2 = c
  | _ => True

instance (c : PoolType) (pc : thread_pc) : Decidable (pc.tagged c) :=
  match pc with
  | .idle => isTrue trivial
  | .popped c2 _ => inferInstanceAs (Decidable (c2 = c))
  | .counted c2 _ => inferInstanceAs (Decidable (c2 = c))
  | .holding _ => isTrue trivial
  | .pushed c2 => inferInstanceAs (Decidable (c2 = c))

end thread_pc

namespace shared_pool

variable {enabled : Bool}

/-- The regions that the threads have taken and not put back. -/
def held (threads : List thread) : List Nat :=
  threads.flatMap (fun t => t.pc.held)

/-- Every thread has run all iterations of its loop. -/
def finished (st : shared_pool enabled) : Prop :=
  ∀ t ∈ st.threads, t.pc = thread_pc.idle ∧ t.remaining = 0

instance (st : shared_pool enabled) : Decidable st.finished := by
  unfold finished
  infer_instance

/-- The invariant of the threads that work on the stack of class `c`, for
the value `in_use0` that `in_use_` has when no thread is at work and the value
`total` that `accesses_` has when all threads have finished: the free list and
the regions held by the threads are sub-regions of the class, none of them
twice; there is a free region for every thread that holds none; the counters
are `unsigned int` values, `in_use_` counts the increments not yet undone, and
`accesses_` lacks the increments still to come. -/
def invariant (c : PoolType) (in_use0 total : Nat) (st : shared_pool enabled) : Prop :=
  (∀ r ∈ (st.pool.stack c).free_list_ ++ held st.threads, st.world.is_chunk c.chunk_size r) ∧
  ((st.pool.stack c).free_list_ ++ held st.threads).Nodup ∧
  (st.threads.map (fun t => t.pc.waits)).sum ≤ (st.pool.stack c).free_list_.length ∧
  (st.pool.stack c).in_use_.value_
    = (in_use0 + (st.threads.map (fun t => t.pc.uses)).sum) % 2 ^ 32 ∧
  ((st.pool.stack c).accesses_.value_
      + (st.threads.map (fun t => t.remaining + t.pc.pending)).sum) % 2 ^ 32
    = total % 2 ^ 32 ∧
  (st.pool.stack c).accesses_.in_range ∧
  (∀ t ∈ st.threads, t.pc.tagged c)

instance (c : PoolType) (in_use0 total : Nat) (st : shared_pool enabled) :
    Decidable (st.invariant c in_use0 total) := by
  unfold invariant
  infer_instance

end shared_pool

/-- The atomic actions left in the iteration a thread is in, when its
`free_list_.pop` has not missed. -/
def thread_pc.stage : thread_pc → Nat
  | .idle => 0
  | .popped _ _ => 4
  | .counted _ _ => 3
  | .holding _ => 2
  | .pushed _ => 1

/-- The atomic actions a thread has still to take when no `free_list_.pop`
misses: five for each iteration. -/
def thread.work (t : thread) : Nat :=
  5 * t.remaining + t.pc.stage

/-- Scenario S5: the pool that the constructor builds for domain `pd` in the
world `w`, with counters enabled, shared by 16 threads that each run
`region = allocate_region(8192); deallocate(region);` 100000 times. -/
def scenario_S5 (w : World) (pd : Nat) : shared_pool true :=
  ⟨(memory_pool.make true w pd).1, (memory_pool.make true w pd).2,
    List.replicate 16 ⟨thread_pc.idle, 100000⟩⟩

/-- Two threads that each run one iteration on the pool of scenario S1. -/
def scenario_two_threads : shared_pool true :=
  ⟨scenario_S1.1, scenario_S1.2, [⟨thread_pc.idle, 1⟩, ⟨thread_pc.idle, 1⟩]⟩

/-! # Properties -/

/-! ## Routing -/

variable {enabled : Bool}

theorem chunk_size_values :
    RDMA_POOL_1K_CHUNK_SIZE = 1024 ∧ RDMA_POOL_SMALL_CHUNK_SIZE = 16384 ∧
    RDMA_POOL_MEDIUM_CHUNK_SIZE = 65536 ∧ RDMA_POOL_LARGE_CHUNK_SIZE = 1048576 :=
  ⟨rfl, rfl, rfl, rfl⟩

theorem smallest_fitting_class_eq (L : Nat) :
    smallest_fitting_class L =
      if L ≤ 1024 then some .pool_tiny
      else if L ≤ 16384 then some .pool_small
      else if L ≤ 65536 then some .pool_medium
      else if L ≤ 1048576 then some .pool_large
      else none := by
  simp only [smallest_fitting_class, List.find?_cons, List.find?_nil, PoolType.chunk_size,
    chunk_size_values.1, chunk_size_values.2.1, chunk_size_values.2.2.1, chunk_size_values.2.2.2]
  by_cases h1 : L ≤ 1024
  · simp [h1]
  · by_cases h2 : L ≤ 16384
    · simp [h1, h2]
    · by_cases h3 : L ≤ 65536
      · simp [h1, h2, h3]
      · by_cases h4 : L ≤ 1048576
        · simp [h1, h2, h3, h4]
        · simp [h1, h2, h3, h4]

theorem allocate_region_pop_eq (p : memory_pool enabled) (w : World) (L : Nat) :
    p.allocate_region_pop w L =
      if L ≤ 1024 then
        ((p.tiny_.pop 1024 w).1, { p with tiny_ := (p.tiny_.pop 1024 w).2.1 }, (p.tiny_.pop 1024 w).2.2)
      else if L ≤ 16384 then
        ((p.small_.pop 16384 w).1, { p with small_ := (p.small_.pop 16384 w).2.1 }, (p.small_.pop 16384 w).2.2)
      else if L ≤ 65536 then
        ((p.medium_.pop 65536 w).1, { p with medium_ := (p.medium_.pop 65536 w).2.1 }, (p.medium_.pop 65536 w).2.2)
      else if L ≤ 1048576 then
        ((p.large_.pop 1048576 w).1, { p with large_ := (p.large_.pop 1048576 w).2.1 }, (p.large_.pop 1048576 w).2.2)
      else (none, p, w) := by
  simp only [memory_pool.allocate_region_pop, memory_pool_stack.chunk_size,
    chunk_size_values.1, chunk_size_values.2.1, chunk_size_values.2.2.1, chunk_size_values.2.2.2]

theorem allocate_temporary_region_stack (p : memory_pool enabled) (w : World) (L : Nat)
    (c : PoolType) : (p.allocate_temporary_region w L).2.1.stack c = p.stack c := by
  cases c <;> rfl

theorem allocate_region_stack (p : memory_pool enabled) (w : World) (L : Nat) (c : PoolType) :
    (p.allocate_region w L).2.1.stack c = (p.allocate_region_pop w L).2.1.stack c := by
  unfold memory_pool.allocate_region
  cases h : (p.allocate_region_pop w L).1 with
  | none => simp only [h]; exact allocate_temporary_region_stack _ _ _ c
  | some r => simp only [h]

theorem allocate_region_of_pop_some (p : memory_pool enabled) (w : World) (L r : Nat)
    (h : (p.allocate_region_pop w L).1 = some r) :
    p.allocate_region w L = (r, (p.allocate_region_pop w L).2.1, (p.allocate_region_pop w L).2.2) := by
  unfold memory_pool.allocate_region
  simp only [h]

theorem allocate_region_of_pop_none (p : memory_pool enabled) (w : World) (L : Nat)
    (h : (p.allocate_region_pop w L).1 = none) :
    p.allocate_region w L =
      (p.allocate_region_pop w L).2.1.allocate_temporary_region (p.allocate_region_pop w L).2.2 L := by
  unfold memory_pool.allocate_region
  simp only [h]

theorem allocate_region_pop_class (p : memory_pool enabled) (w : World) (L : Nat) (c : PoolType)
    (hc : smallest_fitting_class L = some c) :
    (p.allocate_region_pop w L).1 = ((p.stack c).pop c.chunk_size w).1 ∧
    (p.allocate_region_pop w L).2.1.stack c = ((p.stack c).pop c.chunk_size w).2.1 ∧
    (p.allocate_region_pop w L).2.2 = ((p.stack c).pop c.chunk_size w).2.2 ∧
    (∀ c2, c2 ≠ c → (p.allocate_region_pop w L).2.1.stack c2 = p.stack c2) ∧
    (p.allocate_region_pop w L).2.1.temp_regions = p.temp_regions ∧
    (p.allocate_region_pop w L).2.1.user_regions = p.user_regions ∧
    (p.allocate_region_pop w L).2.1.protection_domain_ = p.protection_domain_ := by
  rw [smallest_fitting_class_eq] at hc
  rw [allocate_region_pop_eq]
  split_ifs at hc with h1 h2 h3 h4 <;> simp only [Option.some.injEq] at hc <;> subst hc
  · simp only [h1, if_true, memory_pool.stack, PoolType.chunk_size, chunk_size_values.1]
    refine ⟨trivial, trivial, trivial, ?_, trivial, trivial, trivial⟩
    intro c2 hc2; cases c2 <;> first | rfl | exact absurd rfl hc2
  · simp only [h1, h2, if_true, if_false, memory_pool.stack, PoolType.chunk_size, chunk_size_values.2.1]
    refine ⟨trivial, trivial, trivial, ?_, trivial, trivial, trivial⟩
    intro c2 hc2; cases c2 <;> first | rfl | exact absurd rfl hc2
  · simp only [h1, h2, h3, if_true, if_false, memory_pool.stack, PoolType.chunk_size, chunk_size_values.2.2.1]
    refine ⟨trivial, trivial, trivial, ?_, trivial, trivial, trivial⟩
    intro c2 hc2; cases c2 <;> first | rfl | exact absurd rfl hc2
  · simp only [h1, h2, h3, h4, if_true, if_false, memory_pool.stack, PoolType.chunk_size, chunk_size_values.2.2.2]
    refine ⟨trivial, trivial, trivial, ?_, trivial, trivial, trivial⟩
    intro c2 hc2; cases c2 <;> first | rfl | exact absurd rfl hc2

theorem allocate_region_pop_none (p : memory_pool enabled) (w : World) (L : Nat)
    (hc : smallest_fitting_class L = none) :
    p.allocate_region_pop w L = (none, p, w) := by
  rw [smallest_fitting_class_eq] at hc
  rw [allocate_region_pop_eq]
  split_ifs at hc with h1 h2 h3 h4
  simp only [h1, h2, h3, h4, if_false]

/-! ## Counters -/

theorem performance_counter.pre_dec_pre_inc {bits : Nat} (c : performance_counter bits enabled)
    (h : c.in_range) : c.pre_inc.pre_dec = c := by
  cases enabled
  · rfl
  · cases c with | mk v =>
    simp only [performance_counter.in_range] at h
    simp only [performance_counter.pre_inc, performance_counter.pre_dec, if_true]
    congr 1
    have hp : 0 < 2 ^ bits := Nat.two_pow_pos bits
    rw [Nat.mod_add_mod, show v + 1 + (2 ^ bits - 1) = v + 2 ^ bits by omega,
      Nat.add_mod_right, Nat.mod_eq_of_lt h]

theorem performance_counter.pre_inc_in_range {bits : Nat} (c : performance_counter bits enabled)
    (h : c.in_range) : c.pre_inc.in_range := by
  cases enabled
  · exact h
  · exact Nat.mod_lt _ (Nat.two_pow_pos bits)

theorem performance_counter.pre_dec_in_range {bits : Nat} (c : performance_counter bits enabled)
    (h : c.in_range) : c.pre_dec.in_range := by
  cases enabled
  · exact h
  · exact Nat.mod_lt _ (Nat.two_pow_pos bits)

theorem performance_counter.add_assign_in_range {bits : Nat} (c : performance_counter bits enabled)
    (n : Nat) (h : c.in_range) : (c.add_assign n).in_range := by
  cases enabled
  · exact h
  · exact Nat.mod_lt _ (Nat.two_pow_pos bits)

/-- `k` decrements after `+= k` give the value back. -/
theorem performance_counter.iterate_pre_dec_value {bits : Nat} (k : Nat)
    (c : performance_counter bits true) :
    ((performance_counter.pre_dec)^[k] c).value_ % 2 ^ bits
      = (c.value_ + k * (2 ^ bits - 1)) % 2 ^ bits := by
  induction k generalizing c with
  | zero => simp
  | succ k ih =>
    rw [Function.iterate_succ_apply, ih]
    simp only [performance_counter.pre_dec, if_true]
    rw [Nat.mod_add_mod]
    congr 1
    ring

theorem performance_counter.iterate_pre_dec_add_assign {bits : Nat} (k : Nat)
    (c : performance_counter bits enabled) (h : c.in_range) :
    (performance_counter.pre_dec)^[k] (c.add_assign k) = c := by
  cases enabled
  · have : ∀ (j : Nat) (d : performance_counter bits false),
        (performance_counter.pre_dec)^[j] d = d := by
      intro j d
      induction j with
      | zero => rfl
      | succ j ih => rw [Function.iterate_succ_apply]; exact ih
    rw [this]; rfl
  · have hp : 0 < 2 ^ bits := Nat.two_pow_pos bits
    have h1 := performance_counter.iterate_pre_dec_value k (c.add_assign k)
    have h2 : ((performance_counter.pre_dec)^[k] (c.add_assign k)).in_range := by
      have : ∀ (j : Nat) (d : performance_counter bits true), d.in_range →
          ((performance_counter.pre_dec)^[j] d).in_range := by
        intro j
        induction j with
        | zero => intro d hd; exact hd
        | succ j ih =>
          intro d hd
          rw [Function.iterate_succ_apply]
          exact ih _ (performance_counter.pre_dec_in_range d hd)
      exact this k _ (performance_counter.add_assign_in_range c k h)
    simp only [performance_counter.in_range] at h h2
    rw [Nat.mod_eq_of_lt h2] at h1
    have h3 : (c.add_assign k).value_ = (c.value_ + k) % 2 ^ bits := by
      simp [performance_counter.add_assign]
    rw [h3, Nat.mod_add_mod] at h1
    have h4 : c.value_ + k + k * (2 ^ bits - 1) = c.value_ + k * 2 ^ bits := by
      have : k + k * (2 ^ bits - 1) = k * 2 ^ bits := by
        have : 2 ^ bits = (2 ^ bits - 1) + 1 := by omega
        conv_rhs => rw [this]
        ring
      omega
    rw [h4, Nat.add_mul_mod_self_right, Nat.mod_eq_of_lt h] at h1
    cases c with | mk v =>
    cases hc : (performance_counter.pre_dec)^[k] (performance_counter.add_assign ⟨v⟩ k) with | mk v2 =>
    rw [hc] at h1
    simp only at h1
    rw [h1]

/-! ## Heap and stack -/

theorem World.deref_new_object_self (w : World) (r : memory_region_impl) :
    (w.new_object r).2.deref (w.new_object r).1 = some r := by
  simp [World.deref, World.new_object, List.lookup]

theorem World.deref_new_object_of_ne (w : World) (r : memory_region_impl) (ptr : Nat)
    (h : ptr ≠ w.next_object) : (w.new_object r).2.deref ptr = w.deref ptr := by
  have hb : (ptr == w.next_object) = false := by simpa using h
  simp [World.deref, World.new_object, List.lookup, hb]

theorem World.is_chunk_iff (w : World) (C ptr : Nat) :
    w.is_chunk C ptr ↔ ∃ r, w.deref ptr = some r ∧ r.size_ = C ∧ r.flags_ = BLOCK_PARTIAL := by
  unfold World.is_chunk
  split
  · rename_i r h; simp [h]
  · rename_i h; simp [h]

theorem World.is_chunk_congr (w1 w2 : World) (C ptr : Nat) (h : w2.deref ptr = w1.deref ptr) :
    w2.is_chunk C ptr ↔ w1.is_chunk C ptr := by
  simp only [World.is_chunk_iff, h]

theorem allocate_pool_loop_spec (C : Nat) (block : memory_region_impl) (k : Nat) :
    ∀ (offset : Nat) (s : memory_pool_stack enabled) (w : World),
    (memory_pool_stack.allocate_pool_loop C block k offset s w).1.in_use_
        = (performance_counter.pre_dec)^[k] s.in_use_ ∧
    (memory_pool_stack.allocate_pool_loop C block k offset s w).1.accesses_ = s.accesses_ ∧
    (memory_pool_stack.allocate_pool_loop C block k offset s w).1.chunks_avail_ = s.chunks_avail_ ∧
    (memory_pool_stack.allocate_pool_loop C block k offset s w).1.pd_ = s.pd_ ∧
    (memory_pool_stack.allocate_pool_loop C block k offset s w).1.block_list_ = s.block_list_ ∧
    (memory_pool_stack.allocate_pool_loop C block k offset s w).1.free_list_.length
        = k + s.free_list_.length ∧
    (memory_pool_stack.allocate_pool_loop C block k offset s w).1.region_list_.length
        = s.region_list_.length + k ∧
    (∀ ptr ∈ (memory_pool_stack.allocate_pool_loop C block k offset s w).1.free_list_,
        ptr ∈ s.free_list_ ∨ (w.next_object ≤ ptr ∧ ptr < w.next_object + k ∧
          (memory_pool_stack.allocate_pool_loop C block k offset s w).2.is_chunk C ptr)) ∧
    (memory_pool_stack.allocate_pool_loop C block k offset s w).2.next_object = w.next_object + k ∧
    (∀ ptr, ptr < w.next_object →
        (memory_pool_stack.allocate_pool_loop C block k offset s w).2.deref ptr = w.deref ptr) ∧
    (∀ o ∈ (memory_pool_stack.allocate_pool_loop C block k offset s w).2.objects,
        o ∈ w.objects ∨ (w.next_object ≤ o.1 ∧ o.1 < w.next_object + k)) ∧
    World.same_provider w (memory_pool_stack.allocate_pool_loop C block k offset s w).2 := by
  induction k with
  | zero =>
    intro offset s w
    refine ⟨rfl, rfl, rfl, rfl, rfl, ?_, rfl, fun ptr h => Or.inl h, rfl, fun _ _ => rfl,
      fun o h => Or.inl h, ?_⟩
    · simp [memory_pool_stack.allocate_pool_loop]
    · unfold World.same_provider
      exact ⟨rfl, rfl, rfl, rfl, rfl, rfl, rfl, rfl, rfl, rfl⟩
  | succ k ih =>
    intro offset s w
    rw [memory_pool_stack.allocate_pool_loop]
    obtain ⟨h1, h2, h3, h4, h5, h6, h7, h8, h9, h10, h11, h12⟩ :=
      ih (offset + C)
        (memory_pool_stack.push { s with region_list_ := s.region_list_ ++
          [(w.new_object (memory_region_impl.make block.get_region
            (block.get_base_address + offset) block.get_base_address C BLOCK_PARTIAL)).1] }
          (w.new_object (memory_region_impl.make block.get_region
            (block.get_base_address + offset) block.get_base_address C BLOCK_PARTIAL)).1)
        (w.new_object (memory_region_impl.make block.get_region
            (block.get_base_address + offset) block.get_base_address C BLOCK_PARTIAL)).2
    refine ⟨?_, ?_, ?_, ?_, ?_, ?_, ?_, ?_, ?_, ?_, ?_, ?_⟩
    · rw [h1, Function.iterate_succ_apply]; rfl
    · rw [h2]; rfl
    · rw [h3]; rfl
    · rw [h4]; rfl
    · rw [h5]; rfl
    · rw [h6]; simp [memory_pool_stack.push]; omega
    · rw [h7]; simp [memory_pool_stack.push]; omega
    · intro ptr hptr
      rcases h8 ptr hptr with h | ⟨ha, hb, hc⟩
      · simp only [memory_pool_stack.push, List.mem_cons] at h
        rcases h with h | h
        · right
          subst h
          refine ⟨le_refl _, by simp [World.new_object], ?_⟩
          rw [World.is_chunk_congr _ _ _ _ (h10 _ (by simp [World.new_object])),
            World.is_chunk_iff]
          exact ⟨_, World.deref_new_object_self _ _, rfl, rfl⟩
        · left; exact h
      · right
        simp only [World.new_object] at ha hb
        exact ⟨by omega, by omega, hc⟩
    · rw [h9]; simp [World.new_object]; omega
    · intro ptr hptr
      rw [h10 ptr (by simp [World.new_object]; omega)]
      exact World.deref_new_object_of_ne _ _ _ (by omega)
    · intro o ho
      rcases h11 o ho with h | ⟨ha, hb⟩
      · simp only [World.new_object, List.mem_cons] at h
        rcases h with h | h
        · right; subst h; simp
        · left; exact h
      · right
        simp only [World.new_object] at ha hb
        exact ⟨by omega, by omega⟩
    · simpa [World.same_provider, World.new_object] using h12

/-! ## Regions -/

theorem memory_region_impl.destroy_objects (r : memory_region_impl) (w : World) :
    (r.destroy w).objects = w.objects ∧ (r.destroy w).next_object = w.next_object := by
  unfold memory_region_impl.destroy memory_region_impl.release
  split
  · exact ⟨rfl, rfl⟩
  · split
    · exact ⟨rfl, rfl⟩
    · simp only [World.unregister_memory]
      split
      · exact ⟨rfl, rfl⟩
      · split <;> exact ⟨rfl, rfl⟩

theorem memory_region_impl.allocate_objects (r : memory_region_impl) (w : World) (pd L : Nat) :
    (r.allocate w pd L).2.2.objects = w.objects ∧
    (r.allocate w pd L).2.2.next_object = w.next_object := by
  simp only [memory_region_impl.allocate, World.register_memory, World.new_array]
  split <;> exact ⟨rfl, rfl⟩

/-- The region and the provider call that `allocate` produces. -/
theorem memory_region_impl.allocate_spec (r : memory_region_impl) (w : World) (pd L : Nat) :
    (r.allocate w pd L).1 = 0 ∧
    (r.allocate w pd L).2.1 =
      { r with address_ := w.next_buffer, base_addr_ := w.next_buffer, size_ := L,
               used_space_ := 0,
               region_ := if w.register_status.headD 0 = 0 then some w.next_handle
                          else r.region_ } ∧
    (r.allocate w pd L).2.2.register_log =
      ⟨pd, w.next_buffer, L, w.provider_flags, 0, w.next_buffer, 0⟩ :: w.register_log ∧
    (r.allocate w pd L).2.2.unregister_log = w.unregister_log ∧
    (r.allocate w pd L).2.2.delete_log = w.delete_log := by
  simp only [memory_region_impl.allocate, World.register_memory, World.new_array]
  split <;> simp_all

/-! ## allocate_pool -/

theorem block_list_assign_objects (bl : List (Nat × memory_region_impl)) (key : Nat)
    (block : memory_region_impl) (w : World) :
    (memory_pool_stack.block_list_assign bl key block w).2.objects = w.objects ∧
    (memory_pool_stack.block_list_assign bl key block w).2.next_object = w.next_object := by
  unfold memory_pool_stack.block_list_assign
  split
  · exact ⟨rfl, rfl⟩
  · exact memory_region_impl.destroy_objects _ _

/-- The effect of `allocate_pool(num_chunks)` on the counters, the free list
and the heap of region objects. -/
theorem allocate_pool_spec (C : Nat) (s : memory_pool_stack enabled) (w : World) (n : Nat) :
    (s.in_use_.in_range → (s.allocate_pool C w n).2.1.in_use_ = s.in_use_) ∧
    (s.allocate_pool C w n).2.1.accesses_ = s.accesses_ ∧
    (s.allocate_pool C w n).2.1.chunks_avail_ = s.chunks_avail_.add_assign n ∧
    (s.allocate_pool C w n).2.1.pd_ = s.pd_ ∧
    (s.allocate_pool C w n).2.1.free_list_.length = n + s.free_list_.length ∧
    (s.allocate_pool C w n).2.1.region_list_.length = s.region_list_.length + n ∧
    (∀ ptr ∈ (s.allocate_pool C w n).2.1.free_list_,
        ptr ∈ s.free_list_ ∨ (w.next_object ≤ ptr ∧ ptr < w.next_object + n ∧
          (s.allocate_pool C w n).2.2.is_chunk C ptr)) ∧
    (s.allocate_pool C w n).2.2.next_object = w.next_object + n ∧
    (∀ ptr, ptr < w.next_object → (s.allocate_pool C w n).2.2.deref ptr = w.deref ptr) ∧
    (∀ o ∈ (s.allocate_pool C w n).2.2.objects,
        o ∈ w.objects ∨ (w.next_object ≤ o.1 ∧ o.1 < w.next_object + n)) := by
  unfold memory_pool_stack.allocate_pool
  simp only []
  generalize hb : memory_block_allocator.malloc w s.pd_ (C * n) = b
  generalize hbl : memory_pool_stack.block_list_assign s.block_list_ b.1.get_address b.1 b.2 = bl
  have hbo : b.2.objects = w.objects ∧ b.2.next_object = w.next_object := by
    rw [← hb]; exact memory_region_impl.allocate_objects _ _ _ _
  have hblo : bl.2.objects = w.objects ∧ bl.2.next_object = w.next_object := by
    rw [← hbl]
    have := block_list_assign_objects s.block_list_ b.1.get_address b.1 b.2
    exact ⟨this.1.trans hbo.1, this.2.trans hbo.2⟩
  have hd : ∀ ptr, bl.2.deref ptr = w.deref ptr := by
    intro ptr; simp only [World.deref, hblo.1]
  obtain ⟨h1, h2, h3, h4, -, h6, h7, h8, h9, h10, h11, -⟩ :=
    allocate_pool_loop_spec C b.1 n 0
      { s with block_list_ := bl.1, in_use_ := s.in_use_.add_assign n,
               chunks_avail_ := s.chunks_avail_.add_assign n } bl.2
  refine ⟨?_, h2, h3, h4, h6, h7, ?_, ?_, ?_, ?_⟩
  · intro hr
    rw [h1]
    exact performance_counter.iterate_pre_dec_add_assign n s.in_use_ hr
  · intro ptr hptr
    rcases h8 ptr hptr with h | h
    · left; exact h
    · right; rw [hblo.2] at h; exact h
  · rw [h9, hblo.2]
  · intro ptr hptr
    rw [h10 ptr (by rw [hblo.2]; exact hptr), hd]
  · intro o ho
    rcases h11 o ho with h | h
    · left; rw [hblo.1] at h; exact h
    · right; rw [hblo.2] at h; exact h

/-! ## pop and push -/

theorem pop_hit (C : Nat) (s : memory_pool_stack enabled) (w : World) (r : Nat) (rest : List Nat)
    (h : s.free_list_ = r :: rest) :
    s.pop C w = (some r, { s with free_list_ := rest, in_use_ := s.in_use_.pre_inc,
                                  accesses_ := s.accesses_.pre_inc }, w) := by
  unfold memory_pool_stack.pop
  rw [h]

theorem pop_miss (C : Nat) (s : memory_pool_stack enabled) (w : World)
    (h : s.free_list_ = []) :
    s.pop C w = (none, (s.allocate_pool C w s.in_use_.read).2.1,
                 (s.allocate_pool C w s.in_use_.read).2.2) := by
  unfold memory_pool_stack.pop
  rw [h]

/-! ## Routing of a request -/

/-- C1. For every request length, `allocate_region` consults exactly one size
class, the smallest whose chunk size is at least the length: tiny up to 1024
(0 included), small up to 16384, medium up to 65536, large up to 1048576, and
no class at all above that, where the region is a temporary one.  The selected
stack is popped once and the other three are left as they were.  The lengths
of scenario S2 route to tiny, tiny, small, small, medium, medium, large, large
and no class. -/
theorem allocate_region_routing (p : memory_pool enabled) (w : World) (L : Nat) :
    (smallest_fitting_class L = some .pool_tiny ↔ L ≤ 1024) ∧
    (smallest_fitting_class L = some .pool_small ↔ 1024 < L ∧ L ≤ 16384) ∧
    (smallest_fitting_class L = some .pool_medium ↔ 16384 < L ∧ L ≤ 65536) ∧
    (smallest_fitting_class L = some .pool_large ↔ 65536 < L ∧ L ≤ 1048576) ∧
    (smallest_fitting_class L = none ↔ 1048576 < L) ∧
    (∀ c, smallest_fitting_class L = some c →
      L ≤ c.chunk_size ∧ ∀ c2 : PoolType, L ≤ c2.chunk_size → c.chunk_size ≤ c2.chunk_size) ∧
    (∀ c, smallest_fitting_class L = some c →
      (p.allocate_region_pop w L).1 = ((p.stack c).pop c.chunk_size w).1 ∧
      (p.allocate_region_pop w L).2.1.stack c = ((p.stack c).pop c.chunk_size w).2.1 ∧
      (p.allocate_region_pop w L).2.2 = ((p.stack c).pop c.chunk_size w).2.2 ∧
      (p.allocate_region w L).2.1.stack c = ((p.stack c).pop c.chunk_size w).2.1 ∧
      (∀ r, ((p.stack c).pop c.chunk_size w).1 = some r → (p.allocate_region w L).1 = r) ∧
      ∀ c2, c2 ≠ c → (p.allocate_region w L).2.1.stack c2 = p.stack c2) ∧
    (smallest_fitting_class L = none →
      p.allocate_region w L = p.allocate_temporary_region w L ∧
      ∀ c, (p.allocate_region w L).2.1.stack c = p.stack c) ∧
    [0, 1024, 1025, 16384, 16385, 65536, 65537, 1048576, 1048577].map smallest_fitting_class =
      [some .pool_tiny, some .pool_tiny, some .pool_small, some .pool_small,
       some .pool_medium, some .pool_medium, some .pool_large, some .pool_large, none] := by
  refine ⟨?_, ?_, ?_, ?_, ?_, ?_, ?_, ?_, ?_⟩
  · rw [smallest_fitting_class_eq]; split_ifs <;> simp <;> omega
  · rw [smallest_fitting_class_eq]; split_ifs <;> simp <;> omega
  · rw [smallest_fitting_class_eq]; split_ifs <;> simp <;> omega
  · rw [smallest_fitting_class_eq]; split_ifs <;> simp <;> omega
  · rw [smallest_fitting_class_eq]; split_ifs <;> simp <;> omega
  · intro c hc
    rw [smallest_fitting_class_eq] at hc
    constructor
    · split_ifs at hc <;> simp at hc <;> subst hc <;>
        simp [PoolType.chunk_size, RDMA_POOL_1K_CHUNK_SIZE,
          RDMA_POOL_SMALL_CHUNK_SIZE, RDMA_POOL_MEDIUM_CHUNK_SIZE, RDMA_POOL_LARGE_CHUNK_SIZE] <;> omega
    · intro c2 h2
      split_ifs at hc <;> simp at hc <;> subst hc <;> cases c2 <;>
        simp [PoolType.chunk_size, RDMA_POOL_1K_CHUNK_SIZE,
          RDMA_POOL_SMALL_CHUNK_SIZE, RDMA_POOL_MEDIUM_CHUNK_SIZE, RDMA_POOL_LARGE_CHUNK_SIZE] at h2 ⊢ <;> omega
  · intro c hc
    obtain ⟨e1, e2, e3, e4, -⟩ := allocate_region_pop_class p w L c hc
    refine ⟨e1, e2, e3, ?_, ?_, ?_⟩
    · rw [allocate_region_stack, e2]
    · intro r hr
      rw [allocate_region_of_pop_some p w L r (by rw [e1, hr])]
    · intro c2 hc2
      rw [allocate_region_stack, e4 c2 hc2]
  · intro hc
    have e := allocate_region_pop_none p w L hc
    have e1 : (p.allocate_region_pop w L).1 = none := by rw [e]
    refine ⟨?_, ?_⟩
    · rw [allocate_region_of_pop_none p w L e1, e]
    · intro c
      rw [allocate_region_stack, e]
  · decide

/-! ## Temporary regions -/

theorem allocate_temporary_region_spec (p : memory_pool enabled) (w : World) (L : Nat) :
    (p.allocate_temporary_region w L).1 = w.next_object ∧
    (p.allocate_temporary_region w L).2.1 =
      { p with temp_regions := (p.temp_regions + 1) % 2 ^ 32 } ∧
    (p.allocate_temporary_region w L).2.2.deref (p.allocate_temporary_region w L).1
      = some (temporary_region_of w L) ∧
    (p.allocate_temporary_region w L).2.2.register_log =
      ⟨p.protection_domain_, w.next_buffer, L, w.provider_flags, 0, w.next_buffer, 0⟩
        :: w.register_log ∧
    (p.allocate_temporary_region w L).2.2.unregister_log = w.unregister_log ∧
    (p.allocate_temporary_region w L).2.2.delete_log = w.delete_log ∧
    (p.allocate_temporary_region w L).2.2.next_object = w.next_object + 1 ∧
    (∀ ptr, ptr ≠ w.next_object →
      (p.allocate_temporary_region w L).2.2.deref ptr = w.deref ptr) ∧
    (p.allocate_temporary_region w L).2.2.objects =
      (w.next_object, temporary_region_of w L) :: w.objects := by
  obtain ⟨-, h2, h3, h4, h5⟩ :=
    memory_region_impl.allocate_spec memory_region_impl.default.set_temp_region w
      p.protection_domain_ L
  obtain ⟨o1, o2⟩ :=
    memory_region_impl.allocate_objects memory_region_impl.default.set_temp_region w
      p.protection_domain_ L
  have e : (memory_region_impl.default.set_temp_region.allocate w p.protection_domain_ L).2.1
      = temporary_region_of w L := by
    rw [h2]; rfl
  simp only [memory_pool.allocate_temporary_region]
  refine ⟨?_, trivial, ?_, ?_, ?_, ?_, ?_, ?_, ?_⟩
  · simp only [World.new_object, o2]
  · rw [World.deref_new_object_self, e]
  · simpa [World.new_object] using h3
  · simpa [World.new_object] using h4
  · simpa [World.new_object] using h5
  · simp only [World.new_object, o2]
  · intro ptr hptr
    rw [World.deref_new_object_of_ne _ _ _ (by rw [o2]; exact hptr)]
    simp only [World.deref, o1]
  · simp only [World.new_object, o1, o2, e]

/-! ## deallocate -/

theorem chunk_flags (r : memory_region_impl) (h : r.flags_ = BLOCK_PARTIAL) :
    r.get_temp_region = false ∧ r.get_user_region = false ∧ r.get_partial_region = true := by
  simp only [memory_region_impl.get_temp_region, memory_region_impl.get_user_region,
    memory_region_impl.get_partial_region, h]
  decide

theorem temp_flags (r : memory_region_impl) (h : r.flags_ = BLOCK_TEMP) :
    r.get_temp_region = true ∧ r.get_user_region = false ∧ r.get_partial_region = false := by
  simp only [memory_region_impl.get_temp_region, memory_region_impl.get_user_region,
    memory_region_impl.get_partial_region, h]
  decide

/-- A sub-region of class `c` goes back onto the stack of class `c`. -/
theorem deallocate_chunk (p : memory_pool enabled) (w : World) (ptr : Nat) (c : PoolType)
    (h : w.is_chunk c.chunk_size ptr) :
    p.deallocate w ptr = some (p.set_stack c ((p.stack c).push ptr), w) := by
  rw [World.is_chunk_iff] at h
  obtain ⟨r, hr, hs, hf⟩ := h
  obtain ⟨f1, f2, -⟩ := chunk_flags r hf
  unfold memory_pool.deallocate
  simp only [hr, f1, f2, Bool.or_self, memory_region_impl.get_size, hs,
    memory_pool_stack.chunk_size, chunk_size_values.1, chunk_size_values.2.1,
    chunk_size_values.2.2.1, chunk_size_values.2.2.2]
  cases c <;> simp [PoolType.chunk_size, chunk_size_values.1, chunk_size_values.2.1,
    chunk_size_values.2.2.1, chunk_size_values.2.2.2, memory_pool.set_stack, memory_pool.stack]

/-- A region with `BLOCK_TEMP` set is counted out of `temp_regions` and deleted. -/
theorem deallocate_temp (p : memory_pool enabled) (w : World) (ptr : Nat) (r : memory_region_impl)
    (hr : w.deref ptr = some r) (ht : r.get_temp_region = true) :
    p.deallocate w ptr =
      some ({ p with temp_regions := (p.temp_regions + (2 ^ 32 - 1)) % 2 ^ 32 },
            w.delete_object ptr r) := by
  unfold memory_pool.deallocate
  simp only [hr, ht, Bool.true_or, if_true]

/-! ## allocate_region -/

theorem allocate_region_pop_set_stack (p : memory_pool enabled) (w : World) (L : Nat)
    (c : PoolType) (hc : smallest_fitting_class L = some c) :
    p.allocate_region_pop w L =
      (((p.stack c).pop c.chunk_size w).1,
       p.set_stack c ((p.stack c).pop c.chunk_size w).2.1,
       ((p.stack c).pop c.chunk_size w).2.2) := by
  rw [smallest_fitting_class_eq] at hc
  rw [allocate_region_pop_eq]
  split_ifs at hc with h1 h2 h3 h4 <;> simp only [Option.some.injEq] at hc <;> subst hc
  · simp only [h1, if_true, memory_pool.stack, PoolType.chunk_size, chunk_size_values.1,
      memory_pool.set_stack]
  · simp only [h1, h2, if_true, if_false, memory_pool.stack, PoolType.chunk_size,
      chunk_size_values.2.1, memory_pool.set_stack]
  · simp only [h1, h2, h3, if_true, if_false, memory_pool.stack, PoolType.chunk_size,
      chunk_size_values.2.2.1, memory_pool.set_stack]
  · simp only [h1, h2, h3, h4, if_true, if_false, memory_pool.stack, PoolType.chunk_size,
      chunk_size_values.2.2.2, memory_pool.set_stack]

/-- A hit: the top of the free list of the selected class is handed out. -/
theorem allocate_region_hit (p : memory_pool enabled) (w : World) (L : Nat) (c : PoolType)
    (r : Nat) (rest : List Nat)
    (hc : smallest_fitting_class L = some c) (hfl : (p.stack c).free_list_ = r :: rest) :
    p.allocate_region w L =
      (r, p.set_stack c ((p.stack c).pop c.chunk_size w).2.1, w) := by
  have e := allocate_region_pop_set_stack p w L c hc
  have e1 := pop_hit c.chunk_size (p.stack c) w r rest hfl
  have e2 : ((p.stack c).pop c.chunk_size w).1 = some r := by rw [e1]
  have e3 : ((p.stack c).pop c.chunk_size w).2.2 = w := by rw [e1]
  rw [allocate_region_of_pop_some p w L r (by rw [e, e2]), e, e3]

/-- A miss: the selected class grows by its `in_use_` and the request is served
by a temporary region. -/
theorem allocate_region_miss (p : memory_pool enabled) (w : World) (L : Nat) (c : PoolType)
    (hc : smallest_fitting_class L = some c) (hfl : (p.stack c).free_list_ = []) :
    p.allocate_region w L =
      (p.set_stack c
          ((p.stack c).allocate_pool c.chunk_size w (p.stack c).in_use_.read).2.1).allocate_temporary_region
        ((p.stack c).allocate_pool c.chunk_size w (p.stack c).in_use_.read).2.2 L := by
  have e := allocate_region_pop_set_stack p w L c hc
  rw [pop_miss c.chunk_size (p.stack c) w hfl] at e
  rw [allocate_region_of_pop_none p w L (by rw [e]), e]

/-- An oversize request is served by a temporary region at once. -/
theorem allocate_region_oversize (p : memory_pool enabled) (w : World) (L : Nat)
    (hc : smallest_fitting_class L = none) :
    p.allocate_region w L = p.allocate_temporary_region w L := by
  have e := allocate_region_pop_none p w L hc
  rw [allocate_region_of_pop_none p w L (by rw [e]), e]

theorem stack_set_stack (p : memory_pool enabled) (c : PoolType) (s : memory_pool_stack enabled) :
    (p.set_stack c s).stack c = s := by
  cases c <;> rfl

theorem stack_set_stack_of_ne (p : memory_pool enabled) (c c2 : PoolType)
    (s : memory_pool_stack enabled) (h : c2 ≠ c) : (p.set_stack c s).stack c2 = p.stack c2 := by
  cases c <;> cases c2 <;> first | rfl | exact absurd rfl h

theorem set_stack_counters (p : memory_pool enabled) (c : PoolType)
    (s : memory_pool_stack enabled) :
    (p.set_stack c s).temp_regions = p.temp_regions ∧
    (p.set_stack c s).user_regions = p.user_regions ∧
    (p.set_stack c s).protection_domain_ = p.protection_domain_ := by
  cases c <;> exact ⟨rfl, rfl, rfl⟩

theorem smallest_fitting_class_le (L : Nat) (c : PoolType)
    (hc : smallest_fitting_class L = some c) : L ≤ c.chunk_size := by
  rw [smallest_fitting_class_eq] at hc
  split_ifs at hc <;> simp only [Option.some.injEq] at hc <;> subst hc <;>
    simp only [PoolType.chunk_size, chunk_size_values.1, chunk_size_values.2.1,
      chunk_size_values.2.2.1, chunk_size_values.2.2.2] <;> omega

/-- C2. For every request length and every pool state that satisfies the
representation invariant, `allocate_region` returns a pointer to a live region
whose size is at least the length: a sub-region of the selected class, of the
chunk size of that class, when the free list of the class is not empty, and a
temporary region of exactly the requested size otherwise. -/
theorem allocate_region_returns_region (p : memory_pool enabled) (w : World) (L : Nat)
    (hwf : p.wf w) :
    ∃ r, (p.allocate_region w L).2.2.deref (p.allocate_region w L).1 = some r ∧ L ≤ r.size_ ∧
      ((∃ c, smallest_fitting_class L = some c ∧ (p.stack c).free_list_ ≠ [] ∧
          r.size_ = c.chunk_size ∧ r.flags_ = BLOCK_PARTIAL) ∨
       ((∀ c, smallest_fitting_class L = some c → (p.stack c).free_list_ = []) ∧
          r.size_ = L ∧ r.flags_ = BLOCK_TEMP)) := by
  cases hc : smallest_fitting_class L with
  | none =>
    rw [allocate_region_oversize p w L hc]
    obtain ⟨-, -, h3, -⟩ := allocate_temporary_region_spec p w L
    refine ⟨_, h3, le_refl _, Or.inr ⟨?_, rfl, rfl⟩⟩
    intro c h
    cases h
  | some c =>
    cases hfl : (p.stack c).free_list_ with
    | nil =>
      rw [allocate_region_miss p w L c hc hfl]
      obtain ⟨-, -, h3, -⟩ := allocate_temporary_region_spec
        (p.set_stack c ((p.stack c).allocate_pool c.chunk_size w (p.stack c).in_use_.read).2.1)
        ((p.stack c).allocate_pool c.chunk_size w (p.stack c).in_use_.read).2.2 L
      refine ⟨_, h3, le_refl _, Or.inr ⟨?_, rfl, rfl⟩⟩
      intro c2 h2
      cases h2
      exact hfl
    | cons r rest =>
      rw [allocate_region_hit p w L c r rest hc hfl]
      have hch := (hwf.2.1 c).1 r (by rw [hfl]; exact List.mem_cons_self _ _)
      rw [World.is_chunk_iff] at hch
      obtain ⟨reg, h1, h2, h3⟩ := hch
      refine ⟨reg, h1, ?_, Or.inl ⟨c, rfl, ?_, h2, h3⟩⟩
      · rw [h2]; exact smallest_fitting_class_le L c hc
      · rw [hfl]; exact List.cons_ne_nil _ _

theorem smallest_fitting_class_isSome (L : Nat) (hL : L ≤ 1048576) :
    ∃ c, smallest_fitting_class L = some c := by
  rw [smallest_fitting_class_eq]
  split_ifs
  · exact ⟨_, rfl⟩
  · exact ⟨_, rfl⟩
  · exact ⟨_, rfl⟩
  · exact ⟨_, rfl⟩

theorem stack_with_temp_regions (p : memory_pool enabled) (t : Nat) (c : PoolType) :
    ({ p with temp_regions := t } : memory_pool enabled).stack c = p.stack c := by
  cases c <;> rfl

theorem temporary_region_of_temp (w : World) (L : Nat) :
    (temporary_region_of w L).get_temp_region = true ∧
    (temporary_region_of w L).get_user_region = false ∧
    (temporary_region_of w L).get_partial_region = false :=
  temp_flags _ rfl

/-- C3. With counters enabled, for every length up to the large chunk size and
every pool state that satisfies the representation invariant, whether the
selected class has a free sub-region or not, `allocate_region` followed by
`deallocate` of the returned region leaves the `in_use_` counter of the
selected class at the value it had before. -/
theorem allocate_deallocate_in_use (p : memory_pool true) (w : World) (L : Nat)
    (hL : L ≤ 1048576) (hwf : p.wf w) :
    ∃ c p2 w2, smallest_fitting_class L = some c ∧
      (p.allocate_region w L).2.1.deallocate (p.allocate_region w L).2.2
        (p.allocate_region w L).1 = some (p2, w2) ∧
      (p2.stack c).in_use_ = (p.stack c).in_use_ ∧
      (p2.stack c).in_use_.read = (p.stack c).in_use_.read := by
  obtain ⟨c, hc⟩ := smallest_fitting_class_isSome L hL
  have hrange := (hwf.2.1 c).2.2.1
  cases hfl : (p.stack c).free_list_ with
  | nil =>
    rw [allocate_region_miss p w L c hc hfl]
    obtain ⟨-, h2, h3, -⟩ := allocate_temporary_region_spec
      (p.set_stack c ((p.stack c).allocate_pool c.chunk_size w (p.stack c).in_use_.read).2.1)
      ((p.stack c).allocate_pool c.chunk_size w (p.stack c).in_use_.read).2.2 L
    have hd := deallocate_temp
      ((p.set_stack c ((p.stack c).allocate_pool c.chunk_size w
        (p.stack c).in_use_.read).2.1).allocate_temporary_region
        ((p.stack c).allocate_pool c.chunk_size w (p.stack c).in_use_.read).2.2 L).2.1
      _ _ _ h3 (temporary_region_of_temp _ _).1
    have e : ∀ q : memory_pool true, q.stack c = ((p.set_stack c ((p.stack c).allocate_pool c.chunk_size w
        (p.stack c).in_use_.read).2.1).allocate_temporary_region
        ((p.stack c).allocate_pool c.chunk_size w (p.stack c).in_use_.read).2.2 L).2.1.stack c →
        (q.stack c).in_use_ = (p.stack c).in_use_ := by
      intro q hq
      rw [hq, h2, stack_with_temp_regions, stack_set_stack]
      exact (allocate_pool_spec c.chunk_size (p.stack c) w (p.stack c).in_use_.read).1 hrange
    refine ⟨c, _, _, hc, hd, ?_, ?_⟩
    · exact e _ (stack_with_temp_regions _ _ _)
    · rw [e _ (stack_with_temp_regions _ _ _)]
  | cons r rest =>
    rw [allocate_region_hit p w L c r rest hc hfl]
    have hch := (hwf.2.1 c).1 r (by rw [hfl]; exact List.mem_cons_self _ _)
    have hd := deallocate_chunk (p.set_stack c ((p.stack c).pop c.chunk_size w).2.1) w r c hch
    have e : (((p.set_stack c ((p.stack c).pop c.chunk_size w).2.1).set_stack c
        (((p.set_stack c ((p.stack c).pop c.chunk_size w).2.1).stack c).push r)).stack c).in_use_
        = (p.stack c).in_use_ := by
      rw [stack_set_stack, stack_set_stack, pop_hit c.chunk_size (p.stack c) w r rest hfl]
      exact performance_counter.pre_dec_pre_inc _ hrange
    exact ⟨c, _, _, hc, hd, e, by rw [e]⟩

/-! ## Destruction of regions -/

theorem lookup_filter_self (l : List (Nat × memory_region_impl)) (p : Nat) :
    (l.filter (fun o => o.1 != p)).lookup p = none := by
  induction l with
  | nil => rfl
  | cons o l ih =>
    obtain ⟨k, v⟩ := o
    by_cases h : k = p
    · have hf : (k != p) = false := by simpa using h
      rw [List.filter_cons_of_neg (by simp [hf])]
      exact ih
    · have hf : (k != p) = true := by simpa using h
      have hb : (p == k) = false := by simpa using fun e => h e.symm
      rw [List.filter_cons_of_pos (by simp [hf]), List.lookup_cons, hb]
      exact ih

theorem lookup_filter_of_ne (l : List (Nat × memory_region_impl)) (p q : Nat) (hq : q ≠ p) :
    (l.filter (fun o => o.1 != p)).lookup q = l.lookup q := by
  induction l with
  | nil => rfl
  | cons o l ih =>
    obtain ⟨k, v⟩ := o
    by_cases h : k = p
    · have hf : (k != p) = false := by simpa using h
      have hb : (q == k) = false := by rw [h]; simpa using hq
      rw [List.filter_cons_of_neg (by simp [hf]), List.lookup_cons, hb]
      exact ih
    · have hf : (k != p) = true := by simpa using h
      rw [List.filter_cons_of_pos (by simp [hf]), List.lookup_cons, List.lookup_cons, ih]

/-- The object is gone once it is deleted. -/
theorem World.deref_delete_object_self (w : World) (p : Nat) (r : memory_region_impl) :
    (w.delete_object p r).deref p = none := by
  simp only [World.delete_object, World.deref, World.free_object]
  exact lookup_filter_self _ _

theorem World.deref_delete_object_of_ne (w : World) (p q : Nat) (r : memory_region_impl)
    (hq : q ≠ p) : (w.delete_object p r).deref q = w.deref q := by
  simp only [World.delete_object, World.deref, World.free_object]
  rw [lookup_filter_of_ne _ _ _ hq, (memory_region_impl.destroy_objects r w).1]

/-- The provider calls and the `delete[]` of the destructor, by flags and handle. -/
theorem memory_region_impl.destroy_spec (r : memory_region_impl) (w : World) :
    (r.destroy w).register_log = w.register_log ∧
    (r.destroy w).unregister_log =
      (if r.get_partial_region then w.unregister_log
       else match r.region_ with
         | none => w.unregister_log
         | some h => h :: w.unregister_log) ∧
    (r.destroy w).delete_log =
      (if r.get_partial_region then w.delete_log
       else match r.region_ with
         | none => w.delete_log
         | some _ =>
           if w.unregister_status.headD 0 = 0 ∧ r.get_user_region = false
           then r.base_addr_ :: w.delete_log else w.delete_log) ∧
    (r.get_user_region = true → (r.destroy w).buffers = w.buffers) ∧
    (r.destroy w).next_handle = w.next_handle ∧
    (r.destroy w).register_status = w.register_status := by
  unfold memory_region_impl.destroy memory_region_impl.release
  by_cases hp : r.get_partial_region = true
  · simp [hp]
  · simp only [hp, if_false, Bool.false_eq_true]
    cases hr : r.region_ with
    | none => simp
    | some h =>
      simp only [World.unregister_memory, memory_region_impl.get_base_address]
      split_ifs <;> simp_all [World.delete_array]

/-! ## Registration of a caller's buffer -/

theorem register_temporary_region_spec (p : memory_pool enabled) (w : World) (ptr L : Nat) :
    (p.register_temporary_region w ptr L).1 = w.next_object ∧
    (p.register_temporary_region w ptr L).2.1 =
      { p with temp_regions := (p.temp_regions + 1) % 2 ^ 32 } ∧
    (p.register_temporary_region w ptr L).2.2.deref (p.register_temporary_region w ptr L).1
      = some { address_ := ptr, base_addr_ := ptr, size_ := L, used_space_ := L,
               flags_ := BLOCK_USER ||| BLOCK_TEMP,
               region_ := if w.register_status.headD 0 = 0 then some w.next_handle
                          else w.indeterminate } ∧
    (p.register_temporary_region w ptr L).2.2.register_log =
      ⟨p.protection_domain_, ptr, L, w.provider_flags, 0, ptr, 0⟩ :: w.register_log ∧
    (p.register_temporary_region w ptr L).2.2.unregister_log = w.unregister_log ∧
    (p.register_temporary_region w ptr L).2.2.delete_log = w.delete_log ∧
    (p.register_temporary_region w ptr L).2.2.buffers = w.buffers ∧
    (p.register_temporary_region w ptr L).2.2.unregister_status = w.unregister_status := by
  simp only [memory_pool.register_temporary_region, memory_region_impl.make_user,
    World.register_memory, World.new_object, World.deref, memory_region_impl.set_temp_region]
  split_ifs <;> simp_all [List.lookup]

/-- The registration `allocate_pool` makes for its backing block. -/
theorem allocate_pool_register_log (C : Nat) (s : memory_pool_stack enabled) (w : World) (n : Nat) :
    (s.allocate_pool C w n).2.2.register_log =
      ⟨s.pd_, w.next_buffer, C * n, w.provider_flags, 0, w.next_buffer, 0⟩ :: w.register_log := by
  unfold memory_pool_stack.allocate_pool
  simp only []
  obtain ⟨-, -, -, -, -, -, -, -, -, -, -, h12⟩ :=
    allocate_pool_loop_spec C (memory_block_allocator.malloc w s.pd_ (C * n)).1 n 0
      { s with block_list_ := (memory_pool_stack.block_list_assign s.block_list_
                  (memory_block_allocator.malloc w s.pd_ (C * n)).1.get_address
                  (memory_block_allocator.malloc w s.pd_ (C * n)).1
                  (memory_block_allocator.malloc w s.pd_ (C * n)).2).1,
               in_use_ := s.in_use_.add_assign n,
               chunks_avail_ := s.chunks_avail_.add_assign n }
      (memory_pool_stack.block_list_assign s.block_list_
                  (memory_block_allocator.malloc w s.pd_ (C * n)).1.get_address
                  (memory_block_allocator.malloc w s.pd_ (C * n)).1
                  (memory_block_allocator.malloc w s.pd_ (C * n)).2).2
  rw [h12.2.2.2.2.1]
  have hbl : ∀ (bl : List (Nat × memory_region_impl)) (key : Nat) (b : memory_region_impl)
      (w1 : World), (memory_pool_stack.block_list_assign bl key b w1).2.register_log
        = w1.register_log := by
    intro bl key b w1
    unfold memory_pool_stack.block_list_assign
    split
    · rfl
    · exact (memory_region_impl.destroy_spec _ _).1
  rw [hbl]
  exact (memory_region_impl.allocate_spec memory_region_impl.default w s.pd_ (C * n)).2.2.1

/-- C2, an instance: scenario S1, a request of 512 bytes. -/
theorem allocate_region_returns_region_witness :
    scenario_S1.1.wf scenario_S1.2 ∧
    ∃ r, (scenario_S1.1.allocate_region scenario_S1.2 512).2.2.deref
        (scenario_S1.1.allocate_region scenario_S1.2 512).1 = some r ∧ 512 ≤ r.size_ ∧
      ((∃ c, smallest_fitting_class 512 = some c ∧ (scenario_S1.1.stack c).free_list_ ≠ [] ∧
          r.size_ = c.chunk_size ∧ r.flags_ = BLOCK_PARTIAL) ∨
       ((∀ c, smallest_fitting_class 512 = some c → (scenario_S1.1.stack c).free_list_ = []) ∧
          r.size_ = 512 ∧ r.flags_ = BLOCK_TEMP)) :=
  ⟨by decide, allocate_region_returns_region scenario_S1.1 scenario_S1.2 512 (by decide)⟩

/-- C3, an instance: scenario S1 with the tiny class exhausted, 512 bytes. -/
theorem allocate_deallocate_in_use_witness :
    (512 ≤ 1048576 ∧ scenario_S1_exhausted.1.wf scenario_S1_exhausted.2) ∧
    ∃ c p2 w2, smallest_fitting_class 512 = some c ∧
      (scenario_S1_exhausted.1.allocate_region scenario_S1_exhausted.2 512).2.1.deallocate
        (scenario_S1_exhausted.1.allocate_region scenario_S1_exhausted.2 512).2.2
        (scenario_S1_exhausted.1.allocate_region scenario_S1_exhausted.2 512).1 = some (p2, w2) ∧
      (p2.stack c).in_use_ = (scenario_S1_exhausted.1.stack c).in_use_ ∧
      (p2.stack c).in_use_.read = (scenario_S1_exhausted.1.stack c).in_use_.read :=
  ⟨⟨by decide, by decide⟩,
   allocate_deallocate_in_use scenario_S1_exhausted.1 scenario_S1_exhausted.2 512
     (by decide) (by decide)⟩

/-! ## Round trip through the free list -/

/-- C4, counterexample. In scenario S1 with the four tiny chunks outstanding
(the pop misses), `allocate_region(512)` returns the region object `13`, a
temporary region at address `1159173`; after `deallocate` of that region it is
no longer live, and the next `allocate_region(512)` returns another object,
`12`, a tiny sub-region at address `1158148`. -/
theorem allocate_after_deallocate_not_same :
    (512 ≤ 1048576 ∧ smallest_fitting_class 512 = some PoolType.pool_tiny) ∧
    (scenario_S1_exhausted.1.allocate_region scenario_S1_exhausted.2 512).1 = 13 ∧
    ((scenario_S1_exhausted.1.allocate_region scenario_S1_exhausted.2 512).2.2.deref 13).map
      (fun r => (r.address_, r.flags_)) = some (1159173, BLOCK_TEMP) ∧
    ((scenario_S1_exhausted.1.allocate_region scenario_S1_exhausted.2 512).2.1.deallocate
        (scenario_S1_exhausted.1.allocate_region scenario_S1_exhausted.2 512).2.2
        (scenario_S1_exhausted.1.allocate_region scenario_S1_exhausted.2 512).1).map
      (fun x => ((x.1.allocate_region x.2 512).1, x.2.deref 13,
        ((x.1.allocate_region x.2 512).2.2.deref (x.1.allocate_region x.2 512).1).map
          (fun r => (r.address_, r.flags_))))
      = some (12, none, some (1158148, BLOCK_PARTIAL)) ∧
    ((scenario_S1_exhausted.1.allocate_region scenario_S1_exhausted.2 512).2.1.deallocate
        (scenario_S1_exhausted.1.allocate_region scenario_S1_exhausted.2 512).2.2
        (scenario_S1_exhausted.1.allocate_region scenario_S1_exhausted.2 512).1).map
      (fun x => decide ((x.1.allocate_region x.2 512).1
        = (scenario_S1_exhausted.1.allocate_region scenario_S1_exhausted.2 512).1))
      = some false := by
  decide

theorem push_fields (s : memory_pool_stack enabled) (r : Nat) :
    (s.push r).free_list_ = r :: s.free_list_ ∧ (s.push r).in_use_ = s.in_use_.pre_dec ∧
    (s.push r).accesses_ = s.accesses_ ∧ (s.push r).chunks_avail_ = s.chunks_avail_ ∧
    (s.push r).block_list_ = s.block_list_ ∧ (s.push r).region_list_ = s.region_list_ ∧
    (s.push r).pd_ = s.pd_ :=
  ⟨rfl, rfl, rfl, rfl, rfl, rfl, rfl⟩

theorem pop_hit_fields (C : Nat) (s : memory_pool_stack enabled) (w : World) (r : Nat)
    (rest : List Nat) (h : s.free_list_ = r :: rest) :
    (s.pop C w).2.1.free_list_ = rest ∧ (s.pop C w).2.1.in_use_ = s.in_use_.pre_inc ∧
    (s.pop C w).2.1.accesses_ = s.accesses_.pre_inc ∧
    (s.pop C w).2.1.chunks_avail_ = s.chunks_avail_ ∧
    (s.pop C w).2.1.block_list_ = s.block_list_ ∧ (s.pop C w).2.1.region_list_ = s.region_list_ ∧
    (s.pop C w).2.1.pd_ = s.pd_ := by
  rw [pop_hit C s w r rest h]
  exact ⟨rfl, rfl, rfl, rfl, rfl, rfl, rfl⟩

/-- C4, amended. For every length whose selected class has a free sub-region
when `allocate_region` is called (the pop hits), in a pool state that
satisfies the representation invariant: after `region = allocate_region(L)`
and `deallocate(region)` the free list of the class is what it was, and the
next `allocate_region` of any length routed to the same class returns the same
region object, unchanged on the heap. -/
theorem allocate_deallocate_allocate_same (p : memory_pool enabled) (w : World) (L L2 : Nat)
    (c : PoolType) (hwf : p.wf w)
    (hc : smallest_fitting_class L = some c) (hc2 : smallest_fitting_class L2 = some c)
    (hfl : (p.stack c).free_list_ ≠ []) :
    ∃ p2 w2,
      (p.allocate_region w L).2.1.deallocate (p.allocate_region w L).2.2
        (p.allocate_region w L).1 = some (p2, w2) ∧
      (p2.stack c).free_list_ = (p.stack c).free_list_ ∧
      (p2.allocate_region w2 L2).1 = (p.allocate_region w L).1 ∧
      (p2.allocate_region w2 L2).2.2.deref (p.allocate_region w L).1
        = (p.allocate_region w L).2.2.deref (p.allocate_region w L).1 ∧
      (p2.allocate_region w2 L2).2.2.deref (p.allocate_region w L).1
        = w.deref (p.allocate_region w L).1 ∧
      w.is_chunk c.chunk_size (p.allocate_region w L).1 := by
  cases hfl2 : (p.stack c).free_list_ with
  | nil => exact absurd hfl2 hfl
  | cons r rest =>
    rw [allocate_region_hit p w L c r rest hc hfl2]
    have hch := (hwf.2.1 c).1 r (by rw [hfl2]; exact List.mem_cons_self _ _)
    have hd := deallocate_chunk (p.set_stack c ((p.stack c).pop c.chunk_size w).2.1) w r c hch
    have hf : (((p.set_stack c ((p.stack c).pop c.chunk_size w).2.1).set_stack c
        (((p.set_stack c ((p.stack c).pop c.chunk_size w).2.1).stack c).push r)).stack c).free_list_
        = r :: rest := by
      rw [stack_set_stack, stack_set_stack, (push_fields _ _).1,
        (pop_hit_fields c.chunk_size (p.stack c) w r rest hfl2).1]
    have ha := allocate_region_hit _ w L2 c r rest hc2 hf
    refine ⟨_, _, hd, hf, ?_, ?_, ?_, hch⟩
    · rw [ha]
    · rw [ha]
    · rw [ha]

/-- C4, an instance of the amended claim: scenario S1 with free tiny chunks. -/
theorem allocate_deallocate_allocate_same_witness :
    (scenario_S1.1.wf scenario_S1.2 ∧ smallest_fitting_class 512 = some PoolType.pool_tiny ∧
      smallest_fitting_class 100 = some PoolType.pool_tiny ∧
      (scenario_S1.1.stack PoolType.pool_tiny).free_list_ ≠ []) ∧
    ∃ p2 w2,
      (scenario_S1.1.allocate_region scenario_S1.2 512).2.1.deallocate
        (scenario_S1.1.allocate_region scenario_S1.2 512).2.2
        (scenario_S1.1.allocate_region scenario_S1.2 512).1 = some (p2, w2) ∧
      (p2.stack PoolType.pool_tiny).free_list_ = (scenario_S1.1.stack PoolType.pool_tiny).free_list_ ∧
      (p2.allocate_region w2 100).1 = (scenario_S1.1.allocate_region scenario_S1.2 512).1 ∧
      (p2.allocate_region w2 100).2.2.deref (scenario_S1.1.allocate_region scenario_S1.2 512).1
        = (scenario_S1.1.allocate_region scenario_S1.2 512).2.2.deref
            (scenario_S1.1.allocate_region scenario_S1.2 512).1 ∧
      (p2.allocate_region w2 100).2.2.deref (scenario_S1.1.allocate_region scenario_S1.2 512).1
        = scenario_S1.2.deref (scenario_S1.1.allocate_region scenario_S1.2 512).1 ∧
      scenario_S1.2.is_chunk PoolType.pool_tiny.chunk_size
        (scenario_S1.1.allocate_region scenario_S1.2 512).1 :=
  ⟨⟨by decide, by decide, by decide, by decide⟩,
   allocate_deallocate_allocate_same scenario_S1.1 scenario_S1.2 512 100 PoolType.pool_tiny
     (by decide) (by decide) (by decide) (by decide)⟩

/-! ## A miss on the selected class -/

/-- C5, counterexample. Scenario S1: after four allocations of 512 bytes the
tiny class has `in_use = 4`, `accesses = 4`, `chunks_avail = 4` and an empty
free list.  The fifth `allocate_region(512)` grows the class to
`chunks_avail = 8`, but it does not pop again: the region it returns has
`BLOCK_TEMP` as its flags, not `BLOCK_PARTIAL`, `in_use` of the tiny class is
still `4`, not `5`, the four new chunks are all on the free list and
`temp_regions` is `1`. -/
theorem fifth_allocation_is_temporary :
    (scenario_S1_exhausted.1.tiny_.in_use_.read = 4 ∧
     scenario_S1_exhausted.1.tiny_.accesses_.read = 4 ∧
     scenario_S1_exhausted.1.tiny_.chunks_avail_.read = 4 ∧
     scenario_S1_exhausted.1.tiny_.free_list_ = [] ∧
     smallest_fitting_class 512 = some PoolType.pool_tiny) ∧
    (scenario_S1_exhausted.1.allocate_region scenario_S1_exhausted.2 512).2.1.tiny_.chunks_avail_.read
      = 8 ∧
    (scenario_S1_exhausted.1.allocate_region scenario_S1_exhausted.2 512).2.1.tiny_.in_use_.read
      = 4 ∧
    (scenario_S1_exhausted.1.allocate_region scenario_S1_exhausted.2 512).2.1.tiny_.in_use_.read
      ≠ 5 ∧
    (scenario_S1_exhausted.1.allocate_region scenario_S1_exhausted.2 512).2.1.tiny_.accesses_.read
      = 4 ∧
    (scenario_S1_exhausted.1.allocate_region scenario_S1_exhausted.2 512).2.1.tiny_.free_list_.length
      = 4 ∧
    (scenario_S1_exhausted.1.allocate_region scenario_S1_exhausted.2 512).2.1.temp_regions = 1 ∧
    ((scenario_S1_exhausted.1.allocate_region scenario_S1_exhausted.2 512).2.2.deref
        (scenario_S1_exhausted.1.allocate_region scenario_S1_exhausted.2 512).1).map
      (fun r => (r.flags_, r.get_partial_region, r.get_temp_region, r.size_))
      = some (BLOCK_TEMP, false, true, 512) := by
  decide

/-- What `allocate_region` does when the pop on the selected class misses. -/
theorem allocate_region_miss_spec (p : memory_pool enabled) (w : World) (L : Nat) (c : PoolType)
    (hc : smallest_fitting_class L = some c) (hfl : (p.stack c).free_list_ = []) :
    (p.allocate_region w L).2.1.stack c
      = ((p.stack c).allocate_pool c.chunk_size w (p.stack c).in_use_.read).2.1 ∧
    (∀ c2, c2 ≠ c → (p.allocate_region w L).2.1.stack c2 = p.stack c2) ∧
    (p.allocate_region w L).2.1.temp_regions = (p.temp_regions + 1) % 2 ^ 32 ∧
    (p.allocate_region w L).2.1.user_regions = p.user_regions ∧
    (p.allocate_region w L).2.2.deref (p.allocate_region w L).1
      = some (temporary_region_of
          ((p.stack c).allocate_pool c.chunk_size w (p.stack c).in_use_.read).2.2 L) ∧
    (p.allocate_region w L).2.2.register_log =
      ⟨p.protection_domain_,
        ((p.stack c).allocate_pool c.chunk_size w (p.stack c).in_use_.read).2.2.next_buffer, L,
        ((p.stack c).allocate_pool c.chunk_size w (p.stack c).in_use_.read).2.2.provider_flags,
        0, ((p.stack c).allocate_pool c.chunk_size w (p.stack c).in_use_.read).2.2.next_buffer, 0⟩
      :: ⟨(p.stack c).pd_, w.next_buffer, c.chunk_size * (p.stack c).in_use_.read,
          w.provider_flags, 0, w.next_buffer, 0⟩ :: w.register_log := by
  rw [allocate_region_miss p w L c hc hfl]
  obtain ⟨-, h2, h3, h4, -⟩ := allocate_temporary_region_spec
    (p.set_stack c ((p.stack c).allocate_pool c.chunk_size w (p.stack c).in_use_.read).2.1)
    ((p.stack c).allocate_pool c.chunk_size w (p.stack c).in_use_.read).2.2 L
  obtain ⟨s1, s2, s3⟩ := set_stack_counters p c
    ((p.stack c).allocate_pool c.chunk_size w (p.stack c).in_use_.read).2.1
  refine ⟨?_, ?_, ?_, ?_, h3, ?_⟩
  · rw [h2, stack_with_temp_regions, stack_set_stack]
  · intro c2 hc2
    rw [h2, stack_with_temp_regions, stack_set_stack_of_ne _ _ _ _ hc2]
  · rw [h2]; simp only [s1]
  · rw [h2]; simp only [s2]
  · rw [h4, s3, allocate_pool_register_log]

/-- C5, amended. With counters enabled, when the free list of the class
selected for the length is empty with `k` chunks outstanding,
`allocate_region` grows that class by `k` chunks (`chunks_avail` becomes
`chunks_avail + k`, so 4 becomes 8 in scenario S1, and the `k` new sub-regions
are all on the free list), does not pop again, and serves the request with a
temporary region of the requested size: the returned region has `BLOCK_TEMP`
set and `BLOCK_PARTIAL` clear, and `in_use` of the class is still `k`. -/
theorem allocate_region_grows_and_falls_back (p : memory_pool true) (w : World) (L k : Nat)
    (c : PoolType) (hc : smallest_fitting_class L = some c)
    (hfl : (p.stack c).free_list_ = []) (hr : (p.stack c).in_use_.in_range)
    (hk : (p.stack c).in_use_.read = k) :
    ((p.allocate_region w L).2.1.stack c).chunks_avail_.read
      = ((p.stack c).chunks_avail_.read + k) % 2 ^ 32 ∧
    ((p.allocate_region w L).2.1.stack c).free_list_.length = k ∧
    (∀ ptr ∈ ((p.allocate_region w L).2.1.stack c).free_list_,
      (p.allocate_region w L).2.2.is_chunk c.chunk_size ptr) ∧
    ((p.allocate_region w L).2.1.stack c).in_use_.read = k ∧
    ∃ r, (p.allocate_region w L).2.2.deref (p.allocate_region w L).1 = some r ∧
      r.get_temp_region = true ∧ r.get_partial_region = false ∧ r.size_ = L := by
  obtain ⟨m1, -, -, -, m5, -⟩ := allocate_region_miss_spec p w L c hc hfl
  obtain ⟨a1, -, a3, -, a5, -, a7, a8, -, -⟩ :=
    allocate_pool_spec c.chunk_size (p.stack c) w (p.stack c).in_use_.read
  rw [m1]
  refine ⟨?_, ?_, ?_, ?_, _, m5, (temporary_region_of_temp _ _).1,
    (temporary_region_of_temp _ _).2.2, rfl⟩
  · rw [a3, ← hk]; rfl
  · rw [a5, hfl, hk]; rfl
  · intro ptr hptr
    rcases a7 ptr hptr with h | ⟨-, h2, h3⟩
    · rw [hfl] at h; cases h
    · rw [allocate_region_miss p w L c hc hfl]
      obtain ⟨-, -, -, -, -, -, -, t8, -⟩ := allocate_temporary_region_spec
        (p.set_stack c ((p.stack c).allocate_pool c.chunk_size w (p.stack c).in_use_.read).2.1)
        ((p.stack c).allocate_pool c.chunk_size w (p.stack c).in_use_.read).2.2 L
      rw [World.is_chunk_congr _ _ _ _ (t8 ptr (by rw [a8]; omega))]
      exact h3
  · rw [a1 hr, hk]

/-- C5, an instance of the amended claim: scenario S1 with the four tiny
chunks outstanding, a fifth request of 512 bytes. -/
theorem allocate_region_grows_and_falls_back_witness :
    (smallest_fitting_class 512 = some PoolType.pool_tiny ∧
      (scenario_S1_exhausted.1.stack PoolType.pool_tiny).free_list_ = [] ∧
      (scenario_S1_exhausted.1.stack PoolType.pool_tiny).in_use_.in_range ∧
      (scenario_S1_exhausted.1.stack PoolType.pool_tiny).in_use_.read = 4) ∧
    (((scenario_S1_exhausted.1.allocate_region scenario_S1_exhausted.2 512).2.1.stack
        PoolType.pool_tiny).chunks_avail_.read
      = ((scenario_S1_exhausted.1.stack PoolType.pool_tiny).chunks_avail_.read + 4) % 2 ^ 32 ∧
    ((scenario_S1_exhausted.1.allocate_region scenario_S1_exhausted.2 512).2.1.stack
        PoolType.pool_tiny).free_list_.length = 4 ∧
    (∀ ptr ∈ ((scenario_S1_exhausted.1.allocate_region scenario_S1_exhausted.2 512).2.1.stack
        PoolType.pool_tiny).free_list_,
      (scenario_S1_exhausted.1.allocate_region scenario_S1_exhausted.2 512).2.2.is_chunk
        PoolType.pool_tiny.chunk_size ptr) ∧
    ((scenario_S1_exhausted.1.allocate_region scenario_S1_exhausted.2 512).2.1.stack
        PoolType.pool_tiny).in_use_.read = 4 ∧
    ∃ r, (scenario_S1_exhausted.1.allocate_region scenario_S1_exhausted.2 512).2.2.deref
        (scenario_S1_exhausted.1.allocate_region scenario_S1_exhausted.2 512).1 = some r ∧
      r.get_temp_region = true ∧ r.get_partial_region = false ∧ r.size_ = 512) :=
  ⟨⟨by decide, by decide, by decide, by decide⟩,
   allocate_region_grows_and_falls_back scenario_S1_exhausted.1 scenario_S1_exhausted.2 512 4
     PoolType.pool_tiny (by decide) (by decide) (by decide) (by decide)⟩

/-- C6. When the free list of the class selected for the length is empty,
`allocate_region` makes one growth attempt on that class (one `allocate_pool`
call for `in_use` chunks, hence one registration of a backing block of
`ChunkSize * in_use` bytes) and falls back to a temporary region: the returned
region has `BLOCK_TEMP` set and `BLOCK_PARTIAL` clear, its size is exactly the
requested length, `temp_regions` is incremented by one (as a `uint32_t`), the
`in_use` and `accesses` counters of the class are unchanged, and the other
classes are untouched.  The only other provider call is the registration of the
temporary region. -/
theorem allocate_region_miss_falls_back (p : memory_pool enabled) (w : World) (L : Nat)
    (c : PoolType) (hc : smallest_fitting_class L = some c)
    (hfl : (p.stack c).free_list_ = []) (hr : (p.stack c).in_use_.in_range) :
    (∃ r, (p.allocate_region w L).2.2.deref (p.allocate_region w L).1 = some r ∧
      r.get_temp_region = true ∧ r.get_partial_region = false ∧ r.size_ = L) ∧
    (p.allocate_region w L).2.1.temp_regions = (p.temp_regions + 1) % 2 ^ 32 ∧
    ((p.allocate_region w L).2.1.stack c).in_use_ = (p.stack c).in_use_ ∧
    ((p.allocate_region w L).2.1.stack c).accesses_ = (p.stack c).accesses_ ∧
    (p.allocate_region w L).2.1.stack c
      = ((p.stack c).allocate_pool c.chunk_size w (p.stack c).in_use_.read).2.1 ∧
    (∀ c2, c2 ≠ c → (p.allocate_region w L).2.1.stack c2 = p.stack c2) ∧
    (∃ temp_call : register_call, temp_call.len = L ∧
      (p.allocate_region w L).2.2.register_log =
        temp_call :: ⟨(p.stack c).pd_, w.next_buffer, c.chunk_size * (p.stack c).in_use_.read,
          w.provider_flags, 0, w.next_buffer, 0⟩ :: w.register_log) ∧
    (p.allocate_region w L).2.2.register_log.length = w.register_log.length + 2 := by
  obtain ⟨m1, m2, m3, -, m5, m6⟩ := allocate_region_miss_spec p w L c hc hfl
  obtain ⟨a1, a2, -⟩ :=
    allocate_pool_spec c.chunk_size (p.stack c) w (p.stack c).in_use_.read
  refine ⟨⟨_, m5, (temporary_region_of_temp _ _).1, (temporary_region_of_temp _ _).2.2, rfl⟩,
    m3, ?_, ?_, m1, m2, ⟨_, ?_, m6⟩, ?_⟩
  · rw [m1]; exact a1 hr
  · rw [m1]; exact a2
  · rfl
  · rw [m6]; simp

/-- C6, an instance: scenario S1 with the four tiny chunks outstanding. -/
theorem allocate_region_miss_falls_back_witness :
    (smallest_fitting_class 512 = some PoolType.pool_tiny ∧
      (scenario_S1_exhausted.1.stack PoolType.pool_tiny).free_list_ = [] ∧
      (scenario_S1_exhausted.1.stack PoolType.pool_tiny).in_use_.in_range) ∧
    ((∃ r, (scenario_S1_exhausted.1.allocate_region scenario_S1_exhausted.2 512).2.2.deref
      (scenario_S1_exhausted.1.allocate_region scenario_S1_exhausted.2 512).1 = some r ∧
      r.get_temp_region = true ∧ r.get_partial_region = false ∧ r.size_ = 512) ∧
    (scenario_S1_exhausted.1.allocate_region scenario_S1_exhausted.2 512).2.1.temp_regions =
      (scenario_S1_exhausted.1.temp_regions + 1) % 2 ^ 32 ∧
    ((scenario_S1_exhausted.1.allocate_region scenario_S1_exhausted.2 512).2.1.stack
      PoolType.pool_tiny).in_use_ = (scenario_S1_exhausted.1.stack PoolType.pool_tiny).in_use_ ∧
    ((scenario_S1_exhausted.1.allocate_region scenario_S1_exhausted.2 512).2.1.stack
      PoolType.pool_tiny).accesses_ = (scenario_S1_exhausted.1.stack PoolType.pool_tiny).accesses_ ∧
    (scenario_S1_exhausted.1.allocate_region scenario_S1_exhausted.2 512).2.1.stack
      PoolType.pool_tiny
      = ((scenario_S1_exhausted.1.stack PoolType.pool_tiny).allocate_pool
      PoolType.pool_tiny.chunk_size scenario_S1_exhausted.2 (scenario_S1_exhausted.1.stack
      PoolType.pool_tiny).in_use_.read).2.1 ∧
    (∀ c2, c2 ≠ PoolType.pool_tiny → (scenario_S1_exhausted.1.allocate_region
      scenario_S1_exhausted.2 512).2.1.stack c2 = scenario_S1_exhausted.1.stack c2) ∧
    (∃ temp_call : register_call, temp_call.len = 512 ∧
      (scenario_S1_exhausted.1.allocate_region scenario_S1_exhausted.2 512).2.2.register_log =
        temp_call :: ⟨(scenario_S1_exhausted.1.stack PoolType.pool_tiny).pd_,
      scenario_S1_exhausted.2.next_buffer, PoolType.pool_tiny.chunk_size *
      (scenario_S1_exhausted.1.stack PoolType.pool_tiny).in_use_.read,
          scenario_S1_exhausted.2.provider_flags, 0, scenario_S1_exhausted.2.next_buffer, 0⟩ ::
      scenario_S1_exhausted.2.register_log) ∧
    (scenario_S1_exhausted.1.allocate_region scenario_S1_exhausted.2 512).2.2.register_log.length =
      scenario_S1_exhausted.2.register_log.length + 2) :=
  ⟨⟨by decide, by decide, by decide⟩,
   allocate_region_miss_falls_back scenario_S1_exhausted.1 scenario_S1_exhausted.2 512
     PoolType.pool_tiny (by decide) (by decide) (by decide)⟩

/-! ## Oversize requests and temporary regions -/

theorem smallest_fitting_class_none (L : Nat) (hL : 1048576 < L) :
    smallest_fitting_class L = none := by
  rw [smallest_fitting_class_eq]
  split_ifs <;> first | rfl | omega

/-- C7. For every length above the large chunk size, `allocate_region` returns
a region of its own: `BLOCK_TEMP` set, `BLOCK_PARTIAL` and `BLOCK_USER` clear,
`address == base_address` (a new buffer), size equal to the length and
`used_space == 0`.  `temp_regions` is incremented by one (0 becomes 1), the
provider sees exactly one more `register_memory` call, for that buffer and that
length, and the four stacks (free list, counters, blocks) are unchanged. -/
theorem allocate_region_oversize_temporary (p : memory_pool enabled) (w : World) (L : Nat)
    (hL : 1048576 < L) :
    (∃ r, (p.allocate_region w L).2.2.deref (p.allocate_region w L).1 = some r ∧
      r.get_temp_region = true ∧ r.get_partial_region = false ∧ r.get_user_region = false ∧
      r.address_ = r.base_addr_ ∧ r.address_ = w.next_buffer ∧ r.size_ = L ∧
      r.used_space_ = 0) ∧
    (p.allocate_region w L).2.1.temp_regions = (p.temp_regions + 1) % 2 ^ 32 ∧
    (p.temp_regions = 0 → (p.allocate_region w L).2.1.temp_regions = 1) ∧
    (p.allocate_region w L).2.1.user_regions = p.user_regions ∧
    (p.allocate_region w L).2.2.register_log =
      ⟨p.protection_domain_, w.next_buffer, L, w.provider_flags, 0, w.next_buffer, 0⟩
        :: w.register_log ∧
    (p.allocate_region w L).2.2.unregister_log = w.unregister_log ∧
    (∀ c, (p.allocate_region w L).2.1.stack c = p.stack c) := by
  rw [allocate_region_oversize p w L (smallest_fitting_class_none L hL)]
  obtain ⟨-, h2, h3, h4, h5, -⟩ := allocate_temporary_region_spec p w L
  refine ⟨⟨_, h3, (temporary_region_of_temp _ _).1, (temporary_region_of_temp _ _).2.2,
    (temporary_region_of_temp _ _).2.1, rfl, rfl, rfl, rfl⟩, ?_, ?_, ?_, h4, h5, ?_⟩
  · rw [h2]
  · intro h0; rw [h2]; simp only [h0]; decide
  · rw [h2]
  · intro c; rw [h2]; exact stack_with_temp_regions _ _ _

/-- C7, an instance: scenario S1, a request of 2 MiB on the fresh pool. -/
theorem allocate_region_oversize_temporary_witness :
    1048576 < 2097152 ∧
    ((∃ r, (scenario_S1.1.allocate_region scenario_S1.2 2097152).2.2.deref
      (scenario_S1.1.allocate_region scenario_S1.2 2097152).1 = some r ∧
      r.get_temp_region = true ∧ r.get_partial_region = false ∧ r.get_user_region = false ∧
      r.address_ = r.base_addr_ ∧ r.address_ = scenario_S1.2.next_buffer ∧ r.size_ = 2097152 ∧
      r.used_space_ = 0) ∧
    (scenario_S1.1.allocate_region scenario_S1.2 2097152).2.1.temp_regions =
      (scenario_S1.1.temp_regions + 1) % 2 ^ 32 ∧
    (scenario_S1.1.temp_regions = 0 → (scenario_S1.1.allocate_region scenario_S1.2
      2097152).2.1.temp_regions = 1) ∧
    (scenario_S1.1.allocate_region scenario_S1.2 2097152).2.1.user_regions =
      scenario_S1.1.user_regions ∧
    (scenario_S1.1.allocate_region scenario_S1.2 2097152).2.2.register_log =
      ⟨scenario_S1.1.protection_domain_, scenario_S1.2.next_buffer, 2097152,
      scenario_S1.2.provider_flags, 0, scenario_S1.2.next_buffer, 0⟩
        :: scenario_S1.2.register_log ∧
    (scenario_S1.1.allocate_region scenario_S1.2 2097152).2.2.unregister_log =
      scenario_S1.2.unregister_log ∧
    (∀ c, (scenario_S1.1.allocate_region scenario_S1.2 2097152).2.1.stack c = scenario_S1.1.stack
      c)) :=
  ⟨by decide,
   allocate_region_oversize_temporary scenario_S1.1 scenario_S1.2 2097152 (by decide)⟩

/-! ## Release of temporary regions -/

/-- C8, counterexample. In scenario S3 with a provider that refuses the
registration of the temporary buffer (status `-12`), `allocate_region(2 MiB)`
still returns a region with `BLOCK_TEMP` set; its handle is null.  `deallocate`
of that region takes `temp_regions` from 1 back to 0 and destroys the region,
but the provider sees no `unregister_memory` call at all. -/
theorem deallocate_unregistered_temp_region :
    (scenario_S3_refused.1.allocate_region scenario_S3_refused.2 2097152).1 = 9 ∧
    (scenario_S3_refused.1.allocate_region scenario_S3_refused.2 2097152).2.1.temp_regions = 1 ∧
    ((scenario_S3_refused.1.allocate_region scenario_S3_refused.2 2097152).2.2.deref 9).map
      (fun r => (r.get_temp_region, r.get_partial_region, r.size_, r.region_))
      = some (true, false, 2097152, none) ∧
    (scenario_S3_refused.1.allocate_region scenario_S3_refused.2 2097152).2.2.unregister_log
      = [] ∧
    ((scenario_S3_refused.1.allocate_region scenario_S3_refused.2 2097152).2.1.deallocate
        (scenario_S3_refused.1.allocate_region scenario_S3_refused.2 2097152).2.2 9).map
      (fun x => (x.1.temp_regions, x.2.unregister_log, x.2.unregister_log.length, x.2.deref 9))
      = some (0, [], 0, none) := by
  decide

theorem stack_with_user_regions (p : memory_pool enabled) (t : Nat) (c : PoolType) :
    ({ p with user_regions := t } : memory_pool enabled).stack c = p.stack c := by
  cases c <;> rfl

theorem uint32_dec_inc (t : Nat) (ht : t < 2 ^ 32) :
    ((t + 1) % 2 ^ 32 + (2 ^ 32 - 1)) % 2 ^ 32 = t := by
  omega

/-- C8, amended. For every live region with `BLOCK_TEMP` set, whatever its
size, `deallocate` decrements `temp_regions` by one (as a `uint32_t`), destroys
the region, pushes nothing onto any stack (the four stacks and `user_regions`
are unchanged) and makes no registration.  The provider sees exactly one
`unregister_memory` call, for the handle of the region, when the region holds a
handle (and is not `BLOCK_PARTIAL`), and no call when the handle is null.  So
an oversize `allocate_region` followed by `deallocate` of its result returns
`temp_regions` to its prior value. -/
theorem deallocate_temp_region (p : memory_pool enabled) (w : World) (ptr : Nat)
    (r : memory_region_impl) (hr : w.deref ptr = some r) (ht : r.get_temp_region = true) :
    (∃ p2 w2, p.deallocate w ptr = some (p2, w2) ∧
      p2.temp_regions = (p.temp_regions + (2 ^ 32 - 1)) % 2 ^ 32 ∧
      (0 < p.temp_regions → p.temp_regions < 2 ^ 32 → p2.temp_regions = p.temp_regions - 1) ∧
      w2.deref ptr = none ∧
      (∀ c, p2.stack c = p.stack c) ∧ p2.user_regions = p.user_regions ∧
      w2.register_log = w.register_log ∧
      w2.unregister_log =
        (if r.get_partial_region then w.unregister_log
         else match r.region_ with
           | none => w.unregister_log
           | some h => h :: w.unregister_log)) ∧
    (∀ (q : memory_pool enabled) (wq : World) (L : Nat), 1048576 < L → q.temp_regions < 2 ^ 32 →
      ∃ p2 w2, (q.allocate_region wq L).2.1.deallocate (q.allocate_region wq L).2.2
          (q.allocate_region wq L).1 = some (p2, w2) ∧
        p2.temp_regions = q.temp_regions ∧
        w2.deref (q.allocate_region wq L).1 = none ∧
        (∀ c, p2.stack c = q.stack c)) := by
  constructor
  · refine ⟨_, _, deallocate_temp p w ptr r hr ht, rfl, ?_, ?_, ?_, rfl, ?_, ?_⟩
    · intro h0 h1
      show (p.temp_regions + (2 ^ 32 - 1)) % 2 ^ 32 = p.temp_regions - 1
      omega
    · exact World.deref_delete_object_self w ptr r
    · intro c; exact stack_with_temp_regions _ _ _
    · simp only [World.delete_object, World.free_object]
      exact (memory_region_impl.destroy_spec r w).1
    · simp only [World.delete_object, World.free_object]
      exact (memory_region_impl.destroy_spec r w).2.1
  · intro q wq L hL hq
    rw [allocate_region_oversize q wq L (smallest_fitting_class_none L hL)]
    obtain ⟨-, h2, h3, -⟩ := allocate_temporary_region_spec q wq L
    refine ⟨_, _, deallocate_temp _ _ _ _ h3 (temporary_region_of_temp _ _).1, ?_, ?_, ?_⟩
    · rw [h2]
      exact uint32_dec_inc _ hq
    · exact World.deref_delete_object_self _ _ _
    · intro c
      rw [stack_with_temp_regions, h2, stack_with_temp_regions]

/-- C8, an instance of the amended claim: the region of scenario S3. -/
theorem deallocate_temp_region_witness :
    (scenario_S3.2.2.deref scenario_S3.1 = some (temporary_region_of scenario_S1.2 2097152) ∧
      (temporary_region_of scenario_S1.2 2097152).get_temp_region = true) ∧
    ((∃ p2 w2, scenario_S3.2.1.deallocate scenario_S3.2.2 scenario_S3.1 = some (p2, w2) ∧
      p2.temp_regions = (scenario_S3.2.1.temp_regions + (2 ^ 32 - 1)) % 2 ^ 32 ∧
      (0 < scenario_S3.2.1.temp_regions → scenario_S3.2.1.temp_regions < 2 ^ 32 → p2.temp_regions =
      scenario_S3.2.1.temp_regions - 1) ∧
      w2.deref scenario_S3.1 = none ∧
      (∀ c, p2.stack c = scenario_S3.2.1.stack c) ∧ p2.user_regions = scenario_S3.2.1.user_regions ∧
      w2.register_log = scenario_S3.2.2.register_log ∧
      w2.unregister_log =
        (if (temporary_region_of scenario_S1.2 2097152).get_partial_region then
      scenario_S3.2.2.unregister_log
         else match (temporary_region_of scenario_S1.2 2097152).region_ with
           | none => scenario_S3.2.2.unregister_log
           | some h => h :: scenario_S3.2.2.unregister_log)) ∧
    (∀ (q : memory_pool true) (wq : World) (L : Nat), 1048576 < L → q.temp_regions < 2 ^ 32 →
      ∃ p2 w2, (q.allocate_region wq L).2.1.deallocate (q.allocate_region wq L).2.2
          (q.allocate_region wq L).1 = some (p2, w2) ∧
        p2.temp_regions = q.temp_regions ∧
        w2.deref (q.allocate_region wq L).1 = none ∧
        (∀ c, p2.stack c = q.stack c))) :=
  ⟨⟨by decide, by decide⟩,
   deallocate_temp_region scenario_S3.2.1 scenario_S3.2.2 scenario_S3.1
     (temporary_region_of scenario_S1.2 2097152) (by decide) (by decide)⟩

/-! ## Registration of a caller's buffer with the pool -/

/-- C9, counterexample. Scenario S4: on the fresh pool (`temp_regions = 0`,
`user_regions = 0`) the registration of a caller's buffer of 4 KiB returns a
region with both `BLOCK_USER` and `BLOCK_TEMP` set; afterwards `user_regions`
is still `0`, not `1`, and it is `temp_regions` that became `1`. -/
theorem register_temporary_region_counts_temp :
    (scenario_S1.1.temp_regions = 0 ∧ scenario_S1.1.user_regions = 0) ∧
    scenario_S4 = scenario_S1.1.register_temporary_region scenario_S1.2 16777216 4096 ∧
    scenario_S4.2.1.user_regions = 0 ∧ scenario_S4.2.1.user_regions ≠ 1 ∧
    scenario_S4.2.1.temp_regions = 1 ∧ scenario_S4.2.1.temp_regions ≠ scenario_S1.1.temp_regions ∧
    (scenario_S4.2.2.deref scenario_S4.1).map
      (fun r => (r.get_user_region, r.get_temp_region, r.address_, r.base_addr_, r.size_))
      = some (true, true, 16777216, 16777216, 4096) := by
  decide

theorem user_temp_flags (r : memory_region_impl) (h : r.flags_ = BLOCK_USER ||| BLOCK_TEMP) :
    r.get_user_region = true ∧ r.get_temp_region = true ∧ r.get_partial_region = false ∧
    r.flags_ = 3 := by
  simp only [memory_region_impl.get_temp_region, memory_region_impl.get_user_region,
    memory_region_impl.get_partial_region, h]
  decide

/-- C9, amended. For every pool state, buffer address and length,
`register_temporary_region(ptr, length)`, the only operation of the pool that
registers a caller's buffer, returns a live region with `BLOCK_USER` and
`BLOCK_TEMP` both set (flags `3`), `address == base_address == ptr` and
`size == length`; it makes exactly one `register_memory` call, for `ptr` and
`length`, increments `temp_regions` by one (as a `uint32_t`) and leaves
`user_regions` and the four stacks unchanged. -/
theorem register_temporary_region_region (p : memory_pool enabled) (w : World)
    (ptr length : Nat) :
    (∃ r, (p.register_temporary_region w ptr length).2.2.deref
        (p.register_temporary_region w ptr length).1 = some r ∧
      r.get_user_region = true ∧ r.get_temp_region = true ∧ r.get_partial_region = false ∧
      r.flags_ = 3 ∧ r.address_ = ptr ∧ r.base_addr_ = ptr ∧ r.size_ = length) ∧
    (p.register_temporary_region w ptr length).2.1.temp_regions
      = (p.temp_regions + 1) % 2 ^ 32 ∧
    (p.temp_regions = 0 → (p.register_temporary_region w ptr length).2.1.temp_regions = 1) ∧
    (p.register_temporary_region w ptr length).2.1.user_regions = p.user_regions ∧
    (∀ c, (p.register_temporary_region w ptr length).2.1.stack c = p.stack c) ∧
    (p.register_temporary_region w ptr length).2.2.register_log =
      ⟨p.protection_domain_, ptr, length, w.provider_flags, 0, ptr, 0⟩ :: w.register_log := by
  obtain ⟨-, h2, h3, h4, -⟩ := register_temporary_region_spec p w ptr length
  refine ⟨⟨_, h3, ?_, ?_, ?_, ?_, rfl, rfl, rfl⟩, ?_, ?_, ?_, ?_, h4⟩
  · exact (user_temp_flags _ rfl).1
  · exact (user_temp_flags _ rfl).2.1
  · exact (user_temp_flags _ rfl).2.2.1
  · exact (user_temp_flags _ rfl).2.2.2
  · rw [h2]
  · intro h0; rw [h2]; simp only [h0]; decide
  · rw [h2]
  · intro c; rw [h2]; exact stack_with_temp_regions _ _ _

/-- The `BLOCK_USER` branches of `deallocate`, whatever the handle of the
region: one `unregister_memory` call when it holds a handle, none when the
handle is null, and no `delete[]` in either case. -/
theorem deallocate_user_any (p : memory_pool enabled) (w : World) (ptr : Nat)
    (r : memory_region_impl) (hr : w.deref ptr = some r) (hu : r.get_user_region = true)
    (hp : r.get_partial_region = false) :
    ∃ p2 w2, p.deallocate w ptr = some (p2, w2) ∧
      w2.unregister_log =
        (match r.region_ with
         | none => w.unregister_log
         | some h => h :: w.unregister_log) ∧
      w2.delete_log = w.delete_log ∧
      w2.buffers = w.buffers ∧ w2.register_log = w.register_log ∧ w2.deref ptr = none := by
  have hd : p.deallocate w ptr = some
      ((if r.get_temp_region = true then
          { p with temp_regions := (p.temp_regions + (2 ^ 32 - 1)) % 2 ^ 32 }
        else { p with user_regions := (p.user_regions + (2 ^ 32 - 1)) % 2 ^ 32 }),
       w.delete_object ptr r) := by
    unfold memory_pool.deallocate
    simp only [hr, hu, Bool.or_true, if_true]
  obtain ⟨d1, d2, d3, d4, -⟩ := memory_region_impl.destroy_spec r w
  refine ⟨_, _, hd, ?_, ?_, ?_, ?_, World.deref_delete_object_self w ptr r⟩
  · simp only [World.delete_object, World.free_object]
    rw [d2]
    cases r.region_ <;> simp [hp]
  · simp only [World.delete_object, World.free_object]
    rw [d3]
    cases r.region_ <;> simp [hp, hu]
  · simp only [World.delete_object, World.free_object]
    exact d4 hu
  · simp only [World.delete_object, World.free_object]
    exact d1

/-- C10, counterexample. In scenario S4 with a provider that refuses the
registration of the caller's buffer (status `-12`), `register_temporary_region`
still makes its `register_memory` call and returns a region with `BLOCK_USER`
set for the buffer; its handle is null.  `deallocate` of that region destroys
it, and the provider sees no `unregister_memory` call at all; the buffer is not
freed. -/
theorem deallocate_refused_buffer :
    scenario_S4_refused.1 = 9 ∧
    (scenario_S4_refused.2.2.deref 9).map
      (fun r => (r.get_user_region, r.get_partial_region, r.address_, r.size_, r.region_))
      = some (true, false, 16777216, 4096, none) ∧
    scenario_S4_refused.2.2.register_log.length = scenario_S3_refused.2.register_log.length + 1 ∧
    scenario_S4_refused.2.2.unregister_log = [] ∧
    (scenario_S4_refused.2.1.deallocate scenario_S4_refused.2.2 9).map
      (fun x => (x.2.unregister_log, x.2.unregister_log.length, x.2.delete_log, x.2.deref 9,
        decide (x.2.buffers = scenario_S4_refused.2.2.buffers)))
      = some ([], 0, [], none, true) := by
  refine ⟨by decide, by decide, by decide, by decide, by decide⟩

/-- C10, amended. For every pool state, world, buffer address and length:
`deallocate` of the region that `register_temporary_region` returned, in any
later state in which that region object is as it was returned, returns, destroys
the region and makes no `delete[]` and no registration: the set of live buffers
is unchanged and the caller's buffer is not freed.  The provider sees exactly
one `unregister_memory` call, for the handle of the region, when the region
holds a handle, and no call when its handle is null.  When the provider
accepted the registration the region holds the handle of that registration, so
there is exactly one call, for that handle; when the provider refused it the
region holds what the field `region_`, which the constructor does not
initialise, happened to hold, and if that is null there is no call. -/
theorem deallocate_registered_buffer (p : memory_pool enabled) (w : World)
    (ptr length : Nat) (q : memory_pool enabled) (wq : World)
    (hq : wq.deref (p.register_temporary_region w ptr length).1
      = (p.register_temporary_region w ptr length).2.2.deref
          (p.register_temporary_region w ptr length).1) :
    ∃ r p2 w2, wq.deref (p.register_temporary_region w ptr length).1 = some r ∧
      r.get_user_region = true ∧ r.address_ = ptr ∧
      r.region_ = (if w.register_status.headD 0 = 0 then some w.next_handle
                   else w.indeterminate) ∧
      q.deallocate wq (p.register_temporary_region w ptr length).1 = some (p2, w2) ∧
      w2.deref (p.register_temporary_region w ptr length).1 = none ∧
      w2.unregister_log =
        (match r.region_ with
         | none => wq.unregister_log
         | some h => h :: wq.unregister_log) ∧
      (w.register_status.headD 0 = 0 →
        w2.unregister_log = w.next_handle :: wq.unregister_log ∧
        w2.unregister_log.length = wq.unregister_log.length + 1) ∧
      (w.register_status.headD 0 ≠ 0 → w.indeterminate = none →
        w2.unregister_log = wq.unregister_log) ∧
      w2.delete_log = wq.delete_log ∧
      w2.buffers = wq.buffers ∧
      w2.register_log = wq.register_log := by
  obtain ⟨-, -, h3, -⟩ := register_temporary_region_spec p w ptr length
  rw [h3] at hq
  obtain ⟨p2, w2, e1, e2, e3, e4, e5, e6⟩ :=
    deallocate_user_any q wq _ _ hq (user_temp_flags _ rfl).1 (user_temp_flags _ rfl).2.2.1
  refine ⟨_, p2, w2, hq, (user_temp_flags _ rfl).1, rfl, rfl, e1, e6, e2, ?_, ?_, e3, e4, e5⟩
  · intro hreg
    rw [e2]
    simp only [hreg, if_true]
    exact ⟨trivial, rfl⟩
  · intro hreg hind
    rw [e2]
    simp only [hreg, if_false, hind]

/-- C10, an instance: the region of scenario S4, whose registration the
provider accepted, released right after its registration. -/
theorem deallocate_registered_buffer_witness :
    scenario_S4.2.2.deref (scenario_S1.1.register_temporary_region scenario_S1.2 16777216 4096).1
        = (scenario_S1.1.register_temporary_region scenario_S1.2 16777216 4096).2.2.deref (scenario_S1.1.register_temporary_region scenario_S1.2 16777216 4096).1 ∧
    ∃ r p2 w2, scenario_S4.2.2.deref (scenario_S1.1.register_temporary_region scenario_S1.2 16777216 4096).1 = some r ∧
      r.get_user_region = true ∧ r.address_ = 16777216 ∧
      r.region_ = (if scenario_S1.2.register_status.headD 0 = 0 then some scenario_S1.2.next_handle
                   else scenario_S1.2.indeterminate) ∧
      scenario_S4.2.1.deallocate scenario_S4.2.2 (scenario_S1.1.register_temporary_region scenario_S1.2 16777216 4096).1 = some (p2, w2) ∧
      w2.deref (scenario_S1.1.register_temporary_region scenario_S1.2 16777216 4096).1 = none ∧
      w2.unregister_log =
        (match r.region_ with
         | none => scenario_S4.2.2.unregister_log
         | some h => h :: scenario_S4.2.2.unregister_log) ∧
      (scenario_S1.2.register_status.headD 0 = 0 →
        w2.unregister_log = scenario_S1.2.next_handle :: scenario_S4.2.2.unregister_log ∧
        w2.unregister_log.length = scenario_S4.2.2.unregister_log.length + 1) ∧
      (scenario_S1.2.register_status.headD 0 ≠ 0 → scenario_S1.2.indeterminate = none →
        w2.unregister_log = scenario_S4.2.2.unregister_log) ∧
      w2.delete_log = scenario_S4.2.2.delete_log ∧
      w2.buffers = scenario_S4.2.2.buffers ∧
      w2.register_log = scenario_S4.2.2.register_log :=
  ⟨by decide,
   deallocate_registered_buffer scenario_S1.1 scenario_S1.2 16777216 4096
     scenario_S4.2.1 scenario_S4.2.2 (by decide)⟩

/-! ## The representation invariant is an invariant -/

theorem lookup_some_mem (l : List (Nat × memory_region_impl)) (p : Nat) (r : memory_region_impl)
    (h : l.lookup p = some r) : (p, r) ∈ l := by
  induction l with
  | nil => cases h
  | cons o l ih =>
    obtain ⟨k, v⟩ := o
    rw [List.lookup_cons] at h
    by_cases hk : p = k
    · have hb : (p == k) = true := by simpa using hk
      rw [hb] at h
      simp only [Option.some.injEq] at h
      subst hk; subst h
      exact List.mem_cons_self _ _
    · have hb : (p == k) = false := by simpa using hk
      rw [hb] at h
      exact List.mem_cons_of_mem _ (ih h)

/-- A live pointer was handed out by `new`. -/
theorem World.lt_next_object_of_deref (w : World) (hw : w.wf) (p : Nat) (r : memory_region_impl)
    (h : w.deref p = some r) : p < w.next_object :=
  hw (p, r) (lookup_some_mem _ _ _ h)

theorem World.lt_next_object_of_is_chunk (w : World) (hw : w.wf) (C p : Nat)
    (h : w.is_chunk C p) : p < w.next_object := by
  rw [World.is_chunk_iff] at h
  obtain ⟨r, hr, -⟩ := h
  exact World.lt_next_object_of_deref w hw p r hr

/-- A stack keeps its invariant when the heap changes above the pointers
that were live. -/
theorem memory_pool_stack.stack_wf_of_deref_eq (C : Nat) (s : memory_pool_stack enabled) (w w2 : World)
    (hw : w.wf) (hs : s.wf C w)
    (hd : ∀ ptr, ptr < w.next_object → w2.deref ptr = w.deref ptr) : s.wf C w2 := by
  refine ⟨?_, hs.2⟩
  intro ptr hptr
  have hc := hs.1 ptr hptr
  rw [World.is_chunk_congr w w2 C ptr (hd ptr (World.lt_next_object_of_is_chunk w hw C ptr hc))]
  exact hc

/-- The invariant of a stack and of the heap after `allocate_pool`. -/
theorem allocate_pool_wf (C : Nat) (s : memory_pool_stack enabled) (w : World) (n : Nat)
    (hw : w.wf) (hs : s.wf C w) :
    (s.allocate_pool C w n).2.1.wf C (s.allocate_pool C w n).2.2 ∧
    (s.allocate_pool C w n).2.2.wf := by
  obtain ⟨a1, a2, a3, -, -, -, a7, a8, a9, a10⟩ := allocate_pool_spec C s w n
  refine ⟨⟨?_, ?_, ?_, ?_⟩, ?_⟩
  · intro ptr hptr
    rcases a7 ptr hptr with h | ⟨-, -, h⟩
    · have hc := hs.1 ptr h
      rw [World.is_chunk_congr w _ C ptr
        (a9 ptr (World.lt_next_object_of_is_chunk w hw C ptr hc))]
      exact hc
    · exact h
  · rw [a2]; exact hs.2.1
  · rw [a1 hs.2.2.1]; exact hs.2.2.1
  · rw [a3]; exact performance_counter.add_assign_in_range _ _ hs.2.2.2
  · intro o ho
    rw [a8]
    rcases a10 o ho with h | ⟨-, h⟩
    · have := hw o h; omega
    · exact h

/-- The invariant after the constructor of a stack. -/
theorem memory_pool_stack.make_wf (C : Nat) (w : World) (pd n : Nat) (hw : w.wf) :
    (memory_pool_stack.make enabled C w pd n).1.wf C (memory_pool_stack.make enabled C w pd n).2 ∧
    (memory_pool_stack.make enabled C w pd n).2.wf ∧
    (∀ ptr, ptr < w.next_object →
      (memory_pool_stack.make enabled C w pd n).2.deref ptr = w.deref ptr) := by
  unfold memory_pool_stack.make
  have h0 : (⟨performance_counter.init 32 enabled 0, performance_counter.init 32 enabled 0,
      performance_counter.init 32 enabled 0, pd, [], [], []⟩ : memory_pool_stack enabled).wf C w := by
    unfold memory_pool_stack.wf
    refine ⟨?_, ?_, ?_, ?_⟩
    · intro ptr h; cases h
    · cases enabled <;> simp [performance_counter.in_range, performance_counter.init]
    · cases enabled <;> simp [performance_counter.in_range, performance_counter.init]
    · cases enabled <;> simp [performance_counter.in_range, performance_counter.init]
  obtain ⟨h1, h2⟩ := allocate_pool_wf C _ w (n % 2 ^ 32) hw h0
  exact ⟨h1, h2, (allocate_pool_spec C _ w (n % 2 ^ 32)).2.2.2.2.2.2.2.2.1⟩

/-- The constructor of the pool establishes the invariant. -/
theorem memory_pool.make_with_wf (w : World) (pd n_tiny n_small n_medium n_large : Nat)
    (hw : w.wf) :
    (memory_pool.make_with enabled w pd n_tiny n_small n_medium n_large).1.wf
      (memory_pool.make_with enabled w pd n_tiny n_small n_medium n_large).2 := by
  unfold memory_pool.make_with
  simp only []
  obtain ⟨t1, t2, -⟩ := @memory_pool_stack.make_wf enabled
    RDMA_POOL_1K_CHUNK_SIZE w pd n_tiny hw
  obtain ⟨s1, s2, s3⟩ := @memory_pool_stack.make_wf enabled
    RDMA_POOL_SMALL_CHUNK_SIZE _ pd n_small t2
  obtain ⟨m1, m2, m3⟩ := @memory_pool_stack.make_wf enabled
    RDMA_POOL_MEDIUM_CHUNK_SIZE _ pd n_medium s2
  obtain ⟨l1, l2, l3⟩ := @memory_pool_stack.make_wf enabled
    RDMA_POOL_LARGE_CHUNK_SIZE _ pd n_large m2
  refine ⟨l2, ?_, Nat.two_pow_pos 32, Nat.two_pow_pos 32⟩
  intro c
  cases c
  · exact memory_pool_stack.stack_wf_of_deref_eq _ _ _ _ m2
      (memory_pool_stack.stack_wf_of_deref_eq _ _ _ _ s2
        (memory_pool_stack.stack_wf_of_deref_eq _ _ _ _ t2 t1 s3) m3) l3
  · exact memory_pool_stack.stack_wf_of_deref_eq _ _ _ _ m2
      (memory_pool_stack.stack_wf_of_deref_eq _ _ _ _ s2 s1 m3) l3
  · exact memory_pool_stack.stack_wf_of_deref_eq _ _ _ _ m2 m1 l3
  · exact l1

/-! ## Preservation of the representation invariant -/

theorem memory_pool.wf_with_temp_regions (p : memory_pool enabled) (w : World) (t : Nat)
    (ht : t < 2 ^ 32) (h : p.wf w) :
    ({ p with temp_regions := t } : memory_pool enabled).wf w := by
  refine ⟨h.1, ?_, ht, h.2.2.2⟩
  intro c
  rw [stack_with_temp_regions]
  exact h.2.1 c

theorem memory_pool.wf_with_user_regions (p : memory_pool enabled) (w : World) (t : Nat)
    (ht : t < 2 ^ 32) (h : p.wf w) :
    ({ p with user_regions := t } : memory_pool enabled).wf w := by
  refine ⟨h.1, ?_, h.2.2.1, ht⟩
  intro c
  rw [stack_with_user_regions]
  exact h.2.1 c

/-- The invariant moves to a heap that agrees on the pointers that were live. -/
theorem memory_pool.pool_wf_of_deref_eq (p : memory_pool enabled) (w w2 : World) (h : p.wf w)
    (hw2 : w2.wf) (hd : ∀ ptr, ptr < w.next_object → w2.deref ptr = w.deref ptr) : p.wf w2 :=
  ⟨hw2, fun c => memory_pool_stack.stack_wf_of_deref_eq _ _ w w2 h.1 (h.2.1 c) hd, h.2.2⟩

theorem memory_pool.wf_set_stack (p : memory_pool enabled) (w : World) (c : PoolType)
    (s : memory_pool_stack enabled) (h : p.wf w) (hs : s.wf c.chunk_size w) :
    (p.set_stack c s).wf w := by
  obtain ⟨s1, s2, -⟩ := set_stack_counters p c s
  refine ⟨h.1, ?_, by rw [s1]; exact h.2.2.1, by rw [s2]; exact h.2.2.2⟩
  intro c2
  by_cases hc : c2 = c
  · subst hc; rw [stack_set_stack]; exact hs
  · rw [stack_set_stack_of_ne _ _ _ _ hc]; exact h.2.1 c2

theorem allocate_temporary_region_wf (p : memory_pool enabled) (w : World) (L : Nat)
    (h : p.wf w) :
    (p.allocate_temporary_region w L).2.1.wf (p.allocate_temporary_region w L).2.2 := by
  obtain ⟨-, h2, -, -, -, -, h7, h8, h9⟩ := allocate_temporary_region_spec p w L
  rw [h2]
  apply memory_pool.wf_with_temp_regions _ _ _ (Nat.mod_lt _ (Nat.two_pow_pos 32))
  refine memory_pool.pool_wf_of_deref_eq p w _ h ?_ ?_
  · intro o ho
    rw [h9] at ho
    rw [h7]
    rcases List.mem_cons.1 ho with e | e
    · subst e; exact Nat.lt_succ_self _
    · have := h.1 o e; omega
  · intro ptr hptr
    exact h8 ptr (by omega)

theorem register_temporary_region_wf (p : memory_pool enabled) (w : World) (ptr L : Nat)
    (h : p.wf w) :
    (p.register_temporary_region w ptr L).2.1.wf (p.register_temporary_region w ptr L).2.2 := by
  obtain ⟨-, h2, -⟩ := register_temporary_region_spec p w ptr L
  rw [h2]
  apply memory_pool.wf_with_temp_regions _ _ _ (Nat.mod_lt _ (Nat.two_pow_pos 32))
  have ho : (p.register_temporary_region w ptr L).2.2.objects
        = (w.next_object, (memory_region_impl.make_user w p.protection_domain_ ptr L).1.set_temp_region)
            :: w.objects ∧
      (p.register_temporary_region w ptr L).2.2.next_object = w.next_object + 1 := by
    simp only [memory_pool.register_temporary_region, memory_region_impl.make_user,
      World.register_memory, World.new_object]
    split_ifs <;> exact ⟨rfl, rfl⟩
  refine memory_pool.pool_wf_of_deref_eq p w _ h ?_ ?_
  · intro o hmem
    rw [ho.1] at hmem
    rw [ho.2]
    rcases List.mem_cons.1 hmem with e | e
    · subst e; exact Nat.lt_succ_self _
    · have := h.1 o e; omega
  · intro q hq
    have hb : (q == w.next_object) = false := by simpa using (by omega : q ≠ w.next_object)
    simp only [World.deref, ho.1, List.lookup_cons, hb]

/-- `allocate_region` preserves the invariant. -/
theorem allocate_region_wf (p : memory_pool enabled) (w : World) (L : Nat) (h : p.wf w) :
    (p.allocate_region w L).2.1.wf (p.allocate_region w L).2.2 := by
  cases hc : smallest_fitting_class L with
  | none =>
    rw [allocate_region_oversize p w L hc]
    exact allocate_temporary_region_wf p w L h
  | some c =>
    cases hfl : (p.stack c).free_list_ with
    | nil =>
      rw [allocate_region_miss p w L c hc hfl]
      apply allocate_temporary_region_wf
      obtain ⟨g1, g2⟩ := allocate_pool_wf c.chunk_size (p.stack c) w (p.stack c).in_use_.read
        h.1 (h.2.1 c)
      have hd := (allocate_pool_spec c.chunk_size (p.stack c) w
        (p.stack c).in_use_.read).2.2.2.2.2.2.2.2.1
      exact memory_pool.wf_set_stack _ _ c _ (memory_pool.pool_wf_of_deref_eq p w _ h g2 hd) g1
    | cons r rest =>
      rw [allocate_region_hit p w L c r rest hc hfl]
      apply memory_pool.wf_set_stack _ _ c _ h
      obtain ⟨f1, f2, f3, f4, -⟩ := pop_hit_fields c.chunk_size (p.stack c) w r rest hfl
      have hs := h.2.1 c
      refine ⟨?_, ?_, ?_, ?_⟩
      · intro ptr hptr
        rw [f1] at hptr
        exact hs.1 ptr (by rw [hfl]; exact List.mem_cons_of_mem _ hptr)
      · rw [f3]; exact performance_counter.pre_inc_in_range _ hs.2.1
      · rw [f2]; exact performance_counter.pre_inc_in_range _ hs.2.2.1
      · rw [f4]; exact hs.2.2.2

/-- `deallocate` preserves the invariant when it is given a temporary or user
region, or a sub-region of one of the four classes. -/
theorem deallocate_wf (p p2 : memory_pool enabled) (w w2 : World) (ptr : Nat)
    (r : memory_region_impl) (h : p.wf w) (hr : w.deref ptr = some r)
    (hkind : r.get_temp_region = true ∨ r.get_user_region = true ∨
      ∃ c : PoolType, w.is_chunk c.chunk_size ptr)
    (hd : p.deallocate w ptr = some (p2, w2)) : p2.wf w2 := by
  have hdel : ∀ q : memory_pool enabled, q.wf w →
      (r.get_temp_region = true ∨ r.get_user_region = true) → q.wf (w.delete_object ptr r) := by
    intro q hq hflag
    refine ⟨?_, ?_, hq.2.2⟩
    · intro o ho
      simp only [World.delete_object, World.free_object] at ho ⊢
      rw [(memory_region_impl.destroy_objects r w).2]
      have := List.mem_filter.1 ho
      rw [(memory_region_impl.destroy_objects r w).1] at this
      exact hq.1 o this.1
    · intro c
      refine ⟨?_, (hq.2.1 c).2⟩
      intro q2 hq2
      have hc := (hq.2.1 c).1 q2 hq2
      have hne : q2 ≠ ptr := by
        intro e
        subst e
        rw [World.is_chunk_iff] at hc
        obtain ⟨r2, e1, -, e3⟩ := hc
        rw [hr] at e1
        cases e1
        obtain ⟨f1, f2, -⟩ := chunk_flags r e3
        rcases hflag with hf | hf
        · rw [f1] at hf; cases hf
        · rw [f2] at hf; cases hf
      rw [World.is_chunk_congr w _ _ _ (World.deref_delete_object_of_ne w ptr q2 r hne)]
      exact hc
  by_cases ht : r.get_temp_region = true
  · rw [deallocate_temp p w ptr r hr ht] at hd
    cases hd
    exact hdel _ (memory_pool.wf_with_temp_regions p w _ (Nat.mod_lt _ (Nat.two_pow_pos 32)) h)
      (Or.inl ht)
  · by_cases hu : r.get_user_region = true
    · have e : p.deallocate w ptr = some
          ({ p with user_regions := (p.user_regions + (2 ^ 32 - 1)) % 2 ^ 32 },
            w.delete_object ptr r) := by
        unfold memory_pool.deallocate
        simp only [hr, hu, ht, Bool.or_true, if_true, if_false, Bool.false_eq_true]
      rw [e] at hd
      cases hd
      exact hdel _ (memory_pool.wf_with_user_regions p w _ (Nat.mod_lt _ (Nat.two_pow_pos 32)) h)
        (Or.inr hu)
    · rcases hkind with hk | hk | ⟨c, hc⟩
      · exact absurd hk ht
      · exact absurd hk hu
      · rw [deallocate_chunk p w ptr c hc] at hd
        cases hd
        apply memory_pool.wf_set_stack _ _ c _ h
        have hs := h.2.1 c
        refine ⟨?_, hs.2.1, performance_counter.pre_dec_in_range _ hs.2.2.1, hs.2.2.2⟩
        intro q hq
        rcases List.mem_cons.1 hq with e | e
        · subst e; exact hc
        · exact hs.1 q e

/-! ## The sub-regions made by allocate_pool -/

/-- The loop of `allocate_pool` in closed form: the `k` new objects are at the
next `k` object addresses, in creation order in `region_list_` and in reverse
order on top of the free list; the `i`-th lies `i` chunks after the start. -/
theorem allocate_pool_loop_closed (C : Nat) (block : memory_region_impl) (k : Nat) :
    ∀ (offset : Nat) (s : memory_pool_stack enabled) (w : World),
    (memory_pool_stack.allocate_pool_loop C block k offset s w).1.region_list_
      = s.region_list_ ++ List.range' w.next_object k ∧
    (memory_pool_stack.allocate_pool_loop C block k offset s w).1.free_list_
      = (List.range' w.next_object k).reverse ++ s.free_list_ ∧
    (∀ i, i < k →
      (memory_pool_stack.allocate_pool_loop C block k offset s w).2.deref (w.next_object + i)
        = some (memory_region_impl.make block.get_region
            (block.get_base_address + (offset + i * C)) block.get_base_address C
            BLOCK_PARTIAL)) := by
  induction k with
  | zero =>
    intro offset s w
    refine ⟨?_, ?_, ?_⟩
    · simp [memory_pool_stack.allocate_pool_loop]
    · simp [memory_pool_stack.allocate_pool_loop]
    · intro i hi; omega
  | succ k ih =>
    intro offset s w
    rw [memory_pool_stack.allocate_pool_loop]
    obtain ⟨h1, h2, h3⟩ :=
      ih (offset + C)
        (memory_pool_stack.push { s with region_list_ := s.region_list_ ++
          [(w.new_object (memory_region_impl.make block.get_region
            (block.get_base_address + offset) block.get_base_address C BLOCK_PARTIAL)).1] }
          (w.new_object (memory_region_impl.make block.get_region
            (block.get_base_address + offset) block.get_base_address C BLOCK_PARTIAL)).1)
        (w.new_object (memory_region_impl.make block.get_region
            (block.get_base_address + offset) block.get_base_address C BLOCK_PARTIAL)).2
    have h10 := (allocate_pool_loop_spec C block k (offset + C)
        (memory_pool_stack.push { s with region_list_ := s.region_list_ ++
          [(w.new_object (memory_region_impl.make block.get_region
            (block.get_base_address + offset) block.get_base_address C BLOCK_PARTIAL)).1] }
          (w.new_object (memory_region_impl.make block.get_region
            (block.get_base_address + offset) block.get_base_address C BLOCK_PARTIAL)).1)
        (w.new_object (memory_region_impl.make block.get_region
            (block.get_base_address + offset) block.get_base_address C
            BLOCK_PARTIAL)).2).2.2.2.2.2.2.2.2.2.1
    have hn : (w.new_object (memory_region_impl.make block.get_region
        (block.get_base_address + offset) block.get_base_address C BLOCK_PARTIAL)).2.next_object
        = w.next_object + 1 := rfl
    have hp : (w.new_object (memory_region_impl.make block.get_region
        (block.get_base_address + offset) block.get_base_address C BLOCK_PARTIAL)).1
        = w.next_object := rfl
    refine ⟨?_, ?_, ?_⟩
    · rw [h1, hn, hp]
      simp [memory_pool_stack.push, List.range'_succ]
    · rw [h2, hn, hp]
      simp [memory_pool_stack.push, List.range'_succ]
    · intro i hi
      cases i with
      | zero =>
        rw [Nat.add_zero, h10 _ (by rw [hn]; omega)]
        simpa using World.deref_new_object_self w _
      | succ j =>
        have := h3 j (by omega)
        rw [hn] at this
        rw [show w.next_object + (j + 1) = w.next_object + 1 + j by omega, this]
        congr 2
        ring

theorem malloc_spec (w : World) (pd bytes : Nat) :
    (memory_block_allocator.malloc w pd bytes).1 = backing_block_of w bytes := by
  unfold memory_block_allocator.malloc
  simp only []
  rw [(memory_region_impl.allocate_spec memory_region_impl.default w pd bytes).2.1]
  rfl

theorem block_list_assign_fst (bl : List (Nat × memory_region_impl)) (key : Nat)
    (block : memory_region_impl) (w : World) :
    (memory_pool_stack.block_list_assign bl key block w).1.lookup key = some block ∧
    (bl.lookup key = none →
      (memory_pool_stack.block_list_assign bl key block w).1 = (key, block) :: bl ∧
      (memory_pool_stack.block_list_assign bl key block w).2 = w) := by
  unfold memory_pool_stack.block_list_assign
  cases h : bl.lookup key with
  | none => simp [List.lookup]
  | some old => simp [List.lookup]

/-- The result of `allocate_pool(n)` in closed form. -/
theorem allocate_pool_closed (C : Nat) (s : memory_pool_stack enabled) (w : World) (n : Nat) :
    (s.allocate_pool C w n).1 = true ∧
    (s.allocate_pool C w n).2.1.region_list_ = s.region_list_ ++ List.range' w.next_object n ∧
    (s.allocate_pool C w n).2.1.free_list_
      = (List.range' w.next_object n).reverse ++ s.free_list_ ∧
    (∀ i, i < n →
      (s.allocate_pool C w n).2.2.deref (w.next_object + i)
        = some (memory_region_impl.make (backing_block_of w (C * n)).region_
            (w.next_buffer + i * C) w.next_buffer C BLOCK_PARTIAL)) ∧
    (s.allocate_pool C w n).2.1.block_list_.lookup w.next_buffer
      = some (backing_block_of w (C * n)) ∧
    (s.block_list_.lookup w.next_buffer = none →
      (s.allocate_pool C w n).2.1.block_list_
        = (w.next_buffer, backing_block_of w (C * n)) :: s.block_list_) := by
  have hb := malloc_spec w s.pd_ (C * n)
  have hbo := memory_region_impl.allocate_objects memory_region_impl.default w s.pd_ (C * n)
  unfold memory_pool_stack.allocate_pool
  simp only []
  generalize hbl : memory_pool_stack.block_list_assign s.block_list_
      (memory_block_allocator.malloc w s.pd_ (C * n)).1.get_address
      (memory_block_allocator.malloc w s.pd_ (C * n)).1
      (memory_block_allocator.malloc w s.pd_ (C * n)).2 = bl
  have hblo : bl.2.next_object = w.next_object := by
    rw [← hbl]
    exact (block_list_assign_objects _ _ _ _).2.trans hbo.2
  have hkey : (memory_block_allocator.malloc w s.pd_ (C * n)).1.get_address = w.next_buffer := by
    rw [hb]; rfl
  obtain ⟨c1, c2, c3⟩ := allocate_pool_loop_closed C
    (memory_block_allocator.malloc w s.pd_ (C * n)).1 n 0
    { s with block_list_ := bl.1, in_use_ := s.in_use_.add_assign n,
             chunks_avail_ := s.chunks_avail_.add_assign n } bl.2
  have h5 := (allocate_pool_loop_spec C (memory_block_allocator.malloc w s.pd_ (C * n)).1 n 0
    { s with block_list_ := bl.1, in_use_ := s.in_use_.add_assign n,
             chunks_avail_ := s.chunks_avail_.add_assign n } bl.2).2.2.2.2.1
  obtain ⟨b1, b2⟩ := block_list_assign_fst s.block_list_
      (memory_block_allocator.malloc w s.pd_ (C * n)).1.get_address
      (memory_block_allocator.malloc w s.pd_ (C * n)).1
      (memory_block_allocator.malloc w s.pd_ (C * n)).2
  rw [hbl, hkey, hb] at b1 b2
  refine ⟨trivial, ?_, ?_, ?_, ?_, ?_⟩
  · rw [c1, hblo]
  · rw [c2, hblo]
  · intro i hi
    have := c3 i hi
    rw [hblo] at this
    rw [this, hb]
    simp [memory_region_impl.get_region, memory_region_impl.get_base_address, backing_block_of]
  · rw [h5]; exact b1
  · intro hnone
    rw [h5]; exact (b2 hnone).1

/-! ## The counters of a stack -/

theorem allocate_pool_in_use_value (C : Nat) (s : memory_pool_stack true) (w : World) (n : Nat) :
    (s.allocate_pool C w n).2.1.in_use_.value_ % 2 ^ 32
      = ((s.in_use_.value_ + n) % 2 ^ 32 + n * (2 ^ 32 - 1)) % 2 ^ 32 := by
  unfold memory_pool_stack.allocate_pool
  simp only []
  rw [(allocate_pool_loop_spec C _ n 0 _ _).1, performance_counter.iterate_pre_dec_value]
  rfl

theorem allocate_pool_counters_consistent (C : Nat) (s : memory_pool_stack true) (w : World)
    (n : Nat) (h : s.counters_consistent) : (s.allocate_pool C w n).2.1.counters_consistent := by
  obtain ⟨-, -, a3, -, a5, -⟩ := allocate_pool_spec C s w n
  have hv := allocate_pool_in_use_value C s w n
  obtain ⟨h1, h2⟩ := h
  refine ⟨?_, ?_⟩
  · rw [a3]; exact performance_counter.add_assign_in_range _ _ h1
  · rw [a5, a3]
    simp only [performance_counter.read, performance_counter.add_assign, if_true] at h2 ⊢
    simp only [performance_counter.in_range] at h1
    omega

theorem make_counters_consistent (C : Nat) (w : World) (pd n : Nat) :
    (memory_pool_stack.make true C w pd n).1.counters_consistent := by
  unfold memory_pool_stack.make
  apply allocate_pool_counters_consistent
  exact ⟨Nat.two_pow_pos 32, rfl⟩

theorem pop_counters_consistent (C : Nat) (s : memory_pool_stack true) (w : World)
    (h : s.counters_consistent) : (s.pop C w).2.1.counters_consistent := by
  cases hfl : s.free_list_ with
  | nil =>
    rw [pop_miss C s w hfl]
    exact allocate_pool_counters_consistent C s w _ h
  | cons r rest =>
    obtain ⟨f1, f2, -, f4, -⟩ := pop_hit_fields C s w r rest hfl
    obtain ⟨h1, h2⟩ := h
    refine ⟨by rw [f4]; exact h1, ?_⟩
    rw [f1, f2, f4]
    rw [hfl] at h2
    simp only [performance_counter.read, performance_counter.pre_inc, if_true,
      List.length_cons] at h2 ⊢
    omega

theorem push_counters_consistent (s : memory_pool_stack true) (r : Nat)
    (h : s.counters_consistent) : (s.push r).counters_consistent := by
  obtain ⟨h1, h2⟩ := h
  have e1 : (s.push r).in_use_.read = (s.in_use_.read + (2 ^ 32 - 1)) % 2 ^ 32 := by
    simp only [memory_pool_stack.push, performance_counter.read, performance_counter.pre_dec,
      if_true]
  have e2 : (s.push r).free_list_.length = s.free_list_.length + 1 := by
    rw [(push_fields s r).1, List.length_cons]
  have e3 : (s.push r).chunks_avail_ = s.chunks_avail_ := (push_fields s r).2.2.2.1
  unfold memory_pool_stack.counters_consistent
  rw [e1, e2, e3]
  exact ⟨h1, by omega⟩

/-- C16. For a stack with counters enabled, `in_use + |free_list| ==
chunks_avail` in `unsigned int` arithmetic holds after the constructor for any
initial count, and when it holds for a stack it holds after `pop` (hit or
miss), after `allocate_pool(n)` for any `n`, and after `push`. -/
theorem counters_consistent_invariant (C : Nat) (s : memory_pool_stack true) (w : World)
    (pd num_initial_chunks n r : Nat) (h : s.counters_consistent) :
    (memory_pool_stack.make true C w pd num_initial_chunks).1.counters_consistent ∧
    (s.pop C w).2.1.counters_consistent ∧
    (s.allocate_pool C w n).2.1.counters_consistent ∧
    (s.push r).counters_consistent := by
  exact ⟨make_counters_consistent C w pd num_initial_chunks, pop_counters_consistent C s w h,
   allocate_pool_counters_consistent C s w n h, push_counters_consistent s r h⟩

/-- C16, an instance: the tiny stack of scenario S1 with its four chunks outstanding. -/
theorem counters_consistent_invariant_witness :
    scenario_S1_exhausted.1.tiny_.counters_consistent ∧
    ((memory_pool_stack.make true 1024 scenario_S1_exhausted.2 7 4).1.counters_consistent ∧
    (scenario_S1_exhausted.1.tiny_.pop 1024 scenario_S1_exhausted.2).2.1.counters_consistent ∧
    (scenario_S1_exhausted.1.tiny_.allocate_pool 1024 scenario_S1_exhausted.2
      4).2.1.counters_consistent ∧
    (scenario_S1_exhausted.1.tiny_.push 3).counters_consistent) :=
  ⟨by decide,
   counters_consistent_invariant 1024 scenario_S1_exhausted.1.tiny_ scenario_S1_exhausted.2 7 4 4 3
      (by decide)⟩

/-! ## pop and push on a stack -/

/-- C17. For a stack with a non-empty free list and counters enabled, `pop()`
returns the sub-region on top of the free list (not null) and removes it from
the free list, increments `in_use` by one and `accesses` by one (as
`unsigned int`), and leaves `chunks_avail`, `region_list_`, `block_list_` and the
environment unchanged. -/
theorem pop_hit_spec (C : Nat) (s : memory_pool_stack true) (w : World)
    (h : s.free_list_ ≠ []) :
    (s.pop C w).1 = s.free_list_.head? ∧ (s.pop C w).1 ≠ none ∧
    (s.pop C w).2.1.free_list_ = s.free_list_.tail ∧
    (s.pop C w).2.1.in_use_.read = (s.in_use_.read + 1) % 2 ^ 32 ∧
    (s.pop C w).2.1.accesses_.read = (s.accesses_.read + 1) % 2 ^ 32 ∧
    (s.pop C w).2.1.chunks_avail_ = s.chunks_avail_ ∧
    (s.pop C w).2.1.region_list_ = s.region_list_ ∧
    (s.pop C w).2.1.block_list_ = s.block_list_ ∧
    (s.pop C w).2.2 = w := by
  cases hfl : s.free_list_ with
  | nil => exact absurd hfl h
  | cons r rest =>
    obtain ⟨f1, f2, f3, f4, f5, f6, -⟩ := pop_hit_fields C s w r rest hfl
    have e := pop_hit C s w r rest hfl
    refine ⟨by rw [e]; rfl, by rw [e]; exact Option.some_ne_none r, by rw [f1]; rfl,
      ?_, ?_, f4, f6, f5, by rw [e]⟩
    · rw [f2]
      simp only [performance_counter.read, performance_counter.pre_inc, if_true]
    · rw [f3]
      simp only [performance_counter.read, performance_counter.pre_inc, if_true]

/-- C17, an instance: the tiny stack of the fresh pool of scenario S1. -/
theorem pop_hit_spec_witness :
    scenario_S1.1.tiny_.free_list_ ≠ [] ∧
    ((scenario_S1.1.tiny_.pop 1024 scenario_S1.2).1 = scenario_S1.1.tiny_.free_list_.head? ∧
      (scenario_S1.1.tiny_.pop 1024 scenario_S1.2).1 ≠ none ∧
    (scenario_S1.1.tiny_.pop 1024 scenario_S1.2).2.1.free_list_ =
      scenario_S1.1.tiny_.free_list_.tail ∧
    (scenario_S1.1.tiny_.pop 1024 scenario_S1.2).2.1.in_use_.read =
      (scenario_S1.1.tiny_.in_use_.read + 1) % 2 ^ 32 ∧
    (scenario_S1.1.tiny_.pop 1024 scenario_S1.2).2.1.accesses_.read =
      (scenario_S1.1.tiny_.accesses_.read + 1) % 2 ^ 32 ∧
    (scenario_S1.1.tiny_.pop 1024 scenario_S1.2).2.1.chunks_avail_ =
      scenario_S1.1.tiny_.chunks_avail_ ∧
    (scenario_S1.1.tiny_.pop 1024 scenario_S1.2).2.1.region_list_ =
      scenario_S1.1.tiny_.region_list_ ∧
    (scenario_S1.1.tiny_.pop 1024 scenario_S1.2).2.1.block_list_ = scenario_S1.1.tiny_.block_list_ ∧
    (scenario_S1.1.tiny_.pop 1024 scenario_S1.2).2.2 = scenario_S1.2) :=
  ⟨by decide,
   pop_hit_spec 1024 scenario_S1.1.tiny_ scenario_S1.2 (by decide)⟩

/-- C19. For every stack and region pointer `r`, `push(r)` decrements
`in_use` by one (as `unsigned int`; nothing when the counters are disabled) and
puts `r` on top of the free list, so that a `pop()` right after it returns `r`,
leaves the free list as it was before the push and changes nothing in the
environment. -/
theorem push_then_pop (C : Nat) (s : memory_pool_stack enabled) (st : memory_pool_stack true)
    (w : World) (r : Nat) :
    (s.push r).in_use_ = s.in_use_.pre_dec ∧
    (st.push r).in_use_.read = (st.in_use_.read + (2 ^ 32 - 1)) % 2 ^ 32 ∧
    (0 < st.in_use_.read → st.in_use_.in_range →
      (st.push r).in_use_.read = st.in_use_.read - 1) ∧
    (s.push r).free_list_ = r :: s.free_list_ ∧
    ((s.push r).pop C w).1 = some r ∧
    ((s.push r).pop C w).2.1.free_list_ = s.free_list_ ∧
    ((s.push r).pop C w).2.2 = w ∧
    ((s.push r).pop C w).2.1.region_list_ = s.region_list_ ∧
    ((s.push r).pop C w).2.1.block_list_ = s.block_list_ ∧
    ((s.push r).pop C w).2.1.chunks_avail_ = s.chunks_avail_ := by
  have e := pop_hit C (s.push r) w r s.free_list_ (push_fields s r).1
  obtain ⟨f1, -, -, f4, f5, f6, -⟩ := pop_hit_fields C (s.push r) w r s.free_list_
    (push_fields s r).1
  have e1 : (st.push r).in_use_.read = (st.in_use_.read + (2 ^ 32 - 1)) % 2 ^ 32 := by
    simp only [memory_pool_stack.push, performance_counter.read, performance_counter.pre_dec,
      if_true]
  refine ⟨(push_fields s r).2.1, e1, ?_, (push_fields s r).1, by rw [e], f1, by rw [e],
    by rw [f6, (push_fields s r).2.2.2.2.2.1], by rw [f5, (push_fields s r).2.2.2.2.1],
    by rw [f4, (push_fields s r).2.2.2.1]⟩
  · intro h0 h1
    rw [e1]
    have h2 : st.in_use_.read < 2 ^ 32 := by
      simpa [performance_counter.read, performance_counter.in_range] using h1
    omega

/-! ## Growth of a stack -/

/-- C18. For a stack with an empty free list and counters enabled, `pop()`
returns null and grows the stack by `n`, the value of `in_use` at the miss:
`chunks_avail` increases by `n` (as `unsigned int`), the free list holds exactly
the `n` new sub-regions, each a live chunk, exactly one `register_memory` call is
made, for a new backing block of `ChunkSize * n` bytes that is stored in
`block_list_`, and `in_use` and `accesses` are unchanged.  When all chunks are
outstanding (`in_use == chunks_avail`), `chunks_avail` doubles. -/
theorem pop_miss_spec (C : Nat) (s : memory_pool_stack true) (w : World)
    (h : s.free_list_ = []) (hr : s.in_use_.in_range) :
    (s.pop C w).1 = none ∧
    (s.pop C w).2.1.chunks_avail_.read = (s.chunks_avail_.read + s.in_use_.read) % 2 ^ 32 ∧
    (s.in_use_.read = s.chunks_avail_.read →
      (s.pop C w).2.1.chunks_avail_.read = (2 * s.chunks_avail_.read) % 2 ^ 32) ∧
    (s.pop C w).2.1.free_list_ = (List.range' w.next_object s.in_use_.read).reverse ∧
    (s.pop C w).2.1.free_list_.length = s.in_use_.read ∧
    (∀ ptr ∈ (s.pop C w).2.1.free_list_, (s.pop C w).2.2.is_chunk C ptr) ∧
    (s.pop C w).2.1.region_list_ = s.region_list_ ++ List.range' w.next_object s.in_use_.read ∧
    (s.pop C w).2.2.register_log =
      ⟨s.pd_, w.next_buffer, C * s.in_use_.read, w.provider_flags, 0, w.next_buffer, 0⟩
        :: w.register_log ∧
    (s.pop C w).2.1.block_list_.lookup w.next_buffer
      = some (backing_block_of w (C * s.in_use_.read)) ∧
    (s.block_list_.lookup w.next_buffer = none →
      (s.pop C w).2.1.block_list_
        = (w.next_buffer, backing_block_of w (C * s.in_use_.read)) :: s.block_list_) ∧
    (s.pop C w).2.1.in_use_ = s.in_use_ ∧
    (s.pop C w).2.1.accesses_ = s.accesses_ := by
  rw [pop_miss C s w h]
  obtain ⟨a1, a2, a3, -, a5, -, a7, -⟩ := allocate_pool_spec C s w s.in_use_.read
  obtain ⟨-, c2, c3, -, c5, c6⟩ := allocate_pool_closed C s w s.in_use_.read
  have hca : (s.allocate_pool C w s.in_use_.read).2.1.chunks_avail_.read
      = (s.chunks_avail_.read + s.in_use_.read) % 2 ^ 32 := by
    rw [a3]
    simp only [performance_counter.read, performance_counter.add_assign, if_true]
  refine ⟨rfl, hca, ?_, ?_, ?_, ?_, c2, allocate_pool_register_log C s w _, c5, c6, a1 hr, a2⟩
  · intro he
    show (s.allocate_pool C w s.in_use_.read).2.1.chunks_avail_.read = _
    rw [hca, he]
    congr 1
    omega
  · show (s.allocate_pool C w s.in_use_.read).2.1.free_list_ = _
    rw [c3, h, List.append_nil]
  · show (s.allocate_pool C w s.in_use_.read).2.1.free_list_.length = _
    rw [a5, h]; rfl
  · intro ptr hptr
    rcases a7 ptr hptr with hm | ⟨-, -, hc⟩
    · rw [h] at hm; cases hm
    · exact hc

/-- C18, an instance: the tiny stack of scenario S1 with its four chunks outstanding, where
      `chunks_avail` goes from 4 to 8. -/
theorem pop_miss_spec_witness :
    (scenario_S1_exhausted.1.tiny_.free_list_ = [] ∧
      scenario_S1_exhausted.1.tiny_.in_use_.in_range) ∧
    ((scenario_S1_exhausted.1.tiny_.pop 1024 scenario_S1_exhausted.2).1 = none ∧
    (scenario_S1_exhausted.1.tiny_.pop 1024 scenario_S1_exhausted.2).2.1.chunks_avail_.read =
      (scenario_S1_exhausted.1.tiny_.chunks_avail_.read +
      scenario_S1_exhausted.1.tiny_.in_use_.read) % 2 ^ 32 ∧
    (scenario_S1_exhausted.1.tiny_.in_use_.read = scenario_S1_exhausted.1.tiny_.chunks_avail_.read →
      (scenario_S1_exhausted.1.tiny_.pop 1024 scenario_S1_exhausted.2).2.1.chunks_avail_.read = (2
      * scenario_S1_exhausted.1.tiny_.chunks_avail_.read) % 2 ^ 32) ∧
    (scenario_S1_exhausted.1.tiny_.pop 1024 scenario_S1_exhausted.2).2.1.free_list_ = (List.range'
      scenario_S1_exhausted.2.next_object scenario_S1_exhausted.1.tiny_.in_use_.read).reverse ∧
    (scenario_S1_exhausted.1.tiny_.pop 1024 scenario_S1_exhausted.2).2.1.free_list_.length =
      scenario_S1_exhausted.1.tiny_.in_use_.read ∧
    (∀ ptr ∈ (scenario_S1_exhausted.1.tiny_.pop 1024 scenario_S1_exhausted.2).2.1.free_list_,
      (scenario_S1_exhausted.1.tiny_.pop 1024 scenario_S1_exhausted.2).2.2.is_chunk 1024 ptr) ∧
    (scenario_S1_exhausted.1.tiny_.pop 1024 scenario_S1_exhausted.2).2.1.region_list_ =
      scenario_S1_exhausted.1.tiny_.region_list_ ++ List.range' scenario_S1_exhausted.2.next_object
      scenario_S1_exhausted.1.tiny_.in_use_.read ∧
    (scenario_S1_exhausted.1.tiny_.pop 1024 scenario_S1_exhausted.2).2.2.register_log =
      ⟨scenario_S1_exhausted.1.tiny_.pd_, scenario_S1_exhausted.2.next_buffer, 1024 *
      scenario_S1_exhausted.1.tiny_.in_use_.read, scenario_S1_exhausted.2.provider_flags, 0,
      scenario_S1_exhausted.2.next_buffer, 0⟩
        :: scenario_S1_exhausted.2.register_log ∧
    (scenario_S1_exhausted.1.tiny_.pop 1024 scenario_S1_exhausted.2).2.1.block_list_.lookup
      scenario_S1_exhausted.2.next_buffer
      = some (backing_block_of scenario_S1_exhausted.2 (1024 *
      scenario_S1_exhausted.1.tiny_.in_use_.read)) ∧
    (scenario_S1_exhausted.1.tiny_.block_list_.lookup scenario_S1_exhausted.2.next_buffer = none →
      (scenario_S1_exhausted.1.tiny_.pop 1024 scenario_S1_exhausted.2).2.1.block_list_
        = (scenario_S1_exhausted.2.next_buffer, backing_block_of scenario_S1_exhausted.2 (1024 *
      scenario_S1_exhausted.1.tiny_.in_use_.read)) :: scenario_S1_exhausted.1.tiny_.block_list_) ∧
    (scenario_S1_exhausted.1.tiny_.pop 1024 scenario_S1_exhausted.2).2.1.in_use_ =
      scenario_S1_exhausted.1.tiny_.in_use_ ∧
    (scenario_S1_exhausted.1.tiny_.pop 1024 scenario_S1_exhausted.2).2.1.accesses_ =
      scenario_S1_exhausted.1.tiny_.accesses_) :=
  ⟨⟨by decide, by decide⟩,
   pop_miss_spec 1024 scenario_S1_exhausted.1.tiny_ scenario_S1_exhausted.2 (by decide) (by decide)⟩

/-- C20. For every `n`, `allocate_pool(n)` makes exactly one `register_memory`
call, for a new backing block of `ChunkSize * n` bytes, and creates exactly `n`
sub-regions: the `i`-th (`0 <= i < n`) has `address = block base + i *
ChunkSize`, `base_address = block base`, `size = ChunkSize`, flags exactly
`BLOCK_PARTIAL` and the provider handle of the block, hence its local and
remote keys.  The `n` new regions are appended to `region_list_` in order and
pushed on the free list, the block is stored in `block_list_` under its
address, `chunks_avail` increases by `n` (as `unsigned int`) and `in_use` ends at
the value it had before the call. -/
theorem allocate_pool_grow (C : Nat) (s : memory_pool_stack enabled) (w : World) (n : Nat)
    (hr : s.in_use_.in_range) :
    (s.allocate_pool C w n).2.2.register_log =
      ⟨s.pd_, w.next_buffer, C * n, w.provider_flags, 0, w.next_buffer, 0⟩ :: w.register_log ∧
    (backing_block_of w (C * n)).size_ = C * n ∧
    (backing_block_of w (C * n)).base_addr_ = w.next_buffer ∧
    (s.allocate_pool C w n).2.1.block_list_.lookup w.next_buffer
      = some (backing_block_of w (C * n)) ∧
    (s.allocate_pool C w n).2.1.region_list_ = s.region_list_ ++ List.range' w.next_object n ∧
    (s.allocate_pool C w n).2.1.free_list_
      = (List.range' w.next_object n).reverse ++ s.free_list_ ∧
    (∀ i, i < n →
      ∃ r, (s.allocate_pool C w n).2.2.deref (w.next_object + i) = some r ∧
        r.address_ = (backing_block_of w (C * n)).base_addr_ + i * C ∧
        r.base_addr_ = (backing_block_of w (C * n)).base_addr_ ∧
        r.size_ = C ∧ r.flags_ = BLOCK_PARTIAL ∧
        r.region_ = (backing_block_of w (C * n)).region_ ∧
        (∀ key : Option Nat → Nat,
          r.get_local_key key = (backing_block_of w (C * n)).get_local_key key ∧
          r.get_remote_key key = (backing_block_of w (C * n)).get_remote_key key)) ∧
    (s.allocate_pool C w n).2.1.chunks_avail_ = s.chunks_avail_.add_assign n ∧
    (s.allocate_pool C w n).2.1.in_use_ = s.in_use_ ∧
    (s.allocate_pool C w n).2.1.accesses_ = s.accesses_ := by
  obtain ⟨a1, a2, a3, -⟩ := allocate_pool_spec C s w n
  obtain ⟨-, c2, c3, c4, c5, -⟩ := allocate_pool_closed C s w n
  refine ⟨allocate_pool_register_log C s w n, rfl, rfl, c5, c2, c3, ?_, a3, a1 hr, a2⟩
  intro i hi
  exact ⟨_, c4 i hi, rfl, rfl, rfl, rfl, rfl, fun _ => ⟨rfl, rfl⟩⟩

/-- C20, an instance: the tiny stack of the fresh pool of scenario S1 grown by three chunks. -/
theorem allocate_pool_grow_witness :
    scenario_S1.1.tiny_.in_use_.in_range ∧
    ((scenario_S1.1.tiny_.allocate_pool 1024 scenario_S1.2 3).2.2.register_log =
      ⟨scenario_S1.1.tiny_.pd_, scenario_S1.2.next_buffer, 1024 * 3, scenario_S1.2.provider_flags,
      0, scenario_S1.2.next_buffer, 0⟩ :: scenario_S1.2.register_log ∧
    (backing_block_of scenario_S1.2 (1024 * 3)).size_ = 1024 * 3 ∧
    (backing_block_of scenario_S1.2 (1024 * 3)).base_addr_ = scenario_S1.2.next_buffer ∧
    (scenario_S1.1.tiny_.allocate_pool 1024 scenario_S1.2 3).2.1.block_list_.lookup
      scenario_S1.2.next_buffer
      = some (backing_block_of scenario_S1.2 (1024 * 3)) ∧
    (scenario_S1.1.tiny_.allocate_pool 1024 scenario_S1.2 3).2.1.region_list_ =
      scenario_S1.1.tiny_.region_list_ ++ List.range' scenario_S1.2.next_object 3 ∧
    (scenario_S1.1.tiny_.allocate_pool 1024 scenario_S1.2 3).2.1.free_list_
      = (List.range' scenario_S1.2.next_object 3).reverse ++ scenario_S1.1.tiny_.free_list_ ∧
    (∀ i, i < 3 →
      ∃ r, (scenario_S1.1.tiny_.allocate_pool 1024 scenario_S1.2 3).2.2.deref
      (scenario_S1.2.next_object + i) = some r ∧
        r.address_ = (backing_block_of scenario_S1.2 (1024 * 3)).base_addr_ + i * 1024 ∧
        r.base_addr_ = (backing_block_of scenario_S1.2 (1024 * 3)).base_addr_ ∧
        r.size_ = 1024 ∧ r.flags_ = BLOCK_PARTIAL ∧
        r.region_ = (backing_block_of scenario_S1.2 (1024 * 3)).region_ ∧
        (∀ key : Option Nat → Nat,
          r.get_local_key key = (backing_block_of scenario_S1.2 (1024 * 3)).get_local_key key ∧
          r.get_remote_key key = (backing_block_of scenario_S1.2 (1024 * 3)).get_remote_key key)) ∧
    (scenario_S1.1.tiny_.allocate_pool 1024 scenario_S1.2 3).2.1.chunks_avail_ =
      scenario_S1.1.tiny_.chunks_avail_.add_assign 3 ∧
    (scenario_S1.1.tiny_.allocate_pool 1024 scenario_S1.2 3).2.1.in_use_ =
      scenario_S1.1.tiny_.in_use_ ∧
    (scenario_S1.1.tiny_.allocate_pool 1024 scenario_S1.2 3).2.1.accesses_ =
      scenario_S1.1.tiny_.accesses_) :=
  ⟨by decide,
   allocate_pool_grow 1024 scenario_S1.1.tiny_ scenario_S1.2 3 (by decide)⟩

/-! ## The allocator façade -/

/-- The request that `allocate(n)` passes to the pool is `n`, whatever the
size of the element type. -/
theorem allocate_independent_of_sizeof (id k1 k2 : Nat) (s : Process enabled) (n : Nat) :
    (memory_region_allocator.allocate ⟨id, k1⟩ s n).map
        (fun x => (x.1.pointer_, x.1.region_, x.2.world))
      = (memory_region_allocator.allocate ⟨id, k2⟩ s n).map
        (fun x => (x.1.pointer_, x.1.region_, x.2.world)) := by
  unfold memory_region_allocator.allocate
  simp only []
  cases s.mempool_ptr id with
  | none => rfl
  | some m =>
    simp only []
    cases s.pools.lookup m with
    | none => rfl
    | some pool =>
      simp only []
      cases ((pool.get_region s.world n).2.2.deref (pool.get_region s.world n).1) with
      | none => rfl
      | some region => rfl

/-- C11, the code at the failing input. With the pool of scenario S1 set as
the pool of `memory_region_allocator<double>` (`sizeof(double) == 8`),
`allocate(200)` asks the pool for `200` bytes, not for `200 * 8`: the pool is
left as `get_region(200)` leaves it, and the fancy pointer carries region `4`, a
tiny sub-region of 1024 bytes, which is less than the 1600 bytes that 200
objects need. -/
theorem allocate_passes_count_as_bytes :
    element_double.sizeof = 8 ∧
    (memory_region_allocator.allocate element_double
        (memory_region_allocator.set_memory_pool element_double scenario_process (some 1000))
        200).map
      (fun x => (x.1.pointer_, x.1.region_, (x.2.world.deref 4).map (fun r => r.size_)))
      = some (7168, some 4, some 1024) ∧
    (1024 < 200 * element_double.sizeof) ∧
    (memory_region_allocator.allocate element_double
        (memory_region_allocator.set_memory_pool element_double scenario_process (some 1000))
        200).map (fun x => (x.2.pools, x.2.world))
      = some ([(1000, (scenario_S1.1.get_region scenario_S1.2 200).2.1)],
              (scenario_S1.1.get_region scenario_S1.2 200).2.2) ∧
    (scenario_S1.1.get_region scenario_S1.2 (200 * 8)).1
      ≠ (scenario_S1.1.get_region scenario_S1.2 200).1 := by
  decide

/-- What `get_memory_pool()` of `memory_region_allocator<U>` returns after
`set_memory_pool(m)` of `memory_region_allocator<T>`. -/
theorem get_set_memory_pool (T U : element_type) (s : Process enabled) (m : Option Nat) :
    memory_region_allocator.get_memory_pool U
        (memory_region_allocator.set_memory_pool T s m)
      = if U.id = T.id then m else memory_region_allocator.get_memory_pool U s := rfl

/-- C12, the code at the failing input. After `set_memory_pool(m)` on a
`memory_region_allocator<int>`, with `m` the pool at address `1000`,
`get_memory_pool()` returns `m` on every `memory_region_allocator<int>`, but on a
`memory_region_allocator<double>` it returns the null pointer that the static
member of that instantiation was defined with. -/
theorem mempool_ptr_is_per_element_type :
    element_int ≠ element_double ∧
    memory_region_allocator.get_memory_pool element_int
        (memory_region_allocator.set_memory_pool element_int scenario_process (some 1000))
      = some 1000 ∧
    memory_region_allocator.get_memory_pool element_double
        (memory_region_allocator.set_memory_pool element_int scenario_process (some 1000))
      = none ∧
    memory_region_allocator.get_memory_pool element_double
        (memory_region_allocator.set_memory_pool element_int scenario_process (some 1000))
      ≠ some 1000 ∧
    (memory_region_allocator.allocate element_double
        (memory_region_allocator.set_memory_pool element_int scenario_process (some 1000))
        1).isNone = true := by
  decide

/-! ## Provider failures -/

/-- When the provider refuses the registration, `allocate` still returns `0`;
the region keeps the handle it had, its new buffer stays on the heap, and the
destructor of a region whose handle is null frees nothing. -/
theorem allocate_refused (r : memory_region_impl) (w : World) (pd L : Nat)
    (h : w.register_status.headD 0 ≠ 0) :
    (r.allocate w pd L).1 = 0 ∧
    (r.allocate w pd L).2.1.region_ = r.region_ ∧
    (r.allocate w pd L).2.2.buffers = (w.next_buffer, L) :: w.buffers ∧
    (r.region_ = none →
      ((r.allocate w pd L).2.1.destroy (r.allocate w pd L).2.2).buffers
        = (w.next_buffer, L) :: w.buffers) := by
  have e : (r.allocate w pd L).2.2.buffers = (w.next_buffer, L) :: w.buffers := by
    simp only [memory_region_impl.allocate, World.register_memory, World.new_array]
    split_ifs <;> rfl
  obtain ⟨h1, h2, -⟩ := memory_region_impl.allocate_spec r w pd L
  have e2 : (r.allocate w pd L).2.1.region_ = r.region_ := by
    rw [h2]; simp only [if_neg h]
  refine ⟨h1, e2, e, ?_⟩
  intro hn
  have e3 : (r.allocate w pd L).2.1.destroy (r.allocate w pd L).2.2 = (r.allocate w pd L).2.2 := by
    unfold memory_region_impl.destroy memory_region_impl.release
    rw [e2, hn]
    split <;> rfl
  rw [e3, e]

/-- C13, the code at the failing input. With a provider that refuses the
registration (status `-12`), `allocate(pd, 4096)` on a default-constructed
region returns `0`, the value it returns on success; the region it leaves, which
`memory_block_allocator::malloc` hands to its caller, has a null handle and the
new 4 KiB buffer at `4096`, and after the destructor of that region the buffer is
still on the heap: nothing was unregistered and nothing was freed.  In the same
way `allocate_region(2 MiB)` on the pool of scenario S3 returns a region with a
null handle, and after `deallocate` its buffer is still live. -/
theorem allocate_reports_success_on_refusal :
    (World.fresh [-12] []).register_status.headD 0 = -12 ∧
    (memory_region_impl.default.allocate (World.fresh [-12] []) 7 4096).1 = 0 ∧
    (memory_region_impl.default.allocate (World.fresh [-12] []) 7 4096).2.1.region_ = none ∧
    (memory_block_allocator.malloc (World.fresh [-12] []) 7 4096).1
      = (memory_region_impl.default.allocate (World.fresh [-12] []) 7 4096).2.1 ∧
    (memory_region_impl.default.allocate (World.fresh [-12] []) 7 4096).2.2.buffers
      = [(4096, 4096)] ∧
    ((memory_region_impl.default.allocate (World.fresh [-12] []) 7 4096).2.1.destroy
        (memory_region_impl.default.allocate (World.fresh [-12] []) 7 4096).2.2).buffers
      = [(4096, 4096)] ∧
    ((memory_region_impl.default.allocate (World.fresh [-12] []) 7 4096).2.1.destroy
        (memory_region_impl.default.allocate (World.fresh [-12] []) 7 4096).2.2).delete_log
      = [] ∧
    ((scenario_S3_refused.1.allocate_region scenario_S3_refused.2 2097152).2.2.deref
        (scenario_S3_refused.1.allocate_region scenario_S3_refused.2 2097152).1).map
      (fun r => (r.address_, r.size_, r.region_)) = some (1155076, 2097152, none) ∧
    ((scenario_S3_refused.1.allocate_region scenario_S3_refused.2 2097152).2.1.deallocate
        (scenario_S3_refused.1.allocate_region scenario_S3_refused.2 2097152).2.2
        (scenario_S3_refused.1.allocate_region scenario_S3_refused.2 2097152).1).map
      (fun x => (x.2.buffers.lookup 1155076, x.2.delete_log))
      = some (some 2097152, []) := by
  decide

/-- C14, counterexample. A plain block of 4 KiB holds the handle `1` and the
provider refuses the `unregister_memory` call (status `-1`): `release()` returns
`-1`, but the handle of the region is still `1`, not null, and the buffer is
still live; a second `release()` calls `unregister_memory` on the handle `1` a
second time. -/
theorem release_keeps_handle_on_failure :
    scenario_unregister_refused.1.region_ = some 1 ∧
    scenario_unregister_refused.2.unregister_status.headD 0 = -1 ∧
    (scenario_unregister_refused.1.release scenario_unregister_refused.2).1 = -1 ∧
    (scenario_unregister_refused.1.release scenario_unregister_refused.2).2.1.region_
      = some 1 ∧
    (scenario_unregister_refused.1.release scenario_unregister_refused.2).2.1.region_
      ≠ none ∧
    (scenario_unregister_refused.1.release scenario_unregister_refused.2).2.2.unregister_log
      = [1] ∧
    (scenario_unregister_refused.1.release scenario_unregister_refused.2).2.2.buffers
      = [(4096, 4096)] ∧
    ((scenario_unregister_refused.1.release scenario_unregister_refused.2).2.1.release
        (scenario_unregister_refused.1.release scenario_unregister_refused.2).2.2).2.2.unregister_log
      = [1, 1] ∧
    ((scenario_unregister_refused.1.release scenario_unregister_refused.2).2.1.destroy
        (scenario_unregister_refused.1.release scenario_unregister_refused.2).2.2).unregister_log
      = [1, 1] := by
  decide

/-- C14, amended. When the provider answers a non-zero status to the
`unregister_memory` call of `release()`, `release()` returns `-1`, and the
region is left as it was: it keeps its handle, and nothing is freed.  A later
`release()`, and the destructor of a region that is not `BLOCK_PARTIAL`, call
`unregister_memory` on the same handle again. -/
theorem release_failure (r : memory_region_impl) (w : World) (h : Nat)
    (hh : r.region_ = some h) (hs : w.unregister_status.headD 0 ≠ 0) :
    (r.release w).1 = -1 ∧
    (r.release w).2.1 = r ∧
    (r.release w).2.1.region_ = some h ∧
    (r.release w).2.2.unregister_log = h :: w.unregister_log ∧
    (r.release w).2.2.delete_log = w.delete_log ∧
    (r.release w).2.2.buffers = w.buffers ∧
    (∀ w2 : World,
      ((r.release w).2.1.release w2).2.2.unregister_log = h :: w2.unregister_log) ∧
    (∀ w2 : World, r.get_partial_region = false →
      ((r.release w).2.1.destroy w2).unregister_log = h :: w2.unregister_log) := by
  have e : r.release w = (-1, r, (w.unregister_memory h).2) := by
    unfold memory_region_impl.release
    rw [hh]
    have : (w.unregister_memory h).1 ≠ 0 := hs
    simp only [this, ne_eq, not_false_eq_true, if_true]
  have e2 : ∀ w2 : World, (r.release w2).2.2.unregister_log = h :: w2.unregister_log := by
    intro w2
    unfold memory_region_impl.release
    rw [hh]
    simp only [World.unregister_memory]
    split_ifs <;> simp [World.delete_array]
  rw [e]
  refine ⟨rfl, rfl, hh, rfl, rfl, rfl, e2, ?_⟩
  intro w2 hp
  unfold memory_region_impl.destroy
  simp only [hp, Bool.false_eq_true, if_false]
  exact e2 w2

/-- C14, an instance of the amended claim: the block whose unregistration the provider refuses. -/
theorem release_failure_witness :
    (scenario_unregister_refused.1.region_ = some 1 ∧
      scenario_unregister_refused.2.unregister_status.headD 0 ≠ 0) ∧
    ((scenario_unregister_refused.1.release scenario_unregister_refused.2).1 = -1 ∧
    (scenario_unregister_refused.1.release scenario_unregister_refused.2).2.1 =
      scenario_unregister_refused.1 ∧
    (scenario_unregister_refused.1.release scenario_unregister_refused.2).2.1.region_ = some 1 ∧
    (scenario_unregister_refused.1.release scenario_unregister_refused.2).2.2.unregister_log = 1 ::
      scenario_unregister_refused.2.unregister_log ∧
    (scenario_unregister_refused.1.release scenario_unregister_refused.2).2.2.delete_log =
      scenario_unregister_refused.2.delete_log ∧
    (scenario_unregister_refused.1.release scenario_unregister_refused.2).2.2.buffers =
      scenario_unregister_refused.2.buffers ∧
    (∀ w2 : World,
      ((scenario_unregister_refused.1.release scenario_unregister_refused.2).2.1.release
      w2).2.2.unregister_log = 1 :: w2.unregister_log) ∧
    (∀ w2 : World, scenario_unregister_refused.1.get_partial_region = false →
      ((scenario_unregister_refused.1.release scenario_unregister_refused.2).2.1.destroy
      w2).unregister_log = 1 :: w2.unregister_log)) :=
  ⟨⟨by decide, by decide⟩,
   release_failure scenario_unregister_refused.1 scenario_unregister_refused.2 1 (by decide) (by
      decide)⟩

/-- C15, counterexample. A plain block of 4 KiB (flags `0`, so `BLOCK_USER`
is not set) holds the handle `1` and the provider refuses the
`unregister_memory` call: the destructor calls `unregister_memory` once and then
returns, so the buffer is not freed although `BLOCK_USER` is not set. -/
theorem destroy_keeps_buffer_on_failure :
    (scenario_unregister_refused.1.get_partial_region = false ∧
     scenario_unregister_refused.1.get_user_region = false ∧
     scenario_unregister_refused.1.region_ = some 1 ∧
     scenario_unregister_refused.2.buffers = [(4096, 4096)]) ∧
    (scenario_unregister_refused.1.destroy scenario_unregister_refused.2).unregister_log
      = [1] ∧
    (scenario_unregister_refused.1.destroy scenario_unregister_refused.2).delete_log = [] ∧
    (scenario_unregister_refused.1.destroy scenario_unregister_refused.2).buffers
      = [(4096, 4096)] := by
  decide

/-- C15, amended. The destructor of a region follows the flags, for every
combination of them.  With `BLOCK_PARTIAL` set it makes no provider call and
frees nothing.  Otherwise, with a null handle it does nothing, and with a handle
it calls `unregister_memory` exactly once, on that handle, makes no other
provider call, and frees the backing buffer (`delete[]` of `base_address`) if and
only if the call succeeded and `BLOCK_USER` is not set: a plain block and a
`BLOCK_TEMP` region are unregistered and freed, a `BLOCK_USER` region is
unregistered only. -/
theorem destroy_policy (r : memory_region_impl) (w : World) :
    (r.get_partial_region = true → r.destroy w = w) ∧
    (r.get_partial_region = false → r.region_ = none → r.destroy w = w) ∧
    (∀ h, r.get_partial_region = false → r.region_ = some h →
      (r.destroy w).unregister_log = h :: w.unregister_log ∧
      (r.destroy w).register_log = w.register_log ∧
      ((w.unregister_status.headD 0 = 0 ∧ r.get_user_region = false) →
        (r.destroy w).delete_log = r.base_addr_ :: w.delete_log ∧
        (r.destroy w).buffers = w.buffers.filter (fun b => b.1 != r.base_addr_)) ∧
      (¬ (w.unregister_status.headD 0 = 0 ∧ r.get_user_region = false) →
        (r.destroy w).delete_log = w.delete_log ∧ (r.destroy w).buffers = w.buffers)) := by
  refine ⟨?_, ?_, ?_⟩
  · intro hp
    unfold memory_region_impl.destroy
    simp only [hp, if_true]
  · intro hp hn
    unfold memory_region_impl.destroy memory_region_impl.release
    simp only [hp, hn, Bool.false_eq_true, if_false]
  · intro h hp hh
    unfold memory_region_impl.destroy memory_region_impl.release
    simp only [hp, hh, Bool.false_eq_true, if_false, World.unregister_memory,
      memory_region_impl.get_base_address]
    split_ifs <;> simp_all [World.delete_array]

/-! ## The fancy pointer -/

/-- C26: for every fancy pointer `p` and every integer `n`, `(p + n) - n` has
the data pointer of `p` and the region of `p`, so it is `p`. -/
theorem add_sub_cancel_both_fields (T : element_type) (p : memory_region_pointer T) (n : Int) :
    ((p.add n).sub n).pointer_ = p.pointer_ ∧
    ((p.add n).sub n).region_ = p.region_ ∧
    (p.add n).sub n = p := by
  have h : ((p.add n).sub n).pointer_ = p.pointer_ := by
    simp only [memory_region_pointer.add, memory_region_pointer.sub, memory_region_pointer.make,
      memory_region_pointer.advance]
    ring
  refine ⟨h, rfl, ?_⟩
  cases p with
  | mk a r =>
    simp only [memory_region_pointer.add, memory_region_pointer.sub, memory_region_pointer.make,
      memory_region_pointer.advance, memory_region_pointer.mk.injEq, and_true]
    ring

/-- C27: each of `p + n`, `p - n`, `p += n`, `p -= n`, `++p`, `--p`, `p++`,
`p--` and copy construction yields, and leaves in `p`, a pointer with the
region of `p`; the data pointer moves by `n` elements of `sizeof(T)` bytes (one
element for the increments and decrements, none for a copy), and `p++` and
`p--` return the value `p` had before the step. -/
theorem arithmetic_keeps_region (T : element_type) (p : memory_region_pointer T) (n : Int) :
    ((p.add n).region_ = p.region_ ∧ (p.add n).pointer_ = p.pointer_ + n * T.sizeof) ∧
    ((p.sub n).region_ = p.region_ ∧ (p.sub n).pointer_ = p.pointer_ - n * T.sizeof) ∧
    ((p.add_assign n).region_ = p.region_ ∧
      (p.add_assign n).pointer_ = p.pointer_ + n * T.sizeof) ∧
    ((p.sub_assign n).region_ = p.region_ ∧
      (p.sub_assign n).pointer_ = p.pointer_ - n * T.sizeof) ∧
    (p.pre_inc.region_ = p.region_ ∧ p.pre_inc.pointer_ = p.pointer_ + T.sizeof) ∧
    (p.pre_dec.region_ = p.region_ ∧ p.pre_dec.pointer_ = p.pointer_ - T.sizeof) ∧
    (p.post_inc.1 = p ∧ p.post_inc.2.region_ = p.region_ ∧
      p.post_inc.2.pointer_ = p.pointer_ + T.sizeof) ∧
    (p.post_dec.1 = p ∧ p.post_dec.2.region_ = p.region_ ∧
      p.post_dec.2.pointer_ = p.pointer_ - T.sizeof) ∧
    (p.copy.region_ = p.region_ ∧ p.copy.pointer_ = p.pointer_) := by
  refine ⟨⟨rfl, rfl⟩, ⟨rfl, ?_⟩, ⟨rfl, rfl⟩, ⟨rfl, ?_⟩, ⟨rfl, ?_⟩, ⟨rfl, ?_⟩, ⟨rfl, rfl, ?_⟩,
    ⟨rfl, rfl, ?_⟩, rfl, rfl⟩ <;>
  simp only [memory_region_pointer.sub, memory_region_pointer.sub_assign,
    memory_region_pointer.pre_inc, memory_region_pointer.pre_dec, memory_region_pointer.post_inc,
    memory_region_pointer.post_dec, memory_region_pointer.make, memory_region_pointer.advance] <;>
  ring

/-- C28: a fancy pointer that is default-constructed, constructed from
`nullptr` or assigned `nullptr` has a null data pointer and a null region and
is false in a boolean context; any fancy pointer is true in a boolean context
exactly when its data pointer is not null, whatever its region. -/
theorem null_pointer_is_false (T : element_type) (p : memory_region_pointer T) :
    ((memory_region_pointer.default T).pointer_ = 0 ∧
      (memory_region_pointer.default T).region_ = none ∧
      (memory_region_pointer.default T).to_bool = false) ∧
    ((memory_region_pointer.of_nullptr T).pointer_ = 0 ∧
      (memory_region_pointer.of_nullptr T).region_ = none ∧
      (memory_region_pointer.of_nullptr T).to_bool = false) ∧
    (p.assign_nullptr.pointer_ = 0 ∧ p.assign_nullptr.region_ = none ∧
      p.assign_nullptr.to_bool = false) ∧
    (p.to_bool = true ↔ p.pointer_ ≠ 0) ∧
    (∀ r : Option Nat, (memory_region_pointer.make T p.pointer_ r).to_bool = p.to_bool) := by
  refine ⟨⟨rfl, rfl, rfl⟩, ⟨rfl, rfl, rfl⟩, ⟨rfl, rfl, rfl⟩, ?_, fun _ => rfl⟩
  simp [memory_region_pointer.to_bool]

/-! ## The operators of an enabled counter -/

theorem performance_counter.sub_value_cast (bits v x : Nat) :
    (((v + (2 ^ bits - x % 2 ^ bits)) % 2 ^ bits : Nat) : Int) = ((v : Int) - x) % 2 ^ bits := by
  have hM : 0 < 2 ^ bits := Nat.two_pow_pos bits
  have hx : x % 2 ^ bits < 2 ^ bits := Nat.mod_lt _ hM
  have h1 : ((v + (2 ^ bits - x % 2 ^ bits) : Nat) : Int) =
      (v : Int) - ((x % 2 ^ bits : Nat) : Int) + ((2 ^ bits : Nat) : Int) := by
    rw [Nat.cast_add, Nat.cast_sub hx.le]
    ring
  rw [Int.natCast_mod, h1, Int.add_emod_self, Int.natCast_mod, Int.sub_emod, Int.emod_emod_of_dvd _ (dvd_refl _),
    ← Int.sub_emod]
  simp

theorem performance_counter.sub_assign_add_assign {bits : Nat} (c : performance_counter bits true)
    (h : c.in_range) (x : Nat) : (c.add_assign x).sub_assign x = c := by
  have hM : 0 < 2 ^ bits := Nat.two_pow_pos bits
  have hc : c.value_ < 2 ^ bits := h
  have hx : x % 2 ^ bits < 2 ^ bits := Nat.mod_lt _ hM
  cases c with
  | mk v =>
    simp only [performance_counter.add_assign, performance_counter.sub_assign, if_true,
      performance_counter.mk.injEq] at hc ⊢
    rw [Nat.mod_add_mod]
    have e : v + x + (2 ^ bits - x % 2 ^ bits) = v + 2 ^ bits * (x / 2 ^ bits + 1) := by
      have := Nat.div_add_mod x (2 ^ bits)
      have h2 : v + x + (2 ^ bits - x % 2 ^ bits) =
          v + (2 ^ bits * (x / 2 ^ bits) + x % 2 ^ bits) + (2 ^ bits - x % 2 ^ bits) := by
        rw [this]
      rw [h2, Nat.mul_add, Nat.mul_one]
      omega
    rw [e, Nat.add_mul_mod_self_left, Nat.mod_eq_of_lt hc]

/-- C29: an enabled counter of `bits` bits holding `v` behaves as an integer
modulo `2 ^ bits` under the prefix and compound operators: `++c` stores and
returns `v + 1`, `--c` stores and returns `v - 1`, `c += x` stores and returns
`v + x`, `c -= x` stores and returns `v - x`, all modulo `2 ^ bits`; reading
returns the stored value; `++` followed by `--`, and `+= x` followed by `-= x`,
restore the counter. -/
theorem enabled_counter_operators (bits : Nat) (c : performance_counter bits true) (x : Nat)
    (h : c.in_range) :
    (c.pre_inc.value_ = (c.value_ + 1) % 2 ^ bits ∧
      performance_counter.returned c.pre_inc = (c.value_ + 1) % 2 ^ bits) ∧
    ((c.pre_dec.value_ : Int) = ((c.value_ : Int) - 1) % 2 ^ bits ∧
      performance_counter.returned c.pre_dec = c.pre_dec.value_) ∧
    ((c.add_assign x).value_ = (c.value_ + x) % 2 ^ bits ∧
      performance_counter.returned (c.add_assign x) = (c.value_ + x) % 2 ^ bits) ∧
    (((c.sub_assign x).value_ : Int) = ((c.value_ : Int) - x) % 2 ^ bits ∧
      performance_counter.returned (c.sub_assign x) = (c.sub_assign x).value_) ∧
    c.read = c.value_ ∧
    c.pre_inc.pre_dec = c ∧
    (c.add_assign x).sub_assign x = c := by
  refine ⟨⟨rfl, rfl⟩, ⟨?_, rfl⟩, ⟨rfl, rfl⟩, ⟨?_, rfl⟩, rfl,
    performance_counter.pre_dec_pre_inc c h, performance_counter.sub_assign_add_assign c h x⟩
  · have e := performance_counter.sub_value_cast bits c.value_ 1
    have h1 : (1 : Nat) % 2 ^ bits = 1 ∨ (1 : Nat) % 2 ^ bits = 0 := by
      rcases Nat.eq_zero_or_pos bits with hb | hb
      · right; subst hb; rfl
      · left; exact Nat.mod_eq_of_lt (Nat.one_lt_two_pow (Nat.pos_iff_ne_zero.mp hb))
    rcases h1 with h1 | h1
    · rw [h1] at e
      simpa [performance_counter.pre_dec] using e
    · have hb : bits = 0 := by
        by_contra hb
        rw [Nat.mod_eq_of_lt (Nat.one_lt_two_pow hb)] at h1
        exact absurd h1 (by decide)
      subst hb
      simp [performance_counter.pre_dec, Int.emod_one]
  · simpa [performance_counter.sub_assign] using
      performance_counter.sub_value_cast bits c.value_ x

/-- The witness of C29: a 32-bit counter holding `4294967295`, and `x = 7`. -/
theorem enabled_counter_operators_witness :
    (⟨4294967295⟩ : performance_counter 32 true).in_range ∧
    (((⟨4294967295⟩ : performance_counter 32 true).pre_inc.value_ = 0 ∧
      ((⟨4294967295⟩ : performance_counter 32 true).add_assign 7).value_ = 6) ∧
     (⟨4294967295⟩ : performance_counter 32 true).pre_inc.pre_dec = ⟨4294967295⟩) :=
  ⟨by decide,
   ⟨⟨(enabled_counter_operators 32 ⟨4294967295⟩ 7 (by decide)).1.1,
     (enabled_counter_operators 32 ⟨4294967295⟩ 7 (by decide)).2.2.1.1⟩,
    (enabled_counter_operators 32 ⟨4294967295⟩ 7 (by decide)).2.2.2.2.2.1⟩⟩

/-- C30: the postfix operators of an enabled counter add and subtract their
`int` parameter, which is `0` in `c++` and `c--`: a 32-bit counter holding `5`
holds `5` after `c++` and after `c--`, which also return `5`, where the prefix
`++c` and `--c` leave `6` and `4`. -/
theorem postfix_keeps_value :
    ((⟨5⟩ : performance_counter 32 true).post_inc 0).read = 5 ∧
    ((⟨5⟩ : performance_counter 32 true).post_dec 0).read = 5 ∧
    performance_counter.returned ((⟨5⟩ : performance_counter 32 true).post_inc 0) = 5 ∧
    performance_counter.returned ((⟨5⟩ : performance_counter 32 true).post_dec 0) = 5 ∧
    (⟨5⟩ : performance_counter 32 true).pre_inc.read = 6 ∧
    (⟨5⟩ : performance_counter 32 true).pre_dec.read = 4 := by
  decide

/-! ## The byte ranges of the sub-regions -/

theorem allocate_pool_loop_provider (C : Nat) (block : memory_region_impl) (k offset : Nat)
    (s : memory_pool_stack enabled) (w : World) :
    (memory_pool_stack.allocate_pool_loop C block k offset s w).2.next_buffer = w.next_buffer ∧
    (memory_pool_stack.allocate_pool_loop C block k offset s w).2.next_handle = w.next_handle ∧
    (memory_pool_stack.allocate_pool_loop C block k offset s w).2.unregister_log
      = w.unregister_log ∧
    (memory_pool_stack.allocate_pool_loop C block k offset s w).2.indeterminate
      = w.indeterminate ∧
    (memory_pool_stack.allocate_pool_loop C block k offset s w).2.delete_log = w.delete_log ∧
    (memory_pool_stack.allocate_pool_loop C block k offset s w).2.unregister_status
      = w.unregister_status := by
  have h := (allocate_pool_loop_spec C block k offset s w).2.2.2.2.2.2.2.2.2.2.2
  unfold World.same_provider at h
  obtain ⟨-, e2, -, e4, -, e6, e7, -, e9, e10⟩ := h
  exact ⟨e7, e4, e6, e10, e9, e2⟩

/-- The provider and the `char[]` heap after `allocate_pool(n)` when no block
is stored under the address of the new one. -/
theorem allocate_pool_provider (C : Nat) (s : memory_pool_stack enabled) (w : World) (n : Nat)
    (h : s.block_list_.lookup w.next_buffer = none) :
    (s.allocate_pool C w n).2.2.next_buffer = w.next_buffer + C * n + 1 ∧
    (s.allocate_pool C w n).2.2.next_handle
      = (if w.register_status.headD 0 = 0 then w.next_handle + 1 else w.next_handle) ∧
    (s.allocate_pool C w n).2.2.unregister_log = w.unregister_log ∧
    (s.allocate_pool C w n).2.2.indeterminate = w.indeterminate ∧
    (s.allocate_pool C w n).2.2.delete_log = w.delete_log ∧
    (s.allocate_pool C w n).2.2.unregister_status = w.unregister_status := by
  have hkey : (memory_block_allocator.malloc w s.pd_ (C * n)).1.get_address = w.next_buffer := by
    rw [malloc_spec]; rfl
  obtain ⟨-, b2⟩ := block_list_assign_fst s.block_list_
      (memory_block_allocator.malloc w s.pd_ (C * n)).1.get_address
      (memory_block_allocator.malloc w s.pd_ (C * n)).1
      (memory_block_allocator.malloc w s.pd_ (C * n)).2
  rw [hkey] at b2
  have b3 := (b2 h).2
  unfold memory_pool_stack.allocate_pool
  simp only []
  rw [hkey, b3]
  obtain ⟨e1, e2, e3, e4, e5, e6⟩ := allocate_pool_loop_provider C
    (memory_block_allocator.malloc w s.pd_ (C * n)).1 n 0
    (memory_pool_stack.mk s.accesses_ (s.in_use_.add_assign n) (s.chunks_avail_.add_assign n)
      s.pd_ (memory_pool_stack.block_list_assign s.block_list_
                  w.next_buffer
                  (memory_block_allocator.malloc w s.pd_ (C * n)).1
                  (memory_block_allocator.malloc w s.pd_ (C * n)).2).1 s.region_list_
      s.free_list_)
    (memory_block_allocator.malloc w s.pd_ (C * n)).2
  rw [e1, e2, e3, e4, e5, e6]
  simp only [memory_block_allocator.malloc, memory_region_impl.allocate, World.register_memory,
    World.new_array]
  split_ifs <;> simp

theorem chunk_ranges_disjoint (B C i j : Nat) (h : i ≠ j) :
    B + i * C + C ≤ B + j * C ∨ B + j * C + C ≤ B + i * C := by
  rcases Nat.lt_or_gt_of_ne h with hlt | hlt
  · left
    have := Nat.mul_le_mul_right C (Nat.succ_le_of_lt hlt)
    rw [Nat.succ_mul] at this
    omega
  · right
    have := Nat.mul_le_mul_right C (Nat.succ_le_of_lt hlt)
    rw [Nat.succ_mul] at this
    omega

theorem chunk_range_within (B C n i : Nat) (h : i < n) : B + i * C + C ≤ B + C * n := by
  have := Nat.mul_le_mul_right C (Nat.succ_le_of_lt h)
  rw [Nat.succ_mul, Nat.mul_comm n C] at this
  omega

/-- C23: `allocate_pool(n)` stores a block of `n * ChunkSize` bytes with base
`B` and makes the `n` sub-regions `[B + i * ChunkSize, B + (i + 1) * ChunkSize)`:
each has the base address of the block and lies within the block, so that
`address + size <= base_address + size of the block`, and any two of them are
disjoint.  A sub-region of this block and a sub-region of a block of any stack
whose byte range is disjoint from this block are disjoint, and a sub-region
that is not empty does not lie within such a block; the block of a later
growth is such a block. -/
theorem grow_subregions_disjoint (C : Nat) (s : memory_pool_stack enabled) (w : World) (n : Nat) :
    ((s.allocate_pool C w n).2.1.block_list_.lookup w.next_buffer
        = some (backing_block_of w (C * n)) ∧
      (backing_block_of w (C * n)).get_address = w.next_buffer ∧
      (backing_block_of w (C * n)).get_base_address = w.next_buffer ∧
      (backing_block_of w (C * n)).get_size = n * C ∧
      (s.allocate_pool C w n).2.1.region_list_
        = s.region_list_ ++ List.range' w.next_object n) ∧
    (∀ i, i < n → ∃ r, (s.allocate_pool C w n).2.2.deref (w.next_object + i) = some r ∧
      r.get_size = C ∧
      r.get_base_address = (backing_block_of w (C * n)).get_base_address ∧
      r.within (backing_block_of w (C * n)) ∧
      r.get_address + r.get_size
        ≤ (backing_block_of w (C * n)).get_base_address + (backing_block_of w (C * n)).get_size ∧
      (∀ j, j < n → i ≠ j →
        ∃ r2, (s.allocate_pool C w n).2.2.deref (w.next_object + j) = some r2 ∧
          r.disjoint r2)) ∧
    (∀ (C2 : Nat) (s2 : memory_pool_stack enabled) (w2 : World) (n2 i j : Nat), i < n → j < n2 →
      (backing_block_of w (C * n)).disjoint (backing_block_of w2 (C2 * n2)) →
      ∃ r r2, (s.allocate_pool C w n).2.2.deref (w.next_object + i) = some r ∧
        (s2.allocate_pool C2 w2 n2).2.2.deref (w2.next_object + j) = some r2 ∧
        r.disjoint r2 ∧
        (0 < C → ¬ r.within (backing_block_of w2 (C2 * n2)))) ∧
    (s.block_list_.lookup w.next_buffer = none →
      ∀ (C2 m : Nat), (backing_block_of w (C * n)).disjoint
        (backing_block_of (s.allocate_pool C w n).2.2 (C2 * m))) := by
  obtain ⟨-, c2, -, c4, c5, -⟩ := allocate_pool_closed C s w n
  refine ⟨⟨c5, rfl, rfl, Nat.mul_comm C n, c2⟩, ?_, ?_, ?_⟩
  · intro i hi
    refine ⟨_, c4 i hi, rfl, rfl, ?_, ?_, ?_⟩
    · exact ⟨Nat.le_add_right _ _, chunk_range_within _ _ _ _ hi⟩
    · exact chunk_range_within _ _ _ _ hi
    · intro j hj hij
      exact ⟨_, c4 j hj, chunk_ranges_disjoint _ _ _ _ hij⟩
  · intro C2 s2 w2 n2 i j hi hj hd
    obtain ⟨-, -, -, d4, -, -⟩ := allocate_pool_closed C2 s2 w2 n2
    refine ⟨_, _, c4 i hi, d4 j hj, ?_, ?_⟩
    · have h1 := chunk_range_within w.next_buffer C n i hi
      have h2 := chunk_range_within w2.next_buffer C2 n2 j hj
      simp only [memory_region_impl.disjoint, memory_region_impl.get_address,
        memory_region_impl.get_size, backing_block_of, memory_region_impl.make] at hd ⊢
      omega
    · intro hC hw
      have h1 := chunk_range_within w.next_buffer C n i hi
      simp only [memory_region_impl.disjoint, memory_region_impl.within,
        memory_region_impl.get_address,
        memory_region_impl.get_size, backing_block_of, memory_region_impl.make] at hd hw
      omega
  · intro hnone C2 m
    have hn := (allocate_pool_provider C s w n hnone).1
    simp only [memory_region_impl.disjoint, memory_region_impl.get_address,
      memory_region_impl.get_size, backing_block_of, hn]
    omega

/-- The witness of C23: the tiny stack of scenario S1 grows by four chunks;
the sub-regions `1` and `2` of the new block are disjoint. -/
theorem grow_subregions_disjoint_witness :
    (1 < 4 ∧ 2 < 4 ∧ 1 ≠ 2) ∧
    ∃ r, (scenario_S1.1.tiny_.allocate_pool 1024 scenario_S1.2 4).2.2.deref
        (scenario_S1.2.next_object + 1) = some r ∧
      r.get_size = 1024 ∧
      r.within (backing_block_of scenario_S1.2 (1024 * 4)) ∧
      ∃ r2, (scenario_S1.1.tiny_.allocate_pool 1024 scenario_S1.2 4).2.2.deref
          (scenario_S1.2.next_object + 2) = some r2 ∧
        r.disjoint r2 :=
  ⟨by decide,
   match (grow_subregions_disjoint 1024 scenario_S1.1.tiny_ scenario_S1.2 4).2.1 1
       (by decide) with
   | ⟨r, h1, h2, _, h4, _, h6⟩ => ⟨r, h1, h2, h4, h6 2 (by decide) (by decide)⟩⟩

/-! ## Teardown of a stack -/

theorem World.delete_object_chunk (w : World) (p : Nat) (r : memory_region_impl)
    (hf : r.flags_ = BLOCK_PARTIAL) : w.delete_object p r = w.free_object p := by
  unfold World.delete_object memory_region_impl.destroy
  rw [(chunk_flags r hf).2.2]
  rfl

/-- The deletion of the sub-regions makes no provider call and frees no buffer. -/
theorem delete_regions_spec (C : Nat) (l : List Nat) :
    ∀ (w : World), (∀ p ∈ l, w.is_chunk C p) → l.Nodup →
    ∃ w1, memory_pool_stack.delete_regions w l = some w1 ∧
      w1.register_log = w.register_log ∧ w1.unregister_log = w.unregister_log ∧
      w1.delete_log = w.delete_log ∧ w1.buffers = w.buffers ∧
      w1.next_handle = w.next_handle ∧ w1.unregister_status = w.unregister_status ∧
      (∀ p ∈ l, w1.deref p = none) ∧ (∀ p, p ∉ l → w1.deref p = w.deref p) := by
  induction l with
  | nil =>
    intro w _ _
    exact ⟨w, rfl, rfl, rfl, rfl, rfl, rfl, rfl, fun p hp => absurd hp (List.not_mem_nil p),
      fun _ _ => rfl⟩
  | cons r rest ih =>
    intro w hc hn
    obtain ⟨reg, hreg, -, hf⟩ := (World.is_chunk_iff w C r).1 (hc r (List.mem_cons_self _ _))
    have hnd := List.nodup_cons.1 hn
    have hw : w.delete_object r reg = w.free_object r := World.delete_object_chunk w r reg hf
    have hrest : ∀ p ∈ rest, (w.delete_object r reg).is_chunk C p := by
      intro p hp
      have hne : p ≠ r := fun e => hnd.1 (e ▸ hp)
      rw [World.is_chunk_congr w _ C p (World.deref_delete_object_of_ne w r p reg hne)]
      exact hc p (List.mem_cons_of_mem _ hp)
    obtain ⟨w1, h1, h2, h3, h4, h5, h6, h7, h8, h9⟩ := ih (w.delete_object r reg) hrest hnd.2
    refine ⟨w1, ?_, ?_, ?_, ?_, ?_, ?_, ?_, ?_, ?_⟩
    · simp only [memory_pool_stack.delete_regions, hreg]
      exact h1
    · rw [h2, hw]; rfl
    · rw [h3, hw]; rfl
    · rw [h4, hw]; rfl
    · rw [h5, hw]; rfl
    · rw [h6, hw]; rfl
    · rw [h7, hw]; rfl
    · intro p hp
      rcases List.mem_cons.1 hp with e | e
      · subst e
        by_cases hm : p ∈ rest
        · exact h8 p hm
        · rw [h9 p hm]
          exact World.deref_delete_object_self w p reg
      · exact h8 p e
    · intro p hp
      have hne : p ≠ r := fun e => hp (e ▸ List.mem_cons_self _ _)
      rw [h9 p (fun hm => hp (List.mem_cons_of_mem _ hm))]
      exact World.deref_delete_object_of_ne w r p reg hne

/-- The destruction of the blocks calls `unregister_memory` once for each
block that holds a handle, in the order of the list. -/
theorem clear_blocks_spec (bl : List (Nat × memory_region_impl)) :
    ∀ (w : World), (∀ b ∈ bl, b.2.get_partial_region = false) →
    (memory_pool_stack.clear_blocks w bl).unregister_log
      = (bl.filterMap (fun b => b.2.region_)).reverse ++ w.unregister_log ∧
    (memory_pool_stack.clear_blocks w bl).register_log = w.register_log ∧
    (memory_pool_stack.clear_blocks w bl).objects = w.objects := by
  induction bl with
  | nil => intro w _; exact ⟨rfl, rfl, rfl⟩
  | cons b rest ih =>
    intro w hb
    obtain ⟨i1, i2, i3⟩ := ih (b.2.destroy w) (fun x hx => hb x (List.mem_cons_of_mem _ hx))
    obtain ⟨d1, d2, -⟩ := memory_region_impl.destroy_spec b.2 w
    have hp := hb b (List.mem_cons_self _ _)
    rw [hp] at d2
    simp only [memory_pool_stack.clear_blocks]
    refine ⟨?_, i2.trans d1, i3.trans (memory_region_impl.destroy_objects b.2 w).1⟩
    rw [i1, d2]
    cases hr : b.2.region_ with
    | none => simp [List.filterMap_cons, hr]
    | some h => simp [List.filterMap_cons, hr]

theorem block_list_assign_mem (bl : List (Nat × memory_region_impl)) (key : Nat)
    (block : memory_region_impl) (w : World) :
    ∀ b ∈ (memory_pool_stack.block_list_assign bl key block w).1, b = (key, block) ∨ b ∈ bl := by
  intro b hb
  unfold memory_pool_stack.block_list_assign at hb
  split at hb
  · rcases List.mem_cons.1 hb with e | e
    · exact Or.inl e
    · exact Or.inr e
  · rcases List.mem_cons.1 hb with e | e
    · exact Or.inl e
    · exact Or.inr (List.mem_filter.1 e).1

theorem allocate_pool_block_list_mem (C : Nat) (s : memory_pool_stack enabled) (w : World)
    (n : Nat) :
    ∀ b ∈ (s.allocate_pool C w n).2.1.block_list_,
      b = (w.next_buffer, backing_block_of w (C * n)) ∨ b ∈ s.block_list_ := by
  intro b hb
  unfold memory_pool_stack.allocate_pool at hb
  simp only [] at hb
  rw [(allocate_pool_loop_spec C _ n 0 _ _).2.2.2.2.1] at hb
  have := block_list_assign_mem _ _ _ _ b hb
  rw [malloc_spec] at this
  exact this

/-- Growth keeps what `DeallocatePool` relies on. -/
theorem allocate_pool_owns (C : Nat) (s : memory_pool_stack enabled) (w : World) (n : Nat)
    (hw : w.wf) (h : s.owns C w) :
    (s.allocate_pool C w n).2.1.owns C (s.allocate_pool C w n).2.2 := by
  obtain ⟨h1, h2, h3⟩ := h
  obtain ⟨-, c2, -, c4, -, -⟩ := allocate_pool_closed C s w n
  have h9 := (allocate_pool_spec C s w n).2.2.2.2.2.2.2.2.1
  have hlt : ∀ ptr ∈ s.region_list_, ptr < w.next_object := fun ptr hp =>
    World.lt_next_object_of_is_chunk w hw C ptr (h1 ptr hp)
  refine ⟨?_, ?_, ?_⟩
  · intro ptr hp
    rw [c2] at hp
    rcases List.mem_append.1 hp with e | e
    · rw [World.is_chunk_congr w _ C ptr (h9 ptr (hlt ptr e))]
      exact h1 ptr e
    · obtain ⟨e1, e2⟩ := List.mem_range'_1.1 e
      obtain ⟨i, rfl⟩ := Nat.exists_eq_add_of_le e1
      rw [World.is_chunk_iff]
      exact ⟨_, c4 i (by omega), rfl, rfl⟩
  · rw [c2]
    refine List.Nodup.append h2 (List.nodup_range' _ _) ?_
    intro ptr ha hb
    have := hlt ptr ha
    have := (List.mem_range'_1.1 hb).1
    omega
  · intro b hb
    rcases allocate_pool_block_list_mem C s w n b hb with e | e
    · subst e
      have hf : (backing_block_of w (C * n)).flags_ = 0 := rfl
      simp only [memory_region_impl.get_partial_region, hf]
      decide
    · exact h3 b e

/-- The constructor establishes what `DeallocatePool` relies on. -/
theorem memory_pool_stack.make_owns (C : Nat) (w : World) (pd n : Nat) (hw : w.wf) :
    (memory_pool_stack.make enabled C w pd n).1.owns C
      (memory_pool_stack.make enabled C w pd n).2 := by
  unfold memory_pool_stack.make
  apply allocate_pool_owns C _ w _ hw
  refine ⟨?_, List.nodup_nil, ?_⟩
  · intro ptr hp; exact absurd hp (List.not_mem_nil ptr)
  · intro b hb; exact absurd hb (List.not_mem_nil b)

/-- C21, amended. For every stack state in which `region_list_` lists live
sub-regions without repetition and the blocks are not sub-regions, whatever
`in_use_` is, `DeallocatePool` completes; it leaves the free list, the
sub-region list and the block map empty and the counters as they were; the
deletion of the sub-regions makes no provider call and leaves none of them
live; the clearing of the block map calls `unregister_memory` exactly once
for each block that holds a handle, with that handle, and not at all for a
block whose handle is null; no `register_memory` call is made. -/
theorem DeallocatePool_teardown (C : Nat) (s : memory_pool_stack enabled) (w : World)
    (h : s.owns C w) :
    ∃ s2 w1 w2, memory_pool_stack.delete_regions w s.region_list_ = some w1 ∧
      s.DeallocatePool w = some (s2, w2) ∧
      s2.free_list_ = [] ∧ s2.region_list_ = [] ∧ s2.block_list_ = [] ∧
      s2.in_use_ = s.in_use_ ∧ s2.accesses_ = s.accesses_ ∧
      s2.chunks_avail_ = s.chunks_avail_ ∧
      w1.unregister_log = w.unregister_log ∧ w1.register_log = w.register_log ∧
      w2 = memory_pool_stack.clear_blocks w1 s.block_list_ ∧
      w2.unregister_log
        = (s.block_list_.filterMap (fun b => b.2.region_)).reverse ++ w.unregister_log ∧
      w2.register_log = w.register_log ∧
      (∀ ptr ∈ s.region_list_, w2.deref ptr = none) := by
  obtain ⟨h1, h2, h3⟩ := h
  obtain ⟨w1, d1, d2, d3, -, -, -, -, d8, -⟩ := delete_regions_spec C s.region_list_ w h1 h2
  obtain ⟨b1, b2, b3⟩ := clear_blocks_spec s.block_list_ w1 h3
  have hD : s.DeallocatePool w = some
      (memory_pool_stack.mk s.accesses_ s.in_use_ s.chunks_avail_ s.pd_ [] [] [],
       memory_pool_stack.clear_blocks w1 s.block_list_) := by
    simp only [memory_pool_stack.DeallocatePool, d1]
  refine ⟨_, w1, _, d1, hD, rfl, rfl, rfl, rfl, rfl, rfl, d3, d2, rfl, ?_, ?_, ?_⟩
  · rw [b1, d3]
  · rw [b2, d2]
  · intro ptr hp
    simp only [World.deref, b3]
    exact d8 ptr hp

/-- The witness of C21: the tiny stack of scenario S1 with one sub-region outstanding. -/
theorem DeallocatePool_teardown_witness :
    scenario_outstanding.1.owns 1024 scenario_outstanding.2 ∧
    (∃ s2 w1 w2, memory_pool_stack.delete_regions scenario_outstanding.2
      scenario_outstanding.1.region_list_ = some w1 ∧
      scenario_outstanding.1.DeallocatePool scenario_outstanding.2 = some (s2, w2) ∧
      s2.free_list_ = [] ∧ s2.region_list_ = [] ∧ s2.block_list_ = [] ∧
      s2.in_use_ = scenario_outstanding.1.in_use_ ∧ s2.accesses_ = scenario_outstanding.1.accesses_ ∧
      s2.chunks_avail_ = scenario_outstanding.1.chunks_avail_ ∧
      w1.unregister_log = scenario_outstanding.2.unregister_log ∧ w1.register_log =
      scenario_outstanding.2.register_log ∧
      w2 = memory_pool_stack.clear_blocks w1 scenario_outstanding.1.block_list_ ∧
      w2.unregister_log
        = (scenario_outstanding.1.block_list_.filterMap (fun b => b.2.region_)).reverse ++
      scenario_outstanding.2.unregister_log ∧
      w2.register_log = scenario_outstanding.2.register_log ∧
      (∀ ptr ∈ scenario_outstanding.1.region_list_, w2.deref ptr = none)) :=
  ⟨by decide,
   DeallocatePool_teardown 1024 scenario_outstanding.1 scenario_outstanding.2 (by decide)⟩

/-- C21 fails as stated: the stack constructed while the provider refuses the
registration has created one backing block, which the block map holds with a
null handle; `DeallocatePool` completes, empties the block map and makes no
`unregister_memory` call at all. -/
theorem DeallocatePool_unregistered_block :
    scenario_refused_stack.1.owns 1024 scenario_refused_stack.2 ∧
    scenario_refused_stack.1.block_list_.length = 1 ∧
    scenario_refused_stack.2.register_log.length = 1 ∧
    (scenario_refused_stack.1.DeallocatePool scenario_refused_stack.2).map
      (fun r => (r.1.block_list_.length, r.2.unregister_log)) = some (0, []) := by
  decide

/-! ## Outstanding regions and the free list -/

theorem tracked_stack.grow_exclusive (C : Nat) (t : tracked_stack enabled) (n : Nat)
    (h : t.exclusive) :
    (tracked_stack.mk (t.stack.allocate_pool C t.world n).2.1
      (t.stack.allocate_pool C t.world n).2.2 t.outstanding).exclusive := by
  obtain ⟨h1, h2, h3, h4, h5⟩ := h
  obtain ⟨-, -, c3, -, -, -⟩ := allocate_pool_closed C t.stack t.world n
  have h8 := (allocate_pool_spec C t.stack t.world n).2.2.2.2.2.2.2.1
  unfold tracked_stack.exclusive
  simp only [c3, h8]
  refine ⟨?_, h2, ?_, ?_, ?_⟩
  · refine List.Nodup.append (List.nodup_reverse.2 (List.nodup_range' _ _)) h1 ?_
    intro x ha hb
    have := (List.mem_range'_1.1 (List.mem_reverse.1 ha)).1
    have := h4 x hb
    omega
  · intro x hx
    rcases List.mem_append.1 hx with e | e
    · intro ho
      have := (List.mem_range'_1.1 (List.mem_reverse.1 e)).1
      have := h5 x ho
      omega
    · exact h3 x e
  · intro x hx
    rcases List.mem_append.1 hx with e | e
    · exact (List.mem_range'_1.1 (List.mem_reverse.1 e)).2
    · have := h4 x e; omega
  · intro x hx
    have := h5 x hx; omega

/-- One operation keeps the free list and the outstanding regions apart. -/
theorem tracked_stack.step_exclusive (C : Nat) (t : tracked_stack enabled) (op : stack_op)
    (h : t.exclusive) (hop : t.allowed op) :
    (t.step C op).exclusive := by
  cases op with
  | pop =>
    cases hf : t.stack.free_list_ with
    | nil =>
      have e := pop_miss C t.stack t.world hf
      have hg := tracked_stack.grow_exclusive C t t.stack.in_use_.read h
      simp only [tracked_stack.step, e]
      exact hg
    | cons r rest =>
      have e := pop_hit C t.stack t.world r rest hf
      obtain ⟨h1, h2, h3, h4, h5⟩ := h
      rw [hf] at h1 h3 h4
      have hnd := List.nodup_cons.1 h1
      simp only [tracked_stack.step, e]
      refine ⟨hnd.2, List.nodup_cons.2 ⟨h3 r (List.mem_cons_self _ _), h2⟩, ?_, ?_, ?_⟩
      · intro x hx ho
        rcases List.mem_cons.1 ho with e1 | e1
        · subst e1; exact hnd.1 hx
        · exact h3 x (List.mem_cons_of_mem _ hx) e1
      · intro x hx; exact h4 x (List.mem_cons_of_mem _ hx)
      · intro x hx
        rcases List.mem_cons.1 hx with e1 | e1
        · subst e1; exact h4 x (List.mem_cons_self _ _)
        · exact h5 x e1
  | push r =>
    obtain ⟨h1, h2, h3, h4, h5⟩ := h
    have hr : r ∈ t.outstanding := hop
    simp only [tracked_stack.step]
    refine ⟨?_, h2.erase r, ?_, ?_, ?_⟩
    · exact List.nodup_cons.2 ⟨fun hm => h3 r hm hr, h1⟩
    · intro x hx ho
      rcases List.mem_cons.1 hx with e1 | e1
      · subst e1
        exact ((List.Nodup.mem_erase_iff h2).1 ho).1 rfl
      · exact h3 x e1 (List.mem_of_mem_erase ho)
    · intro x hx
      rcases List.mem_cons.1 hx with e1 | e1
      · subst e1; exact h5 x hr
      · exact h4 x e1
    · intro x hx; exact h5 x (List.mem_of_mem_erase hx)
  | grow n =>
    exact tracked_stack.grow_exclusive C t n h

/-- The constructor leaves a free list without repetition, and no region is
outstanding. -/
theorem tracked_stack.make_exclusive (C : Nat) (w : World) (pd n : Nat) :
    (tracked_stack.mk (memory_pool_stack.make enabled C w pd n).1
      (memory_pool_stack.make enabled C w pd n).2 []).exclusive := by
  unfold memory_pool_stack.make
  exact tracked_stack.grow_exclusive C (tracked_stack.mk _ w []) _
    ⟨List.nodup_nil, List.nodup_nil, fun x hx => absurd hx (List.not_mem_nil x),
     fun x hx => absurd hx (List.not_mem_nil x), fun x hx => absurd hx (List.not_mem_nil x)⟩

/-- C25: over any sequence of `pop`, `push` and `allocate_pool` operations on a
stack in which every `push` returns a region that is outstanding when it is
pushed, starting from a state where the free list and the outstanding regions
have no region twice and none in common, the same holds after the sequence; so
a region that the next `pop` returns is not outstanding at that moment, is not
left on the free list, and is outstanding from then on. -/
theorem pop_returns_no_outstanding_region (C : Nat) (ops : List stack_op)
    (t : tracked_stack enabled) (h : t.exclusive) (hd : tracked_stack.disciplined C t ops) :
    (tracked_stack.run C t ops).exclusive ∧
    (tracked_stack.run C t ops).stack.free_list_.Nodup ∧
    (∀ x ∈ (tracked_stack.run C t ops).stack.free_list_,
      x ∉ (tracked_stack.run C t ops).outstanding) ∧
    (∀ r, ((tracked_stack.run C t ops).stack.pop C (tracked_stack.run C t ops).world).1 = some r →
      r ∉ (tracked_stack.run C t ops).outstanding ∧
      r ∉ ((tracked_stack.run C t ops).stack.pop C
            (tracked_stack.run C t ops).world).2.1.free_list_ ∧
      r ∈ ((tracked_stack.run C t ops).step C stack_op.pop).outstanding) := by
  induction ops generalizing t with
  | nil =>
    refine ⟨h, h.1, h.2.2.1, ?_⟩
    intro r hr
    simp only [tracked_stack.run] at hr ⊢
    cases hf : t.stack.free_list_ with
    | nil =>
      rw [pop_miss C t.stack t.world hf] at hr
      cases hr
    | cons x rest =>
      have e := pop_hit C t.stack t.world x rest hf
      rw [e] at hr
      simp only [Option.some.injEq] at hr
      subst hr
      have h1 := h.1
      rw [hf] at h1
      refine ⟨h.2.2.1 x (by rw [hf]; exact List.mem_cons_self _ _), ?_, ?_⟩
      · rw [e]; exact (List.nodup_cons.1 h1).1
      · simp only [tracked_stack.step, e]
        exact List.mem_cons_self _ _
  | cons op ops ih =>
    simp only [tracked_stack.run]
    exact ih (t.step C op) (tracked_stack.step_exclusive C t op h hd.1) hd.2

/-- The witness of C25: on the tiny stack of scenario S1, two pops, a push of
the first region, a pop, a growth by two chunks and a push of the second
region. -/
theorem pop_returns_no_outstanding_region_witness :
    (scenario_tracked.exclusive ∧
      tracked_stack.disciplined 1024 scenario_tracked scenario_ops) ∧
    ((tracked_stack.run 1024 scenario_tracked scenario_ops).exclusive ∧
    (tracked_stack.run 1024 scenario_tracked scenario_ops).stack.free_list_.Nodup ∧
    (∀ x ∈ (tracked_stack.run 1024 scenario_tracked scenario_ops).stack.free_list_,
      x ∉ (tracked_stack.run 1024 scenario_tracked scenario_ops).outstanding) ∧
    (∀ r, ((tracked_stack.run 1024 scenario_tracked scenario_ops).stack.pop 1024 (tracked_stack.run
      1024 scenario_tracked scenario_ops).world).1 = some r →
      r ∉ (tracked_stack.run 1024 scenario_tracked scenario_ops).outstanding ∧
      r ∉ ((tracked_stack.run 1024 scenario_tracked scenario_ops).stack.pop 1024
            (tracked_stack.run 1024 scenario_tracked scenario_ops).world).2.1.free_list_ ∧
      r ∈ ((tracked_stack.run 1024 scenario_tracked scenario_ops).step 1024
      stack_op.pop).outstanding)) :=
  ⟨⟨by decide, by decide⟩,
   pop_returns_no_outstanding_region 1024 scenario_ops scenario_tracked (by decide) (by decide)⟩

/-! ## Monotonicity of growth -/

theorem tracked_stack.grow_counted (C : Nat) (t : tracked_stack true) (n : Nat)
    (h : t.counted) (hn : t.stack.chunks_avail_.read + n < 2 ^ 32) :
    (tracked_stack.mk (t.stack.allocate_pool C t.world n).2.1
      (t.stack.allocate_pool C t.world n).2.2 t.outstanding).counted ∧
    t.stack.chunks_avail_.read ≤ (t.stack.allocate_pool C t.world n).2.1.chunks_avail_.read ∧
    t.stack.region_list_ <+: (t.stack.allocate_pool C t.world n).2.1.region_list_ := by
  obtain ⟨h1, h2, h3, h4, h5⟩ := h
  obtain ⟨a1, a2, a3, -⟩ := allocate_pool_spec C t.stack t.world n
  obtain ⟨-, c2, -⟩ := allocate_pool_closed C t.stack t.world n
  have a1 := a1 h2
  have hv : (t.stack.chunks_avail_.add_assign n).read = t.stack.chunks_avail_.read + n := by
    simp only [performance_counter.add_assign, performance_counter.read, if_true] at hn ⊢
    exact Nat.mod_eq_of_lt hn
  unfold tracked_stack.counted
  simp only [a1, a2, a3, c2]
  refine ⟨⟨h1, h2, performance_counter.add_assign_in_range _ _ h3, h4, h5⟩, ?_,
    List.prefix_append _ _⟩
  rw [hv]; omega

theorem counter_read_pre_inc (c : performance_counter 32 true) (h : c.read + 1 < 2 ^ 32) :
    c.pre_inc.read = c.read + 1 := by
  simp only [performance_counter.pre_inc, performance_counter.read, if_true] at h ⊢
  exact Nat.mod_eq_of_lt h

theorem counter_read_pre_dec (c : performance_counter 32 true) (h : 0 < c.read)
    (hr : c.in_range) : c.pre_dec.read = c.read - 1 := by
  have hr : c.value_ < 2 ^ 32 := hr
  simp only [performance_counter.pre_dec, performance_counter.read, if_true] at h ⊢
  omega

theorem tracked_stack.step_pop (C : Nat) (t : tracked_stack enabled) :
    (t.step C stack_op.pop).stack = (t.stack.pop C t.world).2.1 ∧
    (t.step C stack_op.pop).world = (t.stack.pop C t.world).2.2 ∧
    (t.stack.free_list_ = [] → (t.step C stack_op.pop).outstanding = t.outstanding) ∧
    (∀ r rest, t.stack.free_list_ = r :: rest →
      (t.step C stack_op.pop).outstanding = r :: t.outstanding) := by
  refine ⟨rfl, rfl, ?_, ?_⟩
  · intro hf
    simp only [tracked_stack.step, pop_miss C t.stack t.world hf]
  · intro r rest hf
    simp only [tracked_stack.step, pop_hit C t.stack t.world r rest hf]

theorem tracked_stack.step_push (C : Nat) (t : tracked_stack enabled) (r : Nat) :
    (t.step C (stack_op.push r)).stack = t.stack.push r ∧
    (t.step C (stack_op.push r)).world = t.world ∧
    (t.step C (stack_op.push r)).outstanding = t.outstanding.erase r :=
  ⟨rfl, rfl, rfl⟩

theorem tracked_stack.step_grow (C : Nat) (t : tracked_stack enabled) (n : Nat) :
    t.step C (stack_op.grow n) =
      tracked_stack.mk (t.stack.allocate_pool C t.world n).2.1
        (t.stack.allocate_pool C t.world n).2.2 t.outstanding :=
  rfl

/-- One operation keeps the counters in step with the outstanding regions. -/
theorem tracked_stack.step_counted (C : Nat) (t : tracked_stack true) (op : stack_op)
    (h : t.counted) (hop : t.allowed op) (hw : t.representable op) :
    (t.step C op).counted ∧
    t.stack.chunks_avail_.read ≤ (t.step C op).stack.chunks_avail_.read ∧
    t.stack.region_list_ <+: (t.step C op).stack.region_list_ := by
  cases op with
  | pop =>
    obtain ⟨e1, -, e3, e4⟩ := tracked_stack.step_pop C t
    cases hf : t.stack.free_list_ with
    | nil =>
      obtain ⟨g1, g2, g3⟩ := tracked_stack.grow_counted C t t.stack.in_use_.read h (hw.2 hf)
      have e := pop_miss C t.stack t.world hf
      unfold tracked_stack.counted at g1 ⊢
      rw [e1, e3 hf, e]
      exact ⟨g1, g2, g3⟩
    | cons r rest =>
      obtain ⟨f1, f2, f3, f4, f5, f6, f7⟩ := pop_hit_fields C t.stack t.world r rest hf
      obtain ⟨h1, h2, h3, h4, h5⟩ := h
      have ha := counter_read_pre_inc t.stack.accesses_ hw.1
      have hi := counter_read_pre_inc t.stack.in_use_ (by have := hw.1; omega)
      unfold tracked_stack.counted
      rw [e1, e4 r rest hf, f2, f3, f4, f6, hi, ha, List.length_cons, h4]
      exact ⟨⟨performance_counter.pre_inc_in_range _ h1,
        performance_counter.pre_inc_in_range _ h2, h3, rfl, by omega⟩, le_refl _,
        List.prefix_refl _⟩
  | push r =>
    obtain ⟨e1, -, e3⟩ := tracked_stack.step_push C t r
    obtain ⟨f1, f2, f3, f4, f5, f6, f7⟩ := push_fields t.stack r
    obtain ⟨h1, h2, h3, h4, h5⟩ := h
    have hr : r ∈ t.outstanding := hop
    have hpos : 0 < t.outstanding.length := List.length_pos_of_mem hr
    have hi := counter_read_pre_dec t.stack.in_use_ (by omega) h2
    unfold tracked_stack.counted
    rw [e1, e3, f2, f3, f4, f6, hi, List.length_erase_of_mem hr, h4]
    exact ⟨⟨h1, performance_counter.pre_dec_in_range _ h2, h3, rfl, by omega⟩, le_refl _,
      List.prefix_refl _⟩
  | grow n =>
    rw [tracked_stack.step_grow]
    exact tracked_stack.grow_counted C t n h hw

theorem tracked_stack.run_cons (C : Nat) (t : tracked_stack enabled) (op : stack_op)
    (ops : List stack_op) :
    tracked_stack.run C t (op :: ops) = tracked_stack.run C (t.step C op) ops :=
  rfl

/-- C22, amended. With counters enabled, over any sequence of `pop`, `push`
and `allocate_pool` operations on a stack in which every pushed region is
outstanding when it is pushed and no operation takes `accesses_` or
`chunks_avail_` past the largest `unsigned int`, starting from a state in
which `in_use_` counts the outstanding regions and `accesses_ >= in_use_`:
`chunks_avail_` does not decrease, the sub-region list keeps its entries and
grows at its end only, and after the sequence `in_use_` counts the outstanding
regions and `accesses_ >= in_use_` again. -/
theorem growth_is_monotone (C : Nat) (ops : List stack_op) (t : tracked_stack true)
    (h : t.counted) (hd : tracked_stack.disciplined C t ops)
    (hn : tracked_stack.no_wrap C t ops) :
    (tracked_stack.run C t ops).counted ∧
    t.stack.chunks_avail_.read ≤ (tracked_stack.run C t ops).stack.chunks_avail_.read ∧
    t.stack.region_list_ <+: (tracked_stack.run C t ops).stack.region_list_ ∧
    (tracked_stack.run C t ops).stack.in_use_.read
      ≤ (tracked_stack.run C t ops).stack.accesses_.read := by
  induction ops generalizing t with
  | nil => exact ⟨h, le_refl _, List.prefix_refl _, h.2.2.2.2⟩
  | cons op ops ih =>
    obtain ⟨s1, s2, s3⟩ := tracked_stack.step_counted C t op h hd.1 hn.1
    obtain ⟨i1, i2, i3, i4⟩ := ih (t.step C op) s1 hd.2 hn.2
    rw [tracked_stack.run_cons]
    exact ⟨i1, le_trans s2 i2, List.IsPrefix.trans s3 i3, i4⟩

theorem tracked_stack.run_append (C : Nat) (a b : List stack_op) (t : tracked_stack enabled) :
    tracked_stack.run C t (a ++ b) = tracked_stack.run C (tracked_stack.run C t a) b := by
  induction a generalizing t with
  | nil => rfl
  | cons op a ih =>
    rw [List.cons_append, tracked_stack.run_cons, tracked_stack.run_cons, ih]

theorem tracked_stack.disciplined_cons (C : Nat) (t : tracked_stack enabled) (op : stack_op)
    (ops : List stack_op) :
    tracked_stack.disciplined C t (op :: ops) ↔
      t.allowed op ∧ tracked_stack.disciplined C (t.step C op) ops :=
  Iff.rfl

theorem tracked_stack.disciplined_append (C : Nat) (a b : List stack_op)
    (t : tracked_stack enabled) :
    tracked_stack.disciplined C t (a ++ b) ↔
      tracked_stack.disciplined C t a ∧
      tracked_stack.disciplined C (tracked_stack.run C t a) b := by
  induction a generalizing t with
  | nil => exact ⟨fun h => ⟨trivial, h⟩, fun h => h.2⟩
  | cons op a ih =>
    rw [List.cons_append, tracked_stack.disciplined_cons, tracked_stack.disciplined_cons,
      tracked_stack.run_cons, ih, and_assoc]

theorem performance_counter.iterate_pre_inc_value (k : Nat) (c : performance_counter 32 true)
    (h : c.in_range) :
    (performance_counter.pre_inc)^[k] c = ⟨(c.value_ + k) % 2 ^ 32⟩ := by
  have h : c.value_ < 2 ^ 32 := h
  induction k with
  | zero =>
    cases c with
    | mk v =>
      have : (v + 0) % 2 ^ 32 = v := Nat.mod_eq_of_lt h
      rw [Function.iterate_zero, id_eq, this]
  | succ k ih =>
    rw [Function.iterate_succ_apply', ih]
    have e : ∀ v : Nat, (performance_counter.pre_inc (⟨v⟩ : performance_counter 32 true))
        = ⟨(v + 1) % 2 ^ 32⟩ := fun _ => rfl
    rw [e, Nat.mod_add_mod, Nat.add_assoc]

/-- One round trip `pop(); push(r)` with `r` on top of the free list
increments `accesses_` and changes nothing else. -/
theorem round_trip_step (C r : Nat) (rest : List Nat) (t : tracked_stack enabled)
    (hf : t.stack.free_list_ = r :: rest) (hi : t.stack.in_use_.in_range) :
    (t.step C stack_op.pop).allowed (stack_op.push r) ∧
    (t.step C stack_op.pop).step C (stack_op.push r) =
      ⟨memory_pool_stack.mk t.stack.accesses_.pre_inc
          t.stack.in_use_ t.stack.chunks_avail_ t.stack.pd_ t.stack.block_list_
          t.stack.region_list_ t.stack.free_list_,
       t.world, t.outstanding⟩ := by
  have e := pop_hit C t.stack t.world r rest hf
  have a : t.step C stack_op.pop =
      ⟨memory_pool_stack.mk t.stack.accesses_.pre_inc t.stack.in_use_.pre_inc
          t.stack.chunks_avail_ t.stack.pd_ t.stack.block_list_ t.stack.region_list_ rest,
       t.world, r :: t.outstanding⟩ := by
    simp only [tracked_stack.step, e]
  rw [a]
  refine ⟨List.mem_cons_self _ _, ?_⟩
  simp only [tracked_stack.step, memory_pool_stack.push,
    performance_counter.pre_dec_pre_inc _ hi, hf, List.erase_cons_head]

/-- After `k` round trips `pop(); push(r)` on a stack with `r` on top of the
free list, `accesses_` has been incremented `k` times and nothing else has
changed. -/
theorem round_trips_run (C r k : Nat) (rest : List Nat) (t : tracked_stack enabled)
    (hf : t.stack.free_list_ = r :: rest) (hi : t.stack.in_use_.in_range) :
    tracked_stack.disciplined C t (round_trips r k) ∧
    tracked_stack.run C t (round_trips r k) =
      ⟨memory_pool_stack.mk ((performance_counter.pre_inc)^[k] t.stack.accesses_)
          t.stack.in_use_ t.stack.chunks_avail_ t.stack.pd_ t.stack.block_list_
          t.stack.region_list_ t.stack.free_list_,
       t.world, t.outstanding⟩ := by
  induction k generalizing t with
  | zero => exact ⟨trivial, rfl⟩
  | succ k ih =>
    obtain ⟨hal, hstep⟩ := round_trip_step C r rest t hf hi
    obtain ⟨i1, i2⟩ := ih ((t.step C stack_op.pop).step C (stack_op.push r))
      (by rw [hstep]; exact hf) (by rw [hstep]; exact hi)
    have hr : round_trips r (k + 1)
        = stack_op.pop :: stack_op.push r :: round_trips r k := by
      simp [round_trips, List.replicate_succ]
    rw [hr]
    refine ⟨⟨trivial, hal, i1⟩, ?_⟩
    rw [tracked_stack.run_cons, tracked_stack.run_cons, i2, hstep]
    rw [Function.iterate_succ_apply]

/-- The witness of C22: on the tiny stack of scenario S1, two pops, a push of
the first region, a pop, a growth by two chunks and a push of the second
region. -/
theorem growth_is_monotone_witness :
    (scenario_tracked.counted ∧
      tracked_stack.disciplined 1024 scenario_tracked scenario_ops ∧
      tracked_stack.no_wrap 1024 scenario_tracked scenario_ops) ∧
    ((tracked_stack.run 1024 scenario_tracked scenario_ops).counted ∧
    scenario_tracked.stack.chunks_avail_.read ≤ (tracked_stack.run 1024 scenario_tracked
      scenario_ops).stack.chunks_avail_.read ∧
    scenario_tracked.stack.region_list_ <+: (tracked_stack.run 1024 scenario_tracked
      scenario_ops).stack.region_list_ ∧
    (tracked_stack.run 1024 scenario_tracked scenario_ops).stack.in_use_.read
      ≤ (tracked_stack.run 1024 scenario_tracked scenario_ops).stack.accesses_.read) :=
  ⟨⟨by decide, by decide, by decide⟩,
   growth_is_monotone 1024 scenario_ops scenario_tracked (by decide) (by decide) (by decide)⟩

/-- C22 fails as stated: on the tiny stack of scenario S1, where `in_use_` and
`accesses_` are `0`, after `4294967295` round trips `pop(); push(region)` of
the region on top of the free list and one more `pop()`, every push having
returned the region that was outstanding, the 32-bit `accesses_` has wrapped
to `0` while one region is outstanding and `in_use_` is `1`. -/
theorem accesses_wraps_below_in_use :
    scenario_tracked.counted ∧
    tracked_stack.disciplined 1024 scenario_tracked
      (round_trips 4 4294967295 ++ [stack_op.pop]) ∧
    (tracked_stack.run 1024 scenario_tracked
      (round_trips 4 4294967295 ++ [stack_op.pop])).stack.accesses_.read = 0 ∧
    (tracked_stack.run 1024 scenario_tracked
      (round_trips 4 4294967295 ++ [stack_op.pop])).stack.in_use_.read = 1 ∧
    (tracked_stack.run 1024 scenario_tracked
      (round_trips 4 4294967295 ++ [stack_op.pop])).outstanding = [4] ∧
    ¬ ((tracked_stack.run 1024 scenario_tracked
        (round_trips 4 4294967295 ++ [stack_op.pop])).stack.in_use_.read
      ≤ (tracked_stack.run 1024 scenario_tracked
        (round_trips 4 4294967295 ++ [stack_op.pop])).stack.accesses_.read) := by
  obtain ⟨d, e⟩ := round_trips_run 1024 4 4294967295 [3, 2, 1] scenario_tracked
    (by decide) (by decide)
  have hv := performance_counter.iterate_pre_inc_value 4294967295
    scenario_tracked.stack.accesses_ (by decide)
  have h0 : scenario_tracked.stack.accesses_.value_ = 0 := by decide
  rw [h0] at hv
  rw [tracked_stack.run_append, tracked_stack.disciplined_append, e, hv]
  exact ⟨by decide, ⟨d, by decide⟩, by decide, by decide, by decide, by decide⟩

/-! ## The handles of the backing blocks -/

theorem allocate_pool_loop_objects (C : Nat) (block : memory_region_impl) (k : Nat) :
    ∀ (offset : Nat) (s : memory_pool_stack enabled) (w : World),
    ∀ o ∈ (memory_pool_stack.allocate_pool_loop C block k offset s w).2.objects,
      o ∈ w.objects ∨ (o.2.flags_ = BLOCK_PARTIAL ∧ o.2.region_ = block.get_region) := by
  induction k with
  | zero => intro offset s w o ho; exact Or.inl ho
  | succ k ih =>
    intro offset s w o ho
    rw [memory_pool_stack.allocate_pool_loop] at ho
    rcases ih _ _ _ o ho with h | h
    · simp only [World.new_object] at h
      rcases List.mem_cons.1 h with e | e
      · right; subst e; exact ⟨rfl, rfl⟩
      · left; exact e
    · exact Or.inr h

/-- The region objects that `allocate_pool` adds are sub-regions with the
handle of the new block. -/
theorem allocate_pool_objects (C : Nat) (s : memory_pool_stack enabled) (w : World) (n : Nat) :
    ∀ o ∈ (s.allocate_pool C w n).2.2.objects,
      o ∈ w.objects ∨
      (o.2.get_partial_region = true ∧ o.2.region_ = (backing_block_of w (C * n)).region_) := by
  intro o ho
  unfold memory_pool_stack.allocate_pool at ho
  simp only [] at ho
  rcases allocate_pool_loop_objects C _ n 0 _ _ o ho with h | h
  · left
    rw [(block_list_assign_objects _ _ _ _).1] at h
    have e : (memory_block_allocator.malloc w s.pd_ (C * n)).2.objects = w.objects :=
      (memory_region_impl.allocate_objects memory_region_impl.default w s.pd_ (C * n)).1
    rw [e] at h
    exact h
  · right
    rw [malloc_spec] at h
    exact ⟨(chunk_flags o.2 h.1).2.2, h.2⟩

/-- The provider and the heap after `allocate_temporary_region`. -/
theorem allocate_temporary_region_world (p : memory_pool enabled) (w : World) (L : Nat) :
    (p.allocate_temporary_region w L).2.2.next_handle
      = (if w.register_status.headD 0 = 0 then w.next_handle + 1 else w.next_handle) ∧
    (p.allocate_temporary_region w L).2.2.next_buffer = w.next_buffer + L + 1 ∧
    (p.allocate_temporary_region w L).2.2.indeterminate = w.indeterminate ∧
    (p.allocate_temporary_region w L).2.2.unregister_log = w.unregister_log ∧
    (p.allocate_temporary_region w L).2.2.objects
      = (w.next_object, temporary_region_of w L) :: w.objects ∧
    (∀ c, (p.allocate_temporary_region w L).2.1.stack c = p.stack c) := by
  obtain ⟨-, h2, -, -, h5, -, -, -, h9⟩ := allocate_temporary_region_spec p w L
  refine ⟨?_, ?_, ?_, h5, h9, ?_⟩
  · simp only [memory_pool.allocate_temporary_region, memory_region_impl.allocate,
      World.register_memory, World.new_array, World.new_object]
    split_ifs <;> rfl
  · simp only [memory_pool.allocate_temporary_region, memory_region_impl.allocate,
      World.register_memory, World.new_array, World.new_object]
    split_ifs <;> rfl
  · simp only [memory_pool.allocate_temporary_region, memory_region_impl.allocate,
      World.register_memory, World.new_array, World.new_object]
    split_ifs <;> rfl
  · intro c
    rw [h2]
    cases c <;> rfl

/-- The provider and the heap after `register_temporary_region`. -/
theorem register_temporary_region_world (p : memory_pool enabled) (w : World) (ptr L : Nat) :
    (p.register_temporary_region w ptr L).2.2.next_handle
      = (if w.register_status.headD 0 = 0 then w.next_handle + 1 else w.next_handle) ∧
    (p.register_temporary_region w ptr L).2.2.next_buffer = w.next_buffer ∧
    (p.register_temporary_region w ptr L).2.2.indeterminate = w.indeterminate ∧
    (p.register_temporary_region w ptr L).2.2.unregister_log = w.unregister_log ∧
    (∃ r, (p.register_temporary_region w ptr L).2.2.objects = (w.next_object, r) :: w.objects ∧
      r.get_partial_region = false ∧
      r.region_ = (if w.register_status.headD 0 = 0 then some w.next_handle
                    else w.indeterminate)) ∧
    (∀ c, (p.register_temporary_region w ptr L).2.1.stack c = p.stack c) := by
  obtain ⟨-, h2, -, -, h5, -⟩ := register_temporary_region_spec p w ptr L
  refine ⟨?_, ?_, ?_, h5, ?_, ?_⟩
  · simp only [memory_pool.register_temporary_region, memory_region_impl.make_user,
      World.register_memory, World.new_object]
    split_ifs <;> rfl
  · simp only [memory_pool.register_temporary_region, memory_region_impl.make_user,
      World.register_memory, World.new_object]
    split_ifs <;> rfl
  · simp only [memory_pool.register_temporary_region, memory_region_impl.make_user,
      World.register_memory, World.new_object]
    split_ifs <;> rfl
  · refine ⟨{ address_ := ptr, base_addr_ := ptr, size_ := L, used_space_ := L,
               flags_ := BLOCK_USER ||| BLOCK_TEMP,
               region_ := if w.register_status.headD 0 = 0 then some w.next_handle
                          else w.indeterminate }, ?_, (user_temp_flags _ rfl).2.2.1, rfl⟩
    simp only [memory_pool.register_temporary_region, memory_region_impl.make_user,
      World.register_memory, World.new_object, memory_region_impl.set_temp_region]
    split_ifs <;> rfl
  · intro c
    rw [h2]
    cases c <;> rfl

/-- The provider and the heap after `delete region`. -/
theorem World.delete_object_world (w : World) (ptr : Nat) (r : memory_region_impl) :
    (w.delete_object ptr r).next_handle = w.next_handle ∧
    (w.delete_object ptr r).next_buffer = w.next_buffer ∧
    (w.delete_object ptr r).indeterminate = w.indeterminate ∧
    (∀ o ∈ (w.delete_object ptr r).objects, o ∈ w.objects) ∧
    (∀ h ∈ (w.delete_object ptr r).unregister_log,
      h ∈ w.unregister_log ∨ (r.get_partial_region = false ∧ r.region_ = some h)) := by
  have hd : (r.destroy w).next_handle = w.next_handle ∧
      (r.destroy w).next_buffer = w.next_buffer ∧
      (r.destroy w).indeterminate = w.indeterminate := by
    unfold memory_region_impl.destroy memory_region_impl.release
    split
    · exact ⟨rfl, rfl, rfl⟩
    · split
      · exact ⟨rfl, rfl, rfl⟩
      · simp only [World.unregister_memory]
        split
        · exact ⟨rfl, rfl, rfl⟩
        · split <;> exact ⟨rfl, rfl, rfl⟩
  obtain ⟨-, d2, -⟩ := memory_region_impl.destroy_spec r w
  refine ⟨hd.1, hd.2.1, hd.2.2, ?_, ?_⟩
  · intro o ho
    simp only [World.delete_object, World.free_object] at ho
    rw [← (memory_region_impl.destroy_objects r w).1]
    exact (List.mem_filter.1 ho).1
  · intro h hh
    have e : (w.delete_object ptr r).unregister_log = (r.destroy w).unregister_log := rfl
    rw [e, d2] at hh
    by_cases hp : r.get_partial_region = true
    · rw [if_pos hp] at hh; exact Or.inl hh
    · rw [if_neg hp] at hh
      have hp2 : r.get_partial_region = false := by simpa using hp
      cases hr : r.region_ with
      | none => rw [hr] at hh; exact Or.inl hh
      | some g =>
        rw [hr] at hh
        rcases List.mem_cons.1 hh with e1 | e1
        · right; exact ⟨hp2, by rw [e1]⟩
        · left; exact e1

theorem memory_pool.foreign_handle_of (p p2 : memory_pool enabled) (w w2 : World)
    (o : Option Nat) (hb : ∀ h, o = some h → p2.is_block_handle h → p.is_block_handle h)
    (hn : w.next_handle ≤ w2.next_handle) (h : p.foreign_handle w o) :
    p2.foreign_handle w2 o := by
  cases o with
  | none => trivial
  | some g => exact ⟨Nat.lt_of_lt_of_le h.1 hn, fun hg => h.2 (hb g rfl hg)⟩

theorem World.handle_given_of (w w2 : World) (o : Option Nat)
    (hn : w.next_handle ≤ w2.next_handle) (h : w.handle_given o) : w2.handle_given o := by
  cases o with
  | none => trivial
  | some g => exact Nat.lt_of_lt_of_le h hn

/-- The handle of a backing block was given out by the provider. -/
theorem memory_pool.block_handle_given (p : memory_pool enabled) (w : World)
    (h : p.blocks_safe w) (g : Nat) (hg : p.is_block_handle g) : g < w.next_handle := by
  obtain ⟨c, b, hb, hr⟩ := hg
  have := (h.1 c b hb).2
  rw [hr] at this
  exact this

/-- An operation that leaves the block maps as they are, adds only regions
that are not sub-regions and whose handle is not the handle of a block, and
calls `unregister_memory` only with handles of such regions, keeps the handles
of the blocks apart. -/
theorem memory_pool.blocks_safe_same_blocks (p p2 : memory_pool enabled) (w w2 : World)
    (h : p.blocks_safe w)
    (hb : ∀ c, (p2.stack c).block_list_ = (p.stack c).block_list_)
    (h1 : w.next_buffer ≤ w2.next_buffer) (h2 : w.next_handle ≤ w2.next_handle)
    (h3 : w2.indeterminate = w.indeterminate)
    (h4 : ∀ o ∈ w2.objects, o ∈ w.objects ∨
      (o.2.get_partial_region = false ∧ p.foreign_handle w2 o.2.region_))
    (h5 : ∀ g ∈ w2.unregister_log, g ∈ w.unregister_log ∨
      ∃ o ∈ w.objects, o.2.get_partial_region = false ∧ o.2.region_ = some g) :
    p2.blocks_safe w2 ∧ p.blocks_kept p2 := by
  have hiff : ∀ g, p2.is_block_handle g ↔ p.is_block_handle g := by
    intro g
    unfold memory_pool.is_block_handle
    simp only [hb]
  obtain ⟨s1, s2, s3, s4⟩ := h
  refine ⟨⟨?_, ?_, ?_, ?_⟩, ?_⟩
  · intro c b hbm
    rw [hb] at hbm
    exact ⟨Nat.lt_of_lt_of_le (s1 c b hbm).1 h1, World.handle_given_of w w2 _ h2 (s1 c b hbm).2⟩
  · intro o ho
    rcases h4 o ho with e | ⟨e1, e2⟩
    · have := s2 o e
      by_cases hp : o.2.get_partial_region = true
      · rw [if_pos hp] at this ⊢
        cases hr : o.2.region_ with
        | none => trivial
        | some g =>
          rw [hr] at this
          exact (hiff g).2 this
      · rw [if_neg hp] at this ⊢
        exact memory_pool.foreign_handle_of p p2 w w2 _ (fun g _ hg => (hiff g).1 hg) h2 this
    · rw [if_neg (by rw [e1]; exact Bool.false_ne_true)]
      exact memory_pool.foreign_handle_of p p2 w2 w2 _ (fun g _ hg => (hiff g).1 hg)
        (le_refl _) e2
  · rw [h3]
    exact memory_pool.foreign_handle_of p p2 w w2 _ (fun g _ hg => (hiff g).1 hg) h2 s3
  · intro g hg
    rcases h5 g hg with e | ⟨o, ho, e1, e2⟩
    · exact memory_pool.foreign_handle_of p p2 w w2 _ (fun g _ hg => (hiff g).1 hg) h2 (s4 g e)
    · have := s2 o ho
      rw [if_neg (by rw [e1]; exact Bool.false_ne_true), e2] at this
      exact memory_pool.foreign_handle_of p p2 w w2 _ (fun g _ hg => (hiff g).1 hg) h2 this
  · intro c
    rw [hb]

/-- The growth of one stack by a block with a new handle, or none, keeps the
handles of the blocks apart. -/
theorem memory_pool.blocks_safe_growth (p p2 : memory_pool enabled) (w w2 : World)
    (c : PoolType) (block : memory_region_impl)
    (h : p.blocks_safe w)
    (hc : (p2.stack c).block_list_ = (w.next_buffer, block) :: (p.stack c).block_list_)
    (hne : ∀ c2, c2 ≠ c → (p2.stack c2).block_list_ = (p.stack c2).block_list_)
    (hreg : block.region_ = none ∨
      (block.region_ = some w.next_handle ∧ w.next_handle < w2.next_handle))
    (h1 : w.next_buffer < w2.next_buffer) (h2 : w.next_handle ≤ w2.next_handle)
    (h3 : w2.indeterminate = w.indeterminate)
    (h5 : w2.unregister_log = w.unregister_log)
    (h4 : ∀ o ∈ w2.objects, o ∈ w.objects ∨
      (o.2.get_partial_region = true ∧ o.2.region_ = block.region_)) :
    p2.blocks_safe w2 ∧ p.blocks_kept p2 := by
  have hmem : ∀ c2 b, b ∈ (p2.stack c2).block_list_ →
      b = (w.next_buffer, block) ∨ b ∈ (p.stack c2).block_list_ := by
    intro c2 b hbm
    by_cases e : c2 = c
    · subst e
      rw [hc] at hbm
      exact List.mem_cons.1 hbm
    · rw [hne c2 e] at hbm
      exact Or.inr hbm
  have hold : ∀ g, p.is_block_handle g → p2.is_block_handle g := by
    rintro g ⟨c2, b, hbm, hr⟩
    refine ⟨c2, b, ?_, hr⟩
    by_cases e : c2 = c
    · subst e
      rw [hc]
      exact List.mem_cons_of_mem _ hbm
    · rw [hne c2 e]
      exact hbm
  have hnew : ∀ g, p2.is_block_handle g → p.is_block_handle g ∨ block.region_ = some g := by
    rintro g ⟨c2, b, hbm, hr⟩
    rcases hmem c2 b hbm with e | e
    · right
      rw [e] at hr
      exact hr
    · exact Or.inl ⟨c2, b, e, hr⟩
  have hfresh : ∀ g, g < w.next_handle → block.region_ ≠ some g := by
    intro g hg hr
    rcases hreg with e | ⟨e, -⟩
    · rw [e] at hr; cases hr
    · rw [e] at hr
      simp only [Option.some.injEq] at hr
      omega
  have hfor : ∀ o, p.foreign_handle w o → p2.foreign_handle w2 o := by
    intro o ho
    cases o with
    | none => trivial
    | some g =>
      refine ⟨Nat.lt_of_lt_of_le ho.1 h2, fun hg => ?_⟩
      rcases hnew g hg with e | e
      · exact ho.2 e
      · exact hfresh g ho.1 e
  obtain ⟨s1, s2, s3, s4⟩ := h
  refine ⟨⟨?_, ?_, ?_, ?_⟩, ?_⟩
  · intro c2 b hbm
    rcases hmem c2 b hbm with e | e
    · subst e
      refine ⟨h1, ?_⟩
      rcases hreg with e | ⟨e, hlt⟩
      · simp only [e]; trivial
      · simp only [e]; exact hlt
    · exact ⟨Nat.lt_trans (s1 c2 b e).1 h1, World.handle_given_of w w2 _ h2 (s1 c2 b e).2⟩
  · intro o ho
    rcases h4 o ho with e | ⟨e1, e2⟩
    · have := s2 o e
      by_cases hp : o.2.get_partial_region = true
      · rw [if_pos hp] at this ⊢
        cases hr : o.2.region_ with
        | none => trivial
        | some g =>
          rw [hr] at this
          exact hold g this
      · rw [if_neg hp] at this ⊢
        exact hfor _ this
    · rw [if_pos e1, e2]
      cases hr : block.region_ with
      | none => trivial
      | some g => exact ⟨c, (w.next_buffer, block), by rw [hc]; exact List.mem_cons_self _ _, hr⟩
  · rw [h3]
    exact hfor _ s3
  · intro g hg
    rw [h5] at hg
    exact hfor _ (s4 g hg)
  · intro c2
    by_cases e : c2 = c
    · subst e
      rw [hc]
      exact List.suffix_cons _ _
    · rw [hne c2 e]

/-! ## Pool operations and the backing blocks -/

theorem lookup_none_of_keys_ne (l : List (Nat × memory_region_impl)) (k : Nat)
    (h : ∀ b ∈ l, b.1 ≠ k) : l.lookup k = none := by
  induction l with
  | nil => rfl
  | cons b l ih =>
    obtain ⟨k2, v⟩ := b
    have hne : k2 ≠ k := h (k2, v) (List.mem_cons_self _ _)
    have hb : (k == k2) = false := by simpa using fun e => hne e.symm
    rw [List.lookup_cons, hb]
    exact ih (fun b hb => h b (List.mem_cons_of_mem _ hb))

theorem memory_pool.blocks_kept_trans (p p2 p3 : memory_pool enabled)
    (h1 : p.blocks_kept p2) (h2 : p2.blocks_kept p3) : p.blocks_kept p3 :=
  fun c => List.IsSuffix.trans (h1 c) (h2 c)

/-- The growth of a stack of the pool keeps the handles of the blocks apart
and adds a block. -/
theorem memory_pool.grow_blocks_safe (p : memory_pool enabled) (w : World) (c : PoolType)
    (n : Nat) (h : p.blocks_safe w) :
    (p.set_stack c ((p.stack c).allocate_pool c.chunk_size w n).2.1).blocks_safe
      ((p.stack c).allocate_pool c.chunk_size w n).2.2 ∧
    p.blocks_kept (p.set_stack c ((p.stack c).allocate_pool c.chunk_size w n).2.1) := by
  have hkey : (p.stack c).block_list_.lookup w.next_buffer = none :=
    lookup_none_of_keys_ne _ _ (fun b hb => Nat.ne_of_lt (h.1 c b hb).1)
  obtain ⟨q1, q2, q3, q4, -, -⟩ := allocate_pool_provider c.chunk_size (p.stack c) w n hkey
  have c6 := (allocate_pool_closed c.chunk_size (p.stack c) w n).2.2.2.2.2 hkey
  apply memory_pool.blocks_safe_growth p _ w _ c (backing_block_of w (c.chunk_size * n)) h
  · rw [stack_set_stack, c6]
  · intro c2 hc2
    rw [stack_set_stack_of_ne p c c2 _ hc2]
  · rw [q2]
    by_cases hs : w.register_status.headD 0 = 0
    · right
      simp only [backing_block_of, hs, if_true]
      exact ⟨trivial, Nat.lt_succ_self _⟩
    · left
      simp only [backing_block_of, hs, if_false]
  · rw [q1]; omega
  · rw [q2]; split_ifs <;> omega
  · exact q4
  · exact q3
  · exact allocate_pool_objects c.chunk_size (p.stack c) w n

/-- A `pop` on a stack of the pool keeps the handles of the blocks apart. -/
theorem memory_pool.pop_blocks_safe (p : memory_pool enabled) (w : World) (c : PoolType)
    (h : p.blocks_safe w) :
    (p.set_stack c ((p.stack c).pop c.chunk_size w).2.1).blocks_safe
      ((p.stack c).pop c.chunk_size w).2.2 ∧
    p.blocks_kept (p.set_stack c ((p.stack c).pop c.chunk_size w).2.1) := by
  cases hf : (p.stack c).free_list_ with
  | nil =>
    rw [pop_miss c.chunk_size (p.stack c) w hf]
    exact memory_pool.grow_blocks_safe p w c _ h
  | cons r rest =>
    obtain ⟨-, -, -, -, f5, -⟩ := pop_hit_fields c.chunk_size (p.stack c) w r rest hf
    have hw : ((p.stack c).pop c.chunk_size w).2.2 = w := by
      rw [pop_hit c.chunk_size (p.stack c) w r rest hf]
    rw [hw]
    apply memory_pool.blocks_safe_same_blocks p _ w w h
    · intro c2
      by_cases e : c2 = c
      · subst e; rw [stack_set_stack, f5]
      · rw [stack_set_stack_of_ne p c c2 _ e]
    · exact le_refl _
    · exact le_refl _
    · rfl
    · intro o ho; exact Or.inl ho
    · intro g hg; exact Or.inl hg

/-- A `push` on a stack of the pool keeps the handles of the blocks apart. -/
theorem memory_pool.push_blocks_safe (p : memory_pool enabled) (w : World) (c : PoolType)
    (region : Nat) (h : p.blocks_safe w) :
    (p.set_stack c ((p.stack c).push region)).blocks_safe w ∧
    p.blocks_kept (p.set_stack c ((p.stack c).push region)) := by
  apply memory_pool.blocks_safe_same_blocks p _ w w h
  · intro c2
    by_cases e : c2 = c
    · subst e; rw [stack_set_stack, (push_fields _ _).2.2.2.2.1]
    · rw [stack_set_stack_of_ne p c c2 _ e]
  · exact le_refl _
  · exact le_refl _
  · rfl
  · intro o ho; exact Or.inl ho
  · intro g hg; exact Or.inl hg

/-- The handle the provider gives out next is not the handle of a block. -/
theorem memory_pool.next_handle_foreign (p : memory_pool enabled) (w w2 : World)
    (h : p.blocks_safe w) (hn : w.next_handle < w2.next_handle) :
    p.foreign_handle w2 (some w.next_handle) :=
  ⟨hn, fun hg => Nat.lt_irrefl _ (memory_pool.block_handle_given p w h _ hg)⟩

theorem memory_pool.allocate_temporary_region_blocks_safe (p : memory_pool enabled) (w : World)
    (L : Nat) (h : p.blocks_safe w) :
    (p.allocate_temporary_region w L).2.1.blocks_safe (p.allocate_temporary_region w L).2.2 ∧
    p.blocks_kept (p.allocate_temporary_region w L).2.1 := by
  obtain ⟨a1, a2, a3, a4, a5, a6⟩ := allocate_temporary_region_world p w L
  apply memory_pool.blocks_safe_same_blocks p _ w _ h
  · intro c; rw [a6]
  · rw [a2]; omega
  · rw [a1]; split_ifs <;> omega
  · exact a3
  · intro o ho
    rw [a5] at ho
    rcases List.mem_cons.1 ho with e | e
    · right
      subst e
      refine ⟨(temporary_region_of_temp w L).2.2, ?_⟩
      by_cases hs : w.register_status.headD 0 = 0
      · simp only [temporary_region_of, hs, if_true]
        exact memory_pool.next_handle_foreign p w _ h (by rw [a1, if_pos hs]; omega)
      · simp only [temporary_region_of, hs, if_false]
        trivial
    · exact Or.inl e
  · intro g hg
    rw [a4] at hg
    exact Or.inl hg

theorem memory_pool.register_temporary_region_blocks_safe (p : memory_pool enabled) (w : World)
    (ptr L : Nat) (h : p.blocks_safe w) :
    (p.register_temporary_region w ptr L).2.1.blocks_safe
      (p.register_temporary_region w ptr L).2.2 ∧
    p.blocks_kept (p.register_temporary_region w ptr L).2.1 := by
  obtain ⟨a1, a2, a3, a4, ⟨r, a5, a6, a7⟩, a8⟩ := register_temporary_region_world p w ptr L
  have hle : w.next_handle ≤ (p.register_temporary_region w ptr L).2.2.next_handle := by
    rw [a1]; split_ifs <;> omega
  apply memory_pool.blocks_safe_same_blocks p _ w _ h
  · intro c; rw [a8]
  · rw [a2]
  · exact hle
  · exact a3
  · intro o ho
    rw [a5] at ho
    rcases List.mem_cons.1 ho with e | e
    · right
      subst e
      refine ⟨a6, ?_⟩
      by_cases hs : w.register_status.headD 0 = 0
      · simp only [a7, hs, if_true]
        exact memory_pool.next_handle_foreign p w _ h (by rw [a1, if_pos hs]; omega)
      · simp only [a7, hs, if_false]
        exact memory_pool.foreign_handle_of p p w _ _ (fun _ _ hg => hg) hle h.2.2.1
    · exact Or.inl e
  · intro g hg
    rw [a4] at hg
    exact Or.inl hg

theorem deallocate_user (p : memory_pool enabled) (w : World) (ptr : Nat)
    (r : memory_region_impl) (hr : w.deref ptr = some r) (ht : r.get_temp_region = false)
    (hu : r.get_user_region = true) :
    p.deallocate w ptr =
      some ({ p with user_regions := (p.user_regions + (2 ^ 32 - 1)) % 2 ^ 32 },
            w.delete_object ptr r) := by
  unfold memory_pool.deallocate
  simp only [hr, ht, hu, Bool.or_true, if_true, Bool.false_eq_true, if_false]

theorem deallocate_untagged (p : memory_pool enabled) (w : World) (ptr : Nat)
    (r : memory_region_impl) (hr : w.deref ptr = some r) (ht : r.get_temp_region = false)
    (hu : r.get_user_region = false) :
    ∃ q, p.deallocate w ptr = some (q, w) ∧
      ∀ c, (q.stack c).block_list_ = (p.stack c).block_list_ := by
  unfold memory_pool.deallocate
  simp only [hr, ht, hu, Bool.or_self, Bool.false_eq_true, if_false]
  split_ifs
  all_goals
    refine ⟨_, rfl, fun c => ?_⟩
    cases c <;> simp only [memory_pool.stack, memory_pool_stack.push]

/-- The block maps and the heap after `deallocate`. -/
theorem deallocate_cases (p p2 : memory_pool enabled) (w w2 : World) (region : Nat)
    (h : p.deallocate w region = some (p2, w2)) :
    ∃ r, w.deref region = some r ∧
      (∀ c, (p2.stack c).block_list_ = (p.stack c).block_list_) ∧
      (w2 = w ∨ w2 = w.delete_object region r) := by
  cases hd : w.deref region with
  | none =>
    unfold memory_pool.deallocate at h
    rw [hd] at h
    cases h
  | some r =>
    refine ⟨r, rfl, ?_⟩
    by_cases ht : r.get_temp_region = true
    · rw [deallocate_temp p w region r hd ht] at h
      have e := Option.some.inj h
      rw [← (Prod.mk.inj e).1, ← (Prod.mk.inj e).2]
      exact ⟨fun c => by rw [stack_with_temp_regions], Or.inr rfl⟩
    · have ht2 : r.get_temp_region = false := by simpa using ht
      by_cases hu : r.get_user_region = true
      · rw [deallocate_user p w region r hd ht2 hu] at h
        have e := Option.some.inj h
        rw [← (Prod.mk.inj e).1, ← (Prod.mk.inj e).2]
        exact ⟨fun c => by rw [stack_with_user_regions], Or.inr rfl⟩
      · have hu2 : r.get_user_region = false := by simpa using hu
        obtain ⟨q, hq, hb⟩ := deallocate_untagged p w region r hd ht2 hu2
        rw [hq] at h
        have e := Option.some.inj h
        rw [← (Prod.mk.inj e).1, ← (Prod.mk.inj e).2]
        exact ⟨hb, Or.inl rfl⟩

theorem memory_pool.deallocate_blocks_safe (p p2 : memory_pool enabled) (w w2 : World)
    (region : Nat) (h : p.blocks_safe w) (hd : p.deallocate w region = some (p2, w2)) :
    p2.blocks_safe w2 ∧ p.blocks_kept p2 := by
  obtain ⟨r, hr, hb, hw⟩ := deallocate_cases p p2 w w2 region hd
  rcases hw with e | e
  · subst e
    exact memory_pool.blocks_safe_same_blocks p p2 w2 w2 h hb (le_refl _) (le_refl _) rfl
      (fun o ho => Or.inl ho) (fun g hg => Or.inl hg)
  · subst e
    obtain ⟨d1, d2, d3, d4, d5⟩ := World.delete_object_world w region r
    apply memory_pool.blocks_safe_same_blocks p p2 w _ h hb
    · rw [d2]
    · rw [d1]
    · exact d3
    · intro o ho; exact Or.inl (d4 o ho)
    · intro g hg
      rcases d5 g hg with e1 | ⟨e1, e2⟩
      · exact Or.inl e1
      · exact Or.inr ⟨(region, r), lookup_some_mem _ _ _ hr, e1, e2⟩

theorem memory_pool.allocate_region_blocks_safe (p : memory_pool enabled) (w : World)
    (L : Nat) (h : p.blocks_safe w) :
    (p.allocate_region w L).2.1.blocks_safe (p.allocate_region w L).2.2 ∧
    p.blocks_kept (p.allocate_region w L).2.1 := by
  cases hc : smallest_fitting_class L with
  | none =>
    rw [allocate_region_oversize p w L hc]
    exact memory_pool.allocate_temporary_region_blocks_safe p w L h
  | some c =>
    have e := allocate_region_pop_set_stack p w L c hc
    obtain ⟨s1, s2⟩ := memory_pool.pop_blocks_safe p w c h
    cases hp : ((p.stack c).pop c.chunk_size w).1 with
    | some r =>
      rw [allocate_region_of_pop_some p w L r (by rw [e]; exact hp), e]
      exact ⟨s1, s2⟩
    | none =>
      rw [allocate_region_of_pop_none p w L (by rw [e]; exact hp), e]
      obtain ⟨t1, t2⟩ := memory_pool.allocate_temporary_region_blocks_safe _ _ L s1
      exact ⟨t1, memory_pool.blocks_kept_trans _ _ _ s2 t2⟩

/-- Every operation keeps the handles of the blocks apart and removes no
block. -/
theorem memory_pool.step_blocks_safe (p p2 : memory_pool enabled) (w w2 : World) (op : pool_op)
    (h : p.blocks_safe w) (hs : p.step w op = some (p2, w2)) :
    p2.blocks_safe w2 ∧ p.blocks_kept p2 := by
  cases op with
  | allocate_region L =>
    have e : (p.allocate_region w L).2 = (p2, w2) := Option.some.inj hs
    have := memory_pool.allocate_region_blocks_safe p w L h
    rw [e] at this
    exact this
  | deallocate region => exact memory_pool.deallocate_blocks_safe p p2 w w2 region h hs
  | register_temporary_region ptr L =>
    have e : (p.register_temporary_region w ptr L).2 = (p2, w2) := Option.some.inj hs
    have := memory_pool.register_temporary_region_blocks_safe p w ptr L h
    rw [e] at this
    exact this
  | pop c =>
    have e := Option.some.inj hs
    have := memory_pool.pop_blocks_safe p w c h
    rw [← (Prod.mk.inj e).1, ← (Prod.mk.inj e).2]
    exact this
  | push c region =>
    have e := Option.some.inj hs
    have := memory_pool.push_blocks_safe p w c region h
    rw [← (Prod.mk.inj e).1, ← (Prod.mk.inj e).2]
    exact this
  | grow c n =>
    have e := Option.some.inj hs
    have := memory_pool.grow_blocks_safe p w c n h
    rw [← (Prod.mk.inj e).1, ← (Prod.mk.inj e).2]
    exact this

/-- An operation has no result only when it is a `deallocate` of a pointer
that refers to no live object. -/
theorem memory_pool.step_eq_none (p : memory_pool enabled) (w : World) (op : pool_op) :
    p.step w op = none ↔ ∃ region, op = pool_op.deallocate region ∧ w.deref region = none := by
  cases op with
  | deallocate region =>
    constructor
    · intro h
      refine ⟨region, rfl, ?_⟩
      cases hd : w.deref region with
      | none => rfl
      | some r =>
        exfalso
        have : p.deallocate w region = none := h
        unfold memory_pool.deallocate at this
        rw [hd] at this
        simp only [] at this
        split_ifs at this
    · rintro ⟨r2, e, hd⟩
      cases e
      show p.deallocate w region = none
      unfold memory_pool.deallocate
      rw [hd]
  | allocate_region L => exact ⟨fun h => (by cases h), fun ⟨_, e, _⟩ => (by cases e)⟩
  | register_temporary_region ptr L => exact ⟨fun h => (by cases h), fun ⟨_, e, _⟩ => (by cases e)⟩
  | pop c => exact ⟨fun h => (by cases h), fun ⟨_, e, _⟩ => (by cases e)⟩
  | push c region => exact ⟨fun h => (by cases h), fun ⟨_, e, _⟩ => (by cases e)⟩
  | grow c n => exact ⟨fun h => (by cases h), fun ⟨_, e, _⟩ => (by cases e)⟩

theorem memory_pool.run_blocks_safe (ops : List pool_op) :
    ∀ (p p2 : memory_pool enabled) (w w2 : World), p.blocks_safe w →
      p.run w ops = some (p2, w2) → p2.blocks_safe w2 ∧ p.blocks_kept p2 := by
  induction ops with
  | nil =>
    intro p p2 w w2 h hr
    have e := Option.some.inj hr
    rw [← (Prod.mk.inj e).1, ← (Prod.mk.inj e).2]
    exact ⟨h, fun c => List.suffix_refl _⟩
  | cons op ops ih =>
    intro p p2 w w2 h hr
    rw [memory_pool.run] at hr
    cases hs : p.step w op with
    | none => rw [hs] at hr; cases hr
    | some r =>
      rw [hs] at hr
      obtain ⟨s1, s2⟩ := memory_pool.step_blocks_safe p r.1 w r.2 op h hs
      obtain ⟨i1, i2⟩ := ih r.1 p2 r.2 w2 s1 hr
      exact ⟨i1, memory_pool.blocks_kept_trans _ _ _ s2 i2⟩

/-- C24: over any sequence of `allocate_region`, `deallocate`,
`register_temporary_region`, and `pop`, `push` and `allocate_pool` on the
stacks, in which every `deallocate` is given a live region (so that the
sequence has a result), starting from a pool state in which the handles of the
backing blocks are kept apart: every block map still ends with the blocks it
had, so no block has been removed; no `unregister_memory` call, before or
during the sequence, had the handle of a backing block; and every live
sub-region that holds a handle holds the handle of a backing block, on which
`unregister_memory` has not been called. -/
theorem backing_blocks_survive (p : memory_pool enabled) (w : World) (ops : List pool_op)
    (h : p.blocks_safe w) (hr : (p.run w ops).isSome = true) :
    ∃ p2 w2, p.run w ops = some (p2, w2) ∧
      p.blocks_kept p2 ∧
      (∀ c, ∀ b ∈ (p.stack c).block_list_, b ∈ (p2.stack c).block_list_) ∧
      (∀ g, p2.is_block_handle g → g ∉ w2.unregister_log) ∧
      (∀ o ∈ w2.objects, o.2.get_partial_region = true → ∀ g, o.2.region_ = some g →
        p2.is_block_handle g ∧ g ∉ w2.unregister_log) ∧
      p2.blocks_safe w2 := by
  cases hrun : p.run w ops with
  | none => rw [hrun] at hr; cases hr
  | some r =>
    obtain ⟨s1, s2⟩ := memory_pool.run_blocks_safe ops p r.1 w r.2 h hrun
    have hlog : ∀ g, r.1.is_block_handle g → g ∉ r.2.unregister_log :=
      fun g hg hm => (s1.2.2.2 g hm).2 hg
    refine ⟨r.1, r.2, rfl, s2, ?_, hlog, ?_, s1⟩
    · intro c b hb
      exact (s2 c).subset hb
    · intro o ho hp g hg
      have := s1.2.1 o ho
      rw [if_pos hp, hg] at this
      exact ⟨this, hlog g this⟩

/-- The pool constructor on a process in which nothing is registered yet
keeps the handles of the backing blocks apart, whatever the provider answers. -/
theorem memory_pool.make_with_blocks_safe (rs us : List Int) (pd a b c d : Nat) :
    (memory_pool.make_with enabled (World.fresh rs us) pd a b c d).1.blocks_safe
      (memory_pool.make_with enabled (World.fresh rs us) pd a b c d).2 := by
  have h0 : (memory_pool.mk pd
      (memory_pool_stack.mk (performance_counter.init 32 enabled 0)
        (performance_counter.init 32 enabled 0) (performance_counter.init 32 enabled 0)
        pd [] [] [])
      (memory_pool_stack.mk (performance_counter.init 32 enabled 0)
        (performance_counter.init 32 enabled 0) (performance_counter.init 32 enabled 0)
        pd [] [] [])
      (memory_pool_stack.mk (performance_counter.init 32 enabled 0)
        (performance_counter.init 32 enabled 0) (performance_counter.init 32 enabled 0)
        pd [] [] [])
      (memory_pool_stack.mk (performance_counter.init 32 enabled 0)
        (performance_counter.init 32 enabled 0) (performance_counter.init 32 enabled 0)
        pd [] [] []) 0 0 : memory_pool enabled).blocks_safe (World.fresh rs us) := by
    refine ⟨?_, ?_, trivial, ?_⟩
    · intro c b hb
      cases c <;> exact absurd hb (List.not_mem_nil b)
    · intro o ho
      exact absurd ho (List.not_mem_nil o)
    · intro g hg
      exact absurd hg (List.not_mem_nil g)
  have h1 := (memory_pool.grow_blocks_safe _ _ PoolType.pool_tiny (a % 2 ^ 32) h0).1
  have h2 := (memory_pool.grow_blocks_safe _ _ PoolType.pool_small (b % 2 ^ 32) h1).1
  have h3 := (memory_pool.grow_blocks_safe _ _ PoolType.pool_medium (c % 2 ^ 32) h2).1
  have h4 := (memory_pool.grow_blocks_safe _ _ PoolType.pool_large (d % 2 ^ 32) h3).1
  exact h4

/-- The witness of C24: the pool of scenario S1 and the operations of
`scenario_pool_ops`. -/
theorem backing_blocks_survive_witness :
    (scenario_S1.1.blocks_safe scenario_S1.2 ∧
      (scenario_S1.1.run scenario_S1.2 scenario_pool_ops).isSome = true) ∧
    (∃ p2 w2, scenario_S1.1.run scenario_S1.2 scenario_pool_ops = some (p2, w2) ∧
      scenario_S1.1.blocks_kept p2 ∧
      (∀ c, ∀ b ∈ (scenario_S1.1.stack c).block_list_, b ∈ (p2.stack c).block_list_) ∧
      (∀ g, p2.is_block_handle g → g ∉ w2.unregister_log) ∧
      (∀ o ∈ w2.objects, o.2.get_partial_region = true → ∀ g, o.2.region_ = some g →
        p2.is_block_handle g ∧ g ∉ w2.unregister_log) ∧
      p2.blocks_safe w2) :=
  ⟨⟨by decide, by decide⟩,
   backing_blocks_survive scenario_S1.1 scenario_S1.2 scenario_pool_ops (by decide) (by decide)⟩

/-! ## A disabled counter -/

/-- C31: for a disabled counter, construction from any value, assignment, the
prefix and postfix `++` and `--`, `+= x` and `-= x` leave the counter as it is
and return `0`, reading gives `0`, and the counter is written as the text
`undefined`. -/
theorem disabled_counter_is_inert (bits : Nat) (c : performance_counter bits false)
    (x : Nat) (y : Int) :
    ((performance_counter.init bits false x).read = 0 ∧
      performance_counter.init bits false x = performance_counter.init bits false 0) ∧
    (c.assign x = c ∧ performance_counter.returned (c.assign x) = 0) ∧
    (c.pre_inc = c ∧ performance_counter.returned c.pre_inc = 0) ∧
    (c.pre_dec = c ∧ performance_counter.returned c.pre_dec = 0) ∧
    (c.post_inc y = c ∧ performance_counter.returned (c.post_inc y) = 0) ∧
    (c.post_dec y = c ∧ performance_counter.returned (c.post_dec y) = 0) ∧
    (c.add_assign x = c ∧ performance_counter.returned (c.add_assign x) = 0) ∧
    (c.sub_assign x = c ∧ performance_counter.returned (c.sub_assign x) = 0) ∧
    c.read = 0 ∧
    c.format = "undefined" ∧
    (performance_counter.init bits false x).format = "undefined" :=
  ⟨⟨rfl, rfl⟩, ⟨rfl, rfl⟩, ⟨rfl, rfl⟩, ⟨rfl, rfl⟩, ⟨rfl, rfl⟩, ⟨rfl, rfl⟩, ⟨rfl, rfl⟩,
    ⟨rfl, rfl⟩, rfl, rfl, rfl⟩

/-! ## can_allocate_unsafe -/

/-- C33: for every length and pool state, `can_allocate_unsafe(length)` is
true exactly when the length exceeds the large chunk size (`1048576`) or the
free list of the class that the routing rule selects is not empty; it returns
the pool and the environment as they were. -/
theorem can_allocate_unsafe_spec (p : memory_pool enabled) (w : World) (L : Nat) :
    ((p.can_allocate_unsafe w L).1 = true ↔
      (1048576 < L ∨ ∃ c, smallest_fitting_class L = some c ∧ (p.stack c).free_list_ ≠ [])) ∧
    (p.can_allocate_unsafe w L).2 = (p, w) := by
  rw [smallest_fitting_class_eq]
  simp only [memory_pool.can_allocate_unsafe, memory_pool_stack.chunk_size,
    chunk_size_values.1, chunk_size_values.2.1, chunk_size_values.2.2.1, chunk_size_values.2.2.2]
  split_ifs with h1 h2 h3 h4
  · refine ⟨?_, rfl⟩
    constructor
    · intro h
      right
      refine ⟨PoolType.pool_tiny, rfl, ?_⟩
      intro e
      simp [memory_pool.stack] at e
      simp [e] at h
    · rintro (h | ⟨c, hc, hn⟩)
      · omega
      · cases hc
        cases hf : p.tiny_.free_list_ with
        | nil => exact absurd hf hn
        | cons a l => simp
  · refine ⟨?_, rfl⟩
    constructor
    · intro h
      right
      refine ⟨PoolType.pool_small, rfl, ?_⟩
      intro e
      simp [memory_pool.stack] at e
      simp [e] at h
    · rintro (h | ⟨c, hc, hn⟩)
      · omega
      · cases hc
        cases hf : p.small_.free_list_ with
        | nil => exact absurd hf hn
        | cons a l => simp
  · refine ⟨?_, rfl⟩
    constructor
    · intro h
      right
      refine ⟨PoolType.pool_medium, rfl, ?_⟩
      intro e
      simp [memory_pool.stack] at e
      simp [e] at h
    · rintro (h | ⟨c, hc, hn⟩)
      · omega
      · cases hc
        cases hf : p.medium_.free_list_ with
        | nil => exact absurd hf hn
        | cons a l => simp
  · refine ⟨?_, rfl⟩
    constructor
    · intro h
      right
      refine ⟨PoolType.pool_large, rfl, ?_⟩
      intro e
      simp [memory_pool.stack] at e
      simp [e] at h
    · rintro (h | ⟨c, hc, hn⟩)
      · omega
      · cases hc
        cases hf : p.large_.free_list_ with
        | nil => exact absurd hf hn
        | cons a l => simp
  · refine ⟨?_, rfl⟩
    constructor
    · intro _
      left
      omega
    · intro _
      rfl

/-! ## The block allocator -/

theorem plain_flags (r : memory_region_impl) (h : r.flags_ = 0) :
    r.get_temp_region = false ∧ r.get_user_region = false ∧ r.get_partial_region = false := by
  simp only [memory_region_impl.get_temp_region, memory_region_impl.get_user_region,
    memory_region_impl.get_partial_region, h]
  decide

/-- C34: for every domain and size, `memory_block_allocator::malloc(pd, bytes)`
makes exactly one `register_memory` call, for the buffer it has allocated, with
length `bytes`, the access flags of the provider, offset `0` and the buffer
address as the requested key, and no `unregister_memory` call; the region it
returns has flags `0` (not `BLOCK_PARTIAL`, `BLOCK_USER` or `BLOCK_TEMP`),
`address == base_address ==` the buffer, `size == bytes` and
`used_space == 0`. -/
theorem malloc_registers_once (w : World) (pd bytes : Nat) :
    (memory_block_allocator.malloc w pd bytes).2.register_log =
      ⟨pd, w.next_buffer, bytes, w.provider_flags, 0, w.next_buffer, 0⟩ :: w.register_log ∧
    (memory_block_allocator.malloc w pd bytes).2.unregister_log = w.unregister_log ∧
    (memory_block_allocator.malloc w pd bytes).2.buffers = (w.next_buffer, bytes) :: w.buffers ∧
    (memory_block_allocator.malloc w pd bytes).1.flags_ = 0 ∧
    (memory_block_allocator.malloc w pd bytes).1.get_partial_region = false ∧
    (memory_block_allocator.malloc w pd bytes).1.get_user_region = false ∧
    (memory_block_allocator.malloc w pd bytes).1.get_temp_region = false ∧
    (memory_block_allocator.malloc w pd bytes).1.get_address = w.next_buffer ∧
    (memory_block_allocator.malloc w pd bytes).1.get_base_address = w.next_buffer ∧
    (memory_block_allocator.malloc w pd bytes).1.get_size = bytes ∧
    (memory_block_allocator.malloc w pd bytes).1.used_space_ = 0 := by
  obtain ⟨-, -, h3, h4, -⟩ := memory_region_impl.allocate_spec memory_region_impl.default w pd bytes
  have hb := malloc_spec w pd bytes
  refine ⟨h3, h4, ?_, ?_, ?_, ?_, ?_, ?_, ?_, ?_, ?_⟩
  · simp only [memory_block_allocator.malloc, memory_region_impl.allocate, World.register_memory,
      World.new_array]
    split_ifs <;> rfl
  all_goals rw [hb]
  · rfl
  · exact (plain_flags _ rfl).2.2
  · exact (plain_flags _ rfl).2.1
  · exact (plain_flags _ rfl).1
  · rfl
  · rfl
  · rfl
  · rfl

/-! ## used_space and size -/

/-- C35, amended. The constructors, `allocate` and the registration of a
caller's buffer leave `used_space <= size` (`0`, or the length for a caller's
buffer); `set_message_length(length)` stores the length, as a `uint32_t`,
whatever the size of the region is and leaves the size as it was, so that
`used_space <= size` holds after it exactly when the stored length is at most
the size. -/
theorem used_space_le_size (r : memory_region_impl) (w : World) (pd buffer L length : Nat)
    (region : Option Nat) (address base_address size flags : Nat) :
    memory_region_impl.default.used_space_ ≤ memory_region_impl.default.size_ ∧
    (memory_region_impl.make region address base_address size flags).used_space_
      ≤ (memory_region_impl.make region address base_address size flags).size_ ∧
    (memory_region_impl.make_user w pd buffer L).1.used_space_
      ≤ (memory_region_impl.make_user w pd buffer L).1.size_ ∧
    (r.allocate w pd L).2.1.used_space_ ≤ (r.allocate w pd L).2.1.size_ ∧
    (r.set_message_length length).used_space_ = length % 2 ^ 32 ∧
    (r.set_message_length length).size_ = r.size_ ∧
    ((r.set_message_length length).used_space_ ≤ (r.set_message_length length).size_ ↔
      length % 2 ^ 32 ≤ r.size_) ∧
    (r.set_message_length length).get_message_length = length % 2 ^ 32 := by
  refine ⟨Nat.le_refl _, Nat.zero_le _, Nat.le_refl _, ?_, rfl, rfl, Iff.rfl, ?_⟩
  · rw [(memory_region_impl.allocate_spec r w pd L).2.1]
    exact Nat.zero_le _
  · simp only [memory_region_impl.set_message_length, memory_region_impl.get_message_length,
      Nat.mod_mod]

/-- C35 fails as stated: a sub-region of 1 KiB after `set_message_length(4096)`
has `used_space == 4096` and `size == 1024`. -/
theorem set_message_length_exceeds_size :
    ((memory_region_impl.make (some 1) 4096 4096 1024 BLOCK_PARTIAL).set_message_length
      4096).used_space_ = 4096 ∧
    ((memory_region_impl.make (some 1) 4096 4096 1024 BLOCK_PARTIAL).set_message_length
      4096).size_ = 1024 ∧
    ¬ (((memory_region_impl.make (some 1) 4096 4096 1024 BLOCK_PARTIAL).set_message_length
        4096).used_space_
      ≤ ((memory_region_impl.make (some 1) 4096 4096 1024 BLOCK_PARTIAL).set_message_length
        4096).size_) := by
  decide

/-! ## release after release -/

/-- C39: for a region that holds a handle, whatever its flags, when the
provider accepts the `unregister_memory` call, `release()` calls it exactly
once, with the handle, nulls the handle and returns `0`; after that, every
further `release()` and the destructor, in any state of the environment, make
no provider call, free nothing and return `0`.  A `release()` on a region with
a null handle makes no provider call and returns `0`. -/
theorem release_is_idempotent (r : memory_region_impl) (w : World) (h : Nat)
    (hh : r.region_ = some h) (hs : w.unregister_status.headD 0 = 0) :
    (r.release w).1 = 0 ∧
    (r.release w).2.1.region_ = none ∧
    (r.release w).2.2.unregister_log = h :: w.unregister_log ∧
    (r.release w).2.2.register_log = w.register_log ∧
    (∀ w2 : World, (r.release w).2.1.release w2 = (0, (r.release w).2.1, w2)) ∧
    (∀ w2 : World, (r.release w).2.1.destroy w2 = w2) ∧
    (∀ (q : memory_region_impl) (w2 : World), q.region_ = none → q.release w2 = (0, q, w2)) := by
  have hnull : ∀ (q : memory_region_impl) (w2 : World), q.region_ = none →
      q.release w2 = (0, q, w2) := by
    intro q w2 hq
    unfold memory_region_impl.release
    rw [hq]
  have e : (r.release w).1 = 0 ∧ (r.release w).2.1 = { r with region_ := none } ∧
      (r.release w).2.2.unregister_log = h :: w.unregister_log ∧
      (r.release w).2.2.register_log = w.register_log := by
    unfold memory_region_impl.release
    rw [hh]
    have : (w.unregister_memory h).1 = 0 := hs
    simp only [this, ne_eq, not_true_eq_false, if_false]
    refine ⟨trivial, trivial, ?_, ?_⟩
    · split_ifs <;> simp [World.unregister_memory, World.delete_array]
    · split_ifs <;> simp [World.unregister_memory, World.delete_array]
  have hn : (r.release w).2.1.region_ = none := by rw [e.2.1]
  refine ⟨e.1, hn, e.2.2.1, e.2.2.2, fun w2 => hnull _ w2 hn, ?_, hnull⟩
  intro w2
  unfold memory_region_impl.destroy
  split_ifs
  · rfl
  · rw [hnull _ w2 hn]

/-- The witness of C39: a registered block of 4 KiB with the handle `1`. -/
theorem release_is_idempotent_witness :
    (scenario_registered_block.1.region_ = some 1 ∧
      scenario_registered_block.2.unregister_status.headD 0 = 0) ∧
    ((scenario_registered_block.1.release scenario_registered_block.2).1 = 0 ∧
    (scenario_registered_block.1.release scenario_registered_block.2).2.1.region_ = none ∧
    (scenario_registered_block.1.release scenario_registered_block.2).2.2.unregister_log = 1 ::
      scenario_registered_block.2.unregister_log ∧
    (scenario_registered_block.1.release scenario_registered_block.2).2.2.register_log =
      scenario_registered_block.2.register_log ∧
    (∀ w2 : World, (scenario_registered_block.1.release scenario_registered_block.2).2.1.release w2
      = (0, (scenario_registered_block.1.release scenario_registered_block.2).2.1, w2)) ∧
    (∀ w2 : World, (scenario_registered_block.1.release scenario_registered_block.2).2.1.destroy w2
      = w2) ∧
    (∀ (q : memory_region_impl) (w2 : World), q.region_ = none → q.release w2 = (0, q, w2))) :=
  ⟨⟨by decide, by decide⟩,
   release_is_idempotent scenario_registered_block.1 scenario_registered_block.2 1 (by decide) (by
      decide)⟩

/-! ## deallocate of a pooled region -/

theorem memory_pool.make_protection_domain (w : World) (pd : Nat) :
    (memory_pool.make enabled w pd).1.protection_domain_ = pd :=
  rfl

theorem lookup_cons_self_pool (a : Nat) (m : memory_pool enabled)
    (l : List (Nat × memory_pool enabled)) : ((a, m) :: l).lookup a = some m := by
  simp [List.lookup]

/-- C36, amended. The pool is one singleton for the process, whatever the
domain: the first call `init_memory_pool(pd)` constructs a pool whose
protection domain is `pd` and stores it in the static `instance`; every later
call, with the same or with any other domain `pd2`, constructs nothing, leaves
the state as it is and returns that same instance, whose protection domain is
`pd`. -/
theorem init_memory_pool_singleton (s : pool_singleton enabled) (pd pd2 : Nat)
    (h : s.instance_ = none) :
    (s.init_memory_pool pd).1 = some s.next_pool ∧
    (s.init_memory_pool pd).2.instance_ = some s.next_pool ∧
    (s.init_memory_pool pd).2.domain_of (s.init_memory_pool pd).1 = some pd ∧
    (s.init_memory_pool pd).2.pools
      = (s.next_pool, (memory_pool.make enabled s.world pd).1) :: s.pools ∧
    (s.init_memory_pool pd).2.world = (memory_pool.make enabled s.world pd).2 ∧
    (s.init_memory_pool pd).2.init_memory_pool pd2
      = ((s.init_memory_pool pd).1, (s.init_memory_pool pd).2) ∧
    ((s.init_memory_pool pd).2.init_memory_pool pd2).2.domain_of
      ((s.init_memory_pool pd).2.init_memory_pool pd2).1 = some pd := by
  have e : s.init_memory_pool pd =
      (some s.next_pool,
       { instance_ := some s.next_pool, next_pool := s.next_pool + 1,
         pools := (s.next_pool, (memory_pool.make enabled s.world pd).1) :: s.pools,
         world := (memory_pool.make enabled s.world pd).2 }) := by
    unfold pool_singleton.init_memory_pool
    rw [h]
  have hd : (s.init_memory_pool pd).2.domain_of (s.init_memory_pool pd).1 = some pd := by
    rw [e]
    simp only [pool_singleton.domain_of, lookup_cons_self_pool, Option.map_some',
      memory_pool.make_protection_domain]
  have e2 : (s.init_memory_pool pd).2.init_memory_pool pd2
      = ((s.init_memory_pool pd).1, (s.init_memory_pool pd).2) := by
    rw [e]
    rfl
  refine ⟨by rw [e], by rw [e], hd, by rw [e], by rw [e], e2, ?_⟩
  rw [e2]
  exact hd

/-- The witness of C36: the first call with the domain `7` and a second call
with the domain `8`, in a process where no pool exists yet. -/
theorem init_memory_pool_singleton_witness :
    (pool_singleton.fresh true (World.fresh [] [])).instance_ = none ∧
    (((pool_singleton.fresh true (World.fresh [] [])).init_memory_pool 7).2.init_memory_pool 8
      = (((pool_singleton.fresh true (World.fresh [] [])).init_memory_pool 7).1,
         ((pool_singleton.fresh true (World.fresh [] [])).init_memory_pool 7).2) ∧
     (((pool_singleton.fresh true (World.fresh [] [])).init_memory_pool 7).2.init_memory_pool
        8).2.domain_of
      (((pool_singleton.fresh true (World.fresh [] [])).init_memory_pool 7).2.init_memory_pool
        8).1 = some 7) :=
  ⟨rfl,
   (init_memory_pool_singleton (pool_singleton.fresh true (World.fresh [] [])) 7 8 rfl).2.2.2.2.2.1,
   (init_memory_pool_singleton (pool_singleton.fresh true (World.fresh [] [])) 7 8
      rfl).2.2.2.2.2.2⟩

/-- The singleton state after `init_memory_pool` has been called with the
domain `7` and then with the domain `8`. -/
theorem init_twice_state (w : World) :
    ((pool_singleton.fresh enabled w).init_memory_pool 7).2.init_memory_pool 8
      = (some 1, ((pool_singleton.fresh enabled w).init_memory_pool 7).2) ∧
    ((pool_singleton.fresh enabled w).init_memory_pool 7).2.domain_of (some 1) = some 7 ∧
    ((pool_singleton.fresh enabled w).init_memory_pool 7).2.pools.length = 1 := by
  have e : (pool_singleton.fresh enabled w).init_memory_pool 7 =
      (some 1,
       { instance_ := some 1, next_pool := 2,
         pools := [(1, (memory_pool.make enabled w 7).1)],
         world := (memory_pool.make enabled w 7).2 }) := rfl
  rw [e]
  refine ⟨rfl, ?_, rfl⟩
  simp only [pool_singleton.domain_of, lookup_cons_self_pool, Option.map_some',
    memory_pool.make_protection_domain]

/-- C36 fails as stated: after `init_memory_pool` with the domain `7`, the
call with the domain `8` returns the same pool, the only one there is, and its
protection domain is `7`, not `8`. -/
theorem init_memory_pool_ignores_domain :
    (((pool_singleton.fresh true (World.fresh [] [])).init_memory_pool 7).2.init_memory_pool
      8).1 = ((pool_singleton.fresh true (World.fresh [] [])).init_memory_pool 7).1 ∧
    (((pool_singleton.fresh true (World.fresh [] [])).init_memory_pool 7).2.init_memory_pool
        8).2.domain_of
      (((pool_singleton.fresh true (World.fresh [] [])).init_memory_pool 7).2.init_memory_pool
        8).1 = some 7 ∧
    (((pool_singleton.fresh true (World.fresh [] [])).init_memory_pool 7).2.init_memory_pool
        8).2.pools.length = 1 := by
  obtain ⟨h1, h2, h3⟩ := @init_twice_state true (World.fresh [] [])
  rw [h1]
  exact ⟨rfl, h2, h3⟩

/-! ## Teardown of the pool -/

/-- The effect of `DeallocatePool` on a stack that owns its sub-regions. -/
theorem DeallocatePool_effect (C : Nat) (s : memory_pool_stack enabled) (w : World)
    (h : s.owns C w) :
    ∃ w2, s.DeallocatePool w = some
        (memory_pool_stack.mk s.accesses_ s.in_use_ s.chunks_avail_ s.pd_ [] [] [], w2) ∧
      w2.unregister_log = s.block_handles.reverse ++ w.unregister_log ∧
      w2.register_log = w.register_log ∧
      (∀ ptr, ptr ∉ s.region_list_ → w2.deref ptr = w.deref ptr) ∧
      (∀ ptr ∈ s.region_list_, w2.deref ptr = none) := by
  obtain ⟨h1, h2, h3⟩ := h
  obtain ⟨w1, d1, d2, d3, -, -, -, -, d8, d9⟩ := delete_regions_spec C s.region_list_ w h1 h2
  obtain ⟨b1, b2, b3⟩ := clear_blocks_spec s.block_list_ w1 h3
  refine ⟨memory_pool_stack.clear_blocks w1 s.block_list_, ?_, ?_, ?_, ?_, ?_⟩
  · simp only [memory_pool_stack.DeallocatePool, d1]
  · rw [b1, d3]; rfl
  · rw [b2, d2]
  · intro ptr hp
    simp only [World.deref, b3]
    exact d9 ptr hp
  · intro ptr hp
    simp only [World.deref, b3]
    exact d8 ptr hp

/-- A stack whose three containers are empty is left as it is by
`DeallocatePool`, and so is the environment. -/
theorem DeallocatePool_empty (s : memory_pool_stack enabled) (w : World)
    (h1 : s.free_list_ = []) (h2 : s.region_list_ = []) (h3 : s.block_list_ = []) :
    s.DeallocatePool w = some (s, w) := by
  cases s with
  | mk a i c pd bl rl fl =>
    simp only at h1 h2 h3
    subst h1; subst h2; subst h3
    rfl

theorem chunk_size_injective (c c2 : PoolType) (h : c.chunk_size = c2.chunk_size) : c = c2 := by
  cases c <;> cases c2 <;> first | rfl | (exfalso; revert h; decide)

/-- The teardown of one stack leaves another stack in possession of its
sub-regions. -/
theorem owns_after_DeallocatePool (C C2 : Nat) (s s2 : memory_pool_stack enabled) (w w2 : World)
    (hne : C ≠ C2) (h : s.owns C w) (h2 : s2.owns C2 w)
    (hd : ∀ ptr, ptr ∉ s.region_list_ → w2.deref ptr = w.deref ptr) : s2.owns C2 w2 := by
  refine ⟨?_, h2.2.1, h2.2.2⟩
  intro ptr hp
  have hc := h2.1 ptr hp
  have hn : ptr ∉ s.region_list_ := by
    intro hm
    obtain ⟨r, hr, hs, -⟩ := (World.is_chunk_iff w C ptr).1 (h.1 ptr hm)
    obtain ⟨r2, hr2, hs2, -⟩ := (World.is_chunk_iff w C2 ptr).1 hc
    rw [hr] at hr2
    cases hr2
    exact hne (hs.symm.trans hs2)
  rw [World.is_chunk_congr w w2 C2 ptr (hd ptr hn)]
  exact hc

/-- C40, amended. `deallocate_pools()` tears down the tiny, small, medium
and large stack in this order; on a pool whose stacks own their sub-regions it
completes, leaves the three containers of every stack empty and every
sub-region destroyed, makes no registration, and calls `unregister_memory`
exactly once for each backing block that holds a handle, with that handle, and
not at all for a block whose handle is null.  A second `deallocate_pools()`,
and the destructor, then find the containers empty and change nothing: no
region is destroyed again and no provider call is made. -/
theorem deallocate_pools_twice (p : memory_pool enabled) (w : World) (h : p.owns w) :
    ∃ p1 w1, p.deallocate_pools w = some (p1, w1) ∧
      (∀ c, (p1.stack c).free_list_ = [] ∧ (p1.stack c).region_list_ = [] ∧
        (p1.stack c).block_list_ = []) ∧
      w1.unregister_log = p.large_.block_handles.reverse ++
        (p.medium_.block_handles.reverse ++
          (p.small_.block_handles.reverse ++
            (p.tiny_.block_handles.reverse ++ w.unregister_log))) ∧
      w1.register_log = w.register_log ∧
      (∀ c, ∀ ptr ∈ (p.stack c).region_list_, w1.deref ptr = none) ∧
      p1.deallocate_pools w1 = some (p1, w1) ∧
      p1.destroy w1 = some (p1, w1) := by
  have ht : p.tiny_.owns RDMA_POOL_1K_CHUNK_SIZE w := h PoolType.pool_tiny
  have hs : p.small_.owns RDMA_POOL_SMALL_CHUNK_SIZE w := h PoolType.pool_small
  have hm : p.medium_.owns RDMA_POOL_MEDIUM_CHUNK_SIZE w := h PoolType.pool_medium
  have hl : p.large_.owns RDMA_POOL_LARGE_CHUNK_SIZE w := h PoolType.pool_large
  have n12 : RDMA_POOL_1K_CHUNK_SIZE ≠ RDMA_POOL_SMALL_CHUNK_SIZE := by decide
  have n13 : RDMA_POOL_1K_CHUNK_SIZE ≠ RDMA_POOL_MEDIUM_CHUNK_SIZE := by decide
  have n14 : RDMA_POOL_1K_CHUNK_SIZE ≠ RDMA_POOL_LARGE_CHUNK_SIZE := by decide
  have n23 : RDMA_POOL_SMALL_CHUNK_SIZE ≠ RDMA_POOL_MEDIUM_CHUNK_SIZE := by decide
  have n24 : RDMA_POOL_SMALL_CHUNK_SIZE ≠ RDMA_POOL_LARGE_CHUNK_SIZE := by decide
  have n34 : RDMA_POOL_MEDIUM_CHUNK_SIZE ≠ RDMA_POOL_LARGE_CHUNK_SIZE := by decide
  obtain ⟨wt, et, ut, rt, dt, zt⟩ := DeallocatePool_effect _ p.tiny_ w ht
  have hs1 := owns_after_DeallocatePool _ _ p.tiny_ p.small_ w wt n12 ht hs dt
  have hm1 := owns_after_DeallocatePool _ _ p.tiny_ p.medium_ w wt n13 ht hm dt
  have hl1 := owns_after_DeallocatePool _ _ p.tiny_ p.large_ w wt n14 ht hl dt
  obtain ⟨ws, es, us, rs, ds, zs⟩ := DeallocatePool_effect _ p.small_ wt hs1
  have hm2 := owns_after_DeallocatePool _ _ p.small_ p.medium_ wt ws n23 hs1 hm1 ds
  have hl2 := owns_after_DeallocatePool _ _ p.small_ p.large_ wt ws n24 hs1 hl1 ds
  obtain ⟨wm, em, um, rm, dm, zm⟩ := DeallocatePool_effect _ p.medium_ ws hm2
  have hl3 := owns_after_DeallocatePool _ _ p.medium_ p.large_ ws wm n34 hm2 hl2 dm
  obtain ⟨wl, el, ul, rl, dl, zl⟩ := DeallocatePool_effect _ p.large_ wm hl3
  have keep : ∀ (q : memory_pool_stack enabled) (u u2 : World) (ptr : Nat),
      (∀ x, x ∉ q.region_list_ → u2.deref x = u.deref x) →
      (∀ x ∈ q.region_list_, u2.deref x = none) → u.deref ptr = none → u2.deref ptr = none := by
    intro q u u2 ptr a b hn
    by_cases hmem : ptr ∈ q.region_list_
    · exact b ptr hmem
    · rw [a ptr hmem]; exact hn
  have e1 : p.deallocate_pools w = some
      (memory_pool.mk p.protection_domain_
        (memory_pool_stack.mk p.tiny_.accesses_ p.tiny_.in_use_ p.tiny_.chunks_avail_
          p.tiny_.pd_ [] [] [])
        (memory_pool_stack.mk p.small_.accesses_ p.small_.in_use_ p.small_.chunks_avail_
          p.small_.pd_ [] [] [])
        (memory_pool_stack.mk p.medium_.accesses_ p.medium_.in_use_ p.medium_.chunks_avail_
          p.medium_.pd_ [] [] [])
        (memory_pool_stack.mk p.large_.accesses_ p.large_.in_use_ p.large_.chunks_avail_
          p.large_.pd_ [] [] [])
        p.temp_regions p.user_regions, wl) := by
    simp only [memory_pool.deallocate_pools, et, es, em, el]
  have e2 : ∀ u : World, (memory_pool.mk p.protection_domain_
        (memory_pool_stack.mk p.tiny_.accesses_ p.tiny_.in_use_ p.tiny_.chunks_avail_
          p.tiny_.pd_ [] [] [])
        (memory_pool_stack.mk p.small_.accesses_ p.small_.in_use_ p.small_.chunks_avail_
          p.small_.pd_ [] [] [])
        (memory_pool_stack.mk p.medium_.accesses_ p.medium_.in_use_ p.medium_.chunks_avail_
          p.medium_.pd_ [] [] [])
        (memory_pool_stack.mk p.large_.accesses_ p.large_.in_use_ p.large_.chunks_avail_
          p.large_.pd_ [] [] [])
        p.temp_regions p.user_regions : memory_pool enabled).deallocate_pools u = some
      (memory_pool.mk p.protection_domain_
        (memory_pool_stack.mk p.tiny_.accesses_ p.tiny_.in_use_ p.tiny_.chunks_avail_
          p.tiny_.pd_ [] [] [])
        (memory_pool_stack.mk p.small_.accesses_ p.small_.in_use_ p.small_.chunks_avail_
          p.small_.pd_ [] [] [])
        (memory_pool_stack.mk p.medium_.accesses_ p.medium_.in_use_ p.medium_.chunks_avail_
          p.medium_.pd_ [] [] [])
        (memory_pool_stack.mk p.large_.accesses_ p.large_.in_use_ p.large_.chunks_avail_
          p.large_.pd_ [] [] [])
        p.temp_regions p.user_regions, u) := by
    intro u
    simp only [memory_pool.deallocate_pools, DeallocatePool_empty]
  refine ⟨_, wl, e1, ?_, ?_, ?_, ?_, e2 wl, e2 wl⟩
  · intro c
    cases c <;> exact ⟨rfl, rfl, rfl⟩
  · rw [ul, um, us, ut]
  · rw [rl, rm, rs, rt]
  · intro c ptr hp
    cases c
    · exact keep _ _ _ ptr dl zl (keep _ _ _ ptr dm zm (keep _ _ _ ptr ds zs (zt ptr hp)))
    · exact keep _ _ _ ptr dl zl (keep _ _ _ ptr dm zm (zs ptr hp))
    · exact keep _ _ _ ptr dl zl (zm ptr hp)
    · exact zl ptr hp

/-- The witness of C40: the pool of scenario S1. -/
theorem deallocate_pools_twice_witness :
    scenario_S1.1.owns scenario_S1.2 ∧
    (∃ p1 w1, scenario_S1.1.deallocate_pools scenario_S1.2 = some (p1, w1) ∧
      (∀ c, (p1.stack c).free_list_ = [] ∧ (p1.stack c).region_list_ = [] ∧
        (p1.stack c).block_list_ = []) ∧
      w1.unregister_log = scenario_S1.1.large_.block_handles.reverse ++
        (scenario_S1.1.medium_.block_handles.reverse ++
          (scenario_S1.1.small_.block_handles.reverse ++
            (scenario_S1.1.tiny_.block_handles.reverse ++ scenario_S1.2.unregister_log))) ∧
      w1.register_log = scenario_S1.2.register_log ∧
      (∀ c, ∀ ptr ∈ (scenario_S1.1.stack c).region_list_, w1.deref ptr = none) ∧
      p1.deallocate_pools w1 = some (p1, w1) ∧
      p1.destroy w1 = some (p1, w1)) :=
  ⟨by decide,
   deallocate_pools_twice scenario_S1.1 scenario_S1.2 (by decide)⟩

/-- C40 fails as stated: the pool constructed while the provider refuses the
first registration has four backing blocks, one in each stack, and the block
of the tiny stack holds no handle; `deallocate_pools()` makes three
`unregister_memory` calls, for the handles `1`, `2` and `3` of the small,
medium and large block, and a second `deallocate_pools()` makes none: the
block of the tiny stack is never unregistered. -/
theorem deallocate_pools_skips_unregistered_block :
    scenario_pool_refused.1.owns scenario_pool_refused.2 ∧
    (∀ c : PoolType, (scenario_pool_refused.1.stack c).block_list_.length = 1) ∧
    scenario_pool_refused.1.tiny_.block_list_.map (fun b => b.2.region_) = [none] ∧
    (scenario_pool_refused.1.deallocate_pools scenario_pool_refused.2).map
      (fun r => r.2.unregister_log) = some [3, 2, 1] ∧
    ((scenario_pool_refused.1.deallocate_pools scenario_pool_refused.2).bind
      (fun r => r.1.deallocate_pools r.2)).map (fun r => r.2.unregister_log) = some [3, 2, 1] := by
  decide

/-! ## Counters disabled -/

/-- C32: six requests of 512 bytes, none released, on the pool of scenario S1
(four tiny chunks).  With counters enabled the fifth request misses, the tiny
stack grows by a block of four chunks (4096 bytes), and the sixth request is
served by a sub-region of 1 KiB of the pool.  With counters disabled `pop`
reads `in_use_` as `0`: the fifth and the sixth request each register a block
of `0` bytes, the tiny stack makes no sub-region, and the sixth request is
served by a temporary region of 512 bytes. -/
theorem disabled_counters_stop_growth :
    (scenario_sixth_enabled.2.2.deref scenario_sixth_enabled.1).map
      (fun r => (r.get_temp_region, r.get_partial_region, r.size_))
      = some (false, true, 1024) ∧
    (scenario_sixth_disabled.2.2.deref scenario_sixth_disabled.1).map
      (fun r => (r.get_temp_region, r.get_partial_region, r.size_))
      = some (true, false, 512) ∧
    scenario_sixth_enabled.2.1.tiny_.region_list_.length = 8 ∧
    scenario_sixth_disabled.2.1.tiny_.region_list_.length = 4 ∧
    scenario_sixth_enabled.2.2.register_log.map (fun c => c.len)
      = [512, 4096, 1048576, 65536, 32768, 4096] ∧
    scenario_sixth_disabled.2.2.register_log.map (fun c => c.len)
      = [512, 0, 512, 0, 1048576, 65536, 32768, 4096] := by
  decide

/-! ## The atomic actions of pop and push -/

/-- A hit of `pop()` is `free_list_.pop`, `++in_use_` and `++accesses_`. -/
theorem pop_as_actions (C : Nat) (s : memory_pool_stack enabled) (w : World) (r : Nat)
    (rest : List Nat) (h : s.free_list_ = r :: rest) :
    s.free_list_pop.1 = some r ∧
    s.pop C w = (some r, s.free_list_pop.2.increment_in_use.increment_accesses, w) := by
  rw [pop_hit C s w r rest h]
  unfold memory_pool_stack.free_list_pop
  rw [h]
  exact ⟨rfl, rfl⟩

/-- The member `push(region)` is `free_list_.push` and `--in_use_`. -/
theorem push_as_actions (s : memory_pool_stack enabled) (r : Nat) :
    s.push r = (s.free_list_push r).decrement_in_use :=
  rfl

theorem class_of_eq (p : memory_pool enabled) (x : Nat) :
    p.class_of x = smallest_fitting_class x := by
  rw [smallest_fitting_class_eq]
  simp only [memory_pool.class_of, memory_pool_stack.chunk_size, chunk_size_values.1,
    chunk_size_values.2.1, chunk_size_values.2.2.1, chunk_size_values.2.2.2]

theorem smallest_fitting_class_chunk_size (c : PoolType) :
    smallest_fitting_class c.chunk_size = some c := by
  rw [smallest_fitting_class_eq]
  cases c <;> simp [PoolType.chunk_size, chunk_size_values.1, chunk_size_values.2.1,
    chunk_size_values.2.2.1, chunk_size_values.2.2.2]

theorem free_list_pop_fields (s : memory_pool_stack enabled) (r : Nat) (rest : List Nat)
    (h : s.free_list_ = r :: rest) :
    s.free_list_pop.1 = some r ∧ s.free_list_pop.2.free_list_ = rest ∧
    s.free_list_pop.2.in_use_ = s.in_use_ ∧ s.free_list_pop.2.accesses_ = s.accesses_ := by
  unfold memory_pool_stack.free_list_pop
  rw [h]
  exact ⟨rfl, rfl, rfl, rfl⟩

theorem free_list_pop_nil (s : memory_pool_stack enabled) (h : s.free_list_ = []) :
    s.free_list_pop.1 = none := by
  unfold memory_pool_stack.free_list_pop
  rw [h]

theorem increment_in_use_fields (s : memory_pool_stack enabled) :
    s.increment_in_use.free_list_ = s.free_list_ ∧
    s.increment_in_use.in_use_ = s.in_use_.pre_inc ∧
    s.increment_in_use.accesses_ = s.accesses_ :=
  ⟨rfl, rfl, rfl⟩

theorem increment_accesses_fields (s : memory_pool_stack enabled) :
    s.increment_accesses.free_list_ = s.free_list_ ∧
    s.increment_accesses.in_use_ = s.in_use_ ∧
    s.increment_accesses.accesses_ = s.accesses_.pre_inc :=
  ⟨rfl, rfl, rfl⟩

theorem free_list_push_fields (s : memory_pool_stack enabled) (r : Nat) :
    (s.free_list_push r).free_list_ = r :: s.free_list_ ∧
    (s.free_list_push r).in_use_ = s.in_use_ ∧
    (s.free_list_push r).accesses_ = s.accesses_ :=
  ⟨rfl, rfl, rfl⟩

theorem decrement_in_use_fields (s : memory_pool_stack enabled) :
    s.decrement_in_use.free_list_ = s.free_list_ ∧
    s.decrement_in_use.in_use_ = s.in_use_.pre_dec ∧
    s.decrement_in_use.accesses_ = s.accesses_ :=
  ⟨rfl, rfl, rfl⟩

theorem counter_pre_inc_value (c : performance_counter 32 true) :
    c.pre_inc.value_ = (c.value_ + 1) % 2 ^ 32 :=
  rfl

theorem counter_pre_dec_value (c : performance_counter 32 true) :
    c.pre_dec.value_ = (c.value_ + (2 ^ 32 - 1)) % 2 ^ 32 :=
  rfl

/-! ## The list of threads -/

theorem held_cons (t : thread) (l : List thread) :
    shared_pool.held (t :: l) = t.pc.held ++ shared_pool.held l := by
  simp [shared_pool.held, List.flatMap_cons]

/-- The thread with index `i` apart from the others. -/
theorem threads_set_split (l : List thread) :
    ∀ (i : Nat) (t t2 : thread), l[i]? = some t →
    ∃ others : List thread,
      (∀ f : thread → Nat, (l.map f).sum = f t + (others.map f).sum ∧
        ((l.set i t2).map f).sum = f t2 + (others.map f).sum) ∧
      (shared_pool.held l).Perm (t.pc.held ++ shared_pool.held others) ∧
      (shared_pool.held (l.set i t2)).Perm (t2.pc.held ++ shared_pool.held others) ∧
      (∀ x ∈ l.set i t2, x = t2 ∨ x ∈ others) ∧ (∀ x ∈ others, x ∈ l) ∧ t ∈ l := by
  induction l with
  | nil => intro i t t2 h; simp at h
  | cons a l ih =>
    intro i t t2 h
    cases i with
    | zero =>
      simp only [List.getElem?_cons_zero, Option.some.injEq] at h
      subst h
      refine ⟨l, fun f => ⟨by simp, by simp⟩, ?_, ?_, ?_, ?_, List.mem_cons_self _ _⟩
      · rw [held_cons]
      · rw [List.set_cons_zero, held_cons]
      · intro x hx
        rw [List.set_cons_zero] at hx
        exact List.mem_cons.1 hx
      · intro x hx; exact List.mem_cons_of_mem _ hx
    | succ j =>
      simp only [List.getElem?_cons_succ] at h
      obtain ⟨others, hf, hp1, hp2, hm1, hm2, hm3⟩ := ih j t t2 h
      refine ⟨a :: others, ?_, ?_, ?_, ?_, ?_, List.mem_cons_of_mem _ hm3⟩
      · intro f
        obtain ⟨f1, f2⟩ := hf f
        simp only [List.map_cons, List.sum_cons, List.set_cons_succ, f1, f2]
        omega
      · rw [held_cons, held_cons]
        exact (List.Perm.append_left _ hp1).trans
          ((List.perm_append_comm_assoc _ _ _))
      · rw [List.set_cons_succ, held_cons, held_cons]
        exact (List.Perm.append_left _ hp2).trans
          ((List.perm_append_comm_assoc _ _ _))
      · intro x hx
        rw [List.set_cons_succ] at hx
        rcases List.mem_cons.1 hx with e | e
        · right; rw [e]; exact List.mem_cons_self _ _
        · rcases hm1 x e with e1 | e1
          · exact Or.inl e1
          · exact Or.inr (List.mem_cons_of_mem _ e1)
      · intro x hx
        rcases List.mem_cons.1 hx with e | e
        · rw [e]; exact List.mem_cons_self _ _
        · exact List.mem_cons_of_mem _ (hm2 x e)

theorem set_same (l : List thread) : ∀ (i : Nat) (t : thread), l[i]? = some t → l.set i t = l := by
  induction l with
  | nil => intro i t h; simp at h
  | cons a l ih =>
    intro i t h
    cases i with
    | zero =>
      simp only [List.getElem?_cons_zero, Option.some.injEq] at h
      rw [List.set_cons_zero, h]
    | succ j =>
      simp only [List.getElem?_cons_succ] at h
      rw [List.set_cons_succ, ih j t h]

/-! ## One action of one thread -/

theorem thread_step_idle_done (length : Nat) (p : memory_pool enabled) (w : World) :
    thread_step length p w ⟨.idle, 0⟩ = some (p, w, ⟨.idle, 0⟩) :=
  rfl

theorem thread_step_idle_hit (length : Nat) (p : memory_pool enabled) (w : World) (k : Nat)
    (c : PoolType) (r : Nat) (rest : List Nat)
    (hc : p.class_of length = some c) (hf : (p.stack c).free_list_ = r :: rest) :
    thread_step length p w ⟨.idle, k + 1⟩
      = some (p.set_stack c (p.stack c).free_list_pop.2, w, ⟨.popped c r, k⟩) := by
  unfold thread_step
  simp only []
  rw [hc]
  simp only []
  rw [(free_list_pop_fields (p.stack c) r rest hf).1]

theorem thread_step_popped (length : Nat) (p : memory_pool enabled) (w : World) (k : Nat)
    (c : PoolType) (r : Nat) :
    thread_step length p w ⟨.popped c r, k⟩
      = some (p.set_stack c (p.stack c).increment_in_use, w, ⟨.counted c r, k⟩) :=
  rfl

theorem thread_step_counted (length : Nat) (p : memory_pool enabled) (w : World) (k : Nat)
    (c : PoolType) (r : Nat) :
    thread_step length p w ⟨.counted c r, k⟩
      = some (p.set_stack c (p.stack c).increment_accesses, w, ⟨.holding r, k⟩) :=
  rfl

theorem thread_step_holding_chunk (length : Nat) (p : memory_pool enabled) (w : World) (k : Nat)
    (c : PoolType) (r : Nat) (h : w.is_chunk c.chunk_size r) :
    thread_step length p w ⟨.holding r, k⟩
      = some (p.set_stack c ((p.stack c).free_list_push r), w, ⟨.pushed c, k⟩) := by
  obtain ⟨reg, h1, h2, h3⟩ := (World.is_chunk_iff w c.chunk_size r).1 h
  have hsz : reg.get_size = c.chunk_size := h2
  unfold thread_step
  simp only []
  rw [h1]
  simp only []
  rw [(chunk_flags reg h3).1, (chunk_flags reg h3).2.1, hsz, class_of_eq,
    smallest_fitting_class_chunk_size]
  rfl

theorem thread_step_pushed (length : Nat) (p : memory_pool enabled) (w : World) (k : Nat)
    (c : PoolType) :
    thread_step length p w ⟨.pushed c, k⟩
      = some (p.set_stack c (p.stack c).decrement_in_use, w, ⟨.idle, k⟩) :=
  rfl

theorem shared_pool.step_eq (length : Nat) (st : shared_pool enabled) (i : Nat) (t t2 : thread)
    (p2 : memory_pool enabled) (w2 : World) (hget : st.threads[i]? = some t)
    (hs : thread_step length st.pool st.world t = some (p2, w2, t2)) :
    st.step length i = some ⟨p2, w2, st.threads.set i t2⟩ := by
  unfold shared_pool.step
  rw [hget]
  simp only []
  rw [hs]

theorem shared_pool.step_none (length : Nat) (st : shared_pool enabled) (i : Nat)
    (hget : st.threads[i]? = none) : st.step length i = some st := by
  unfold shared_pool.step
  rw [hget]

/-- The invariant after an action of the thread with index `i` that leaves the
stack of class `c` as `S2` and the thread as `t2`. -/
theorem shared_pool.invariant_step (c : PoolType) (in_use0 total : Nat) (st : shared_pool true)
    (S2 : memory_pool_stack true) (i : Nat) (t t2 : thread)
    (hget : st.threads[i]? = some t) (hinv : st.invariant c in_use0 total)
    (ha : (S2.free_list_ ++ t2.pc.held).Perm ((st.pool.stack c).free_list_ ++ t.pc.held))
    (hb : t2.pc.waits + (st.pool.stack c).free_list_.length ≤ t.pc.waits + S2.free_list_.length)
    (hcn : ∀ o, (st.pool.stack c).in_use_.value_ = (in_use0 + (t.pc.uses + o)) % 2 ^ 32 →
      S2.in_use_.value_ = (in_use0 + (t2.pc.uses + o)) % 2 ^ 32)
    (hd : ∀ o, ((st.pool.stack c).accesses_.value_ + (t.remaining + t.pc.pending + o)) % 2 ^ 32
        = total % 2 ^ 32 →
      (S2.accesses_.value_ + (t2.remaining + t2.pc.pending + o)) % 2 ^ 32 = total % 2 ^ 32)
    (he : S2.accesses_.in_range) (hf : t2.pc.tagged c) :
    (shared_pool.mk (st.pool.set_stack c S2) st.world (st.threads.set i t2)).invariant
      c in_use0 total := by
  obtain ⟨others, hsum, hp1, hp2, hm1, hm2, hm3⟩ := threads_set_split st.threads i t t2 hget
  obtain ⟨j1, j2, j3, j4, j5, j6, j7⟩ := hinv
  have hperm : (S2.free_list_ ++ shared_pool.held (st.threads.set i t2)).Perm
      ((st.pool.stack c).free_list_ ++ shared_pool.held st.threads) := by
    refine (List.Perm.append_left _ hp2).trans ?_
    refine List.Perm.trans ?_ (List.Perm.append_left _ hp1).symm
    rw [← List.append_assoc, ← List.append_assoc]
    exact List.Perm.append_right _ ha
  unfold shared_pool.invariant
  simp only []
  rw [stack_set_stack]
  refine ⟨?_, ?_, ?_, ?_, ?_, he, ?_⟩
  · intro r hr
    exact j1 r (hperm.mem_iff.1 hr)
  · exact hperm.nodup_iff.2 j2
  · rw [(hsum (fun t => t.pc.waits)).2]
    rw [(hsum (fun t => t.pc.waits)).1] at j3
    omega
  · rw [(hsum (fun t => t.pc.uses)).2]
    rw [(hsum (fun t => t.pc.uses)).1] at j4
    exact hcn _ j4
  · rw [(hsum (fun t => t.remaining + t.pc.pending)).2]
    rw [(hsum (fun t => t.remaining + t.pc.pending)).1] at j5
    exact hd _ j5
  · intro x hx
    rcases hm1 x hx with e | e
    · rw [e]; exact hf
    · exact j7 x (hm2 x e)

/-- Every action of every thread keeps the invariant, returns, and leaves the
heap of region objects as it is: no `free_list_.pop` misses. -/
theorem shared_pool.step_invariant (length : Nat) (c : PoolType) (in_use0 total : Nat)
    (st : shared_pool true) (i : Nat) (hc : smallest_fitting_class length = some c)
    (hinv : st.invariant c in_use0 total) :
    ∃ st2, st.step length i = some st2 ∧ st2.invariant c in_use0 total ∧
      st2.world = st.world := by
  cases hget : st.threads[i]? with
  | none => exact ⟨st, shared_pool.step_none length st i hget, hinv, rfl⟩
  | some t =>
    obtain ⟨others, hsum, hp1, -, -, -, hmem⟩ := threads_set_split st.threads i t t hget
    have j1 := hinv.1
    have j3 := hinv.2.2.1
    have j6 := hinv.2.2.2.2.2.1
    have j7 := hinv.2.2.2.2.2.2 t hmem
    obtain ⟨pc, k⟩ := t
    cases pc with
    | idle =>
      cases k with
      | zero =>
        refine ⟨st, ?_, hinv, rfl⟩
        rw [shared_pool.step_eq length st i _ _ _ _ hget
          (thread_step_idle_done length st.pool st.world), set_same _ _ _ hget]
      | succ k =>
        rw [(hsum (fun t => t.pc.waits)).1] at j3
        cases hfl : (st.pool.stack c).free_list_ with
        | nil =>
          rw [hfl] at j3
          simp only [thread_pc.waits, List.length_nil] at j3
          omega
        | cons r rest =>
          obtain ⟨-, f1, f2, f3⟩ := free_list_pop_fields (st.pool.stack c) r rest hfl
          refine ⟨_, shared_pool.step_eq length st i _ _ _ _ hget
            (thread_step_idle_hit length st.pool st.world k c r rest
              ((class_of_eq st.pool length).trans hc) hfl), ?_, rfl⟩
          refine shared_pool.invariant_step c in_use0 total st _ i _ _ hget hinv ?_ ?_ ?_ ?_ ?_ ?_
          · rw [f1, hfl]
            simp only [thread_pc.held, List.append_nil]
            exact List.perm_append_comm.trans (List.Perm.refl _)
          · rw [f1, hfl]
            simp only [thread_pc.waits, List.length_cons]
            omega
          · intro o h
            rw [f2]
            exact h
          · intro o h
            rw [f3]
            simp only [thread_pc.pending] at h ⊢
            omega
          · rw [f3]; exact j6
          · exact rfl
    | popped c2 r =>
      have e : c2 = c := j7
      subst e
      obtain ⟨f1, f2, f3⟩ := increment_in_use_fields (st.pool.stack c2)
      refine ⟨_, shared_pool.step_eq length st i _ _ _ _ hget
        (thread_step_popped length st.pool st.world k c2 r), ?_, rfl⟩
      refine shared_pool.invariant_step c2 in_use0 total st _ i _ _ hget hinv ?_ ?_ ?_ ?_ ?_ ?_
      · rw [f1]; exact List.Perm.refl _
      · rw [f1]; exact Nat.le_refl _
      · intro o h
        rw [f2, counter_pre_inc_value, h]
        simp only [thread_pc.uses]
        omega
      · intro o h
        rw [f3]
        exact h
      · rw [f3]; exact j6
      · exact rfl
    | counted c2 r =>
      have e : c2 = c := j7
      subst e
      obtain ⟨f1, f2, f3⟩ := increment_accesses_fields (st.pool.stack c2)
      refine ⟨_, shared_pool.step_eq length st i _ _ _ _ hget
        (thread_step_counted length st.pool st.world k c2 r), ?_, rfl⟩
      refine shared_pool.invariant_step c2 in_use0 total st _ i _ _ hget hinv ?_ ?_ ?_ ?_ ?_ ?_
      · rw [f1]; exact List.Perm.refl _
      · rw [f1]; exact Nat.le_refl _
      · intro o h
        rw [f2]
        exact h
      · intro o h
        rw [f3, counter_pre_inc_value]
        simp only [thread_pc.pending] at h ⊢
        omega
      · rw [f3]; exact performance_counter.pre_inc_in_range _ j6
      · exact trivial
    | holding r =>
      have hr : st.world.is_chunk c.chunk_size r := by
        refine j1 r (List.mem_append_right _ (hp1.mem_iff.2 (List.mem_append_left _ ?_)))
        simp [thread_pc.held]
      obtain ⟨f1, f2, f3⟩ := free_list_push_fields (st.pool.stack c) r
      refine ⟨_, shared_pool.step_eq length st i _ _ _ _ hget
        (thread_step_holding_chunk length st.pool st.world k c r hr), ?_, rfl⟩
      refine shared_pool.invariant_step c in_use0 total st _ i _ _ hget hinv ?_ ?_ ?_ ?_ ?_ ?_
      · rw [f1]
        simp only [thread_pc.held, List.append_nil]
        exact (@List.perm_append_comm Nat [r] _).trans (List.Perm.refl _)
      · rw [f1]
        simp only [thread_pc.waits, List.length_cons]
        omega
      · intro o h
        rw [f2]
        exact h
      · intro o h
        rw [f3]
        exact h
      · rw [f3]; exact j6
      · exact rfl
    | pushed c2 =>
      have e : c2 = c := j7
      subst e
      obtain ⟨f1, f2, f3⟩ := decrement_in_use_fields (st.pool.stack c2)
      refine ⟨_, shared_pool.step_eq length st i _ _ _ _ hget
        (thread_step_pushed length st.pool st.world k c2), ?_, rfl⟩
      refine shared_pool.invariant_step c2 in_use0 total st _ i _ _ hget hinv ?_ ?_ ?_ ?_ ?_ ?_
      · rw [f1]; exact List.Perm.refl _
      · rw [f1]
        simp only [thread_pc.waits]
        omega
      · intro o h
        rw [f2, counter_pre_dec_value, h]
        simp only [thread_pc.uses]
        omega
      · intro o h
        rw [f3]
        exact h
      · rw [f3]; exact j6
      · exact trivial

theorem shared_pool.run_invariant (length : Nat) (c : PoolType) (in_use0 total : Nat)
    (hc : smallest_fitting_class length = some c) (schedule : List Nat) :
    ∀ st : shared_pool true, st.invariant c in_use0 total →
    ∃ st2, st.run length schedule = some st2 ∧ st2.invariant c in_use0 total ∧
      st2.world = st.world := by
  induction schedule with
  | nil => intro st h; exact ⟨st, rfl, h, rfl⟩
  | cons i schedule ih =>
    intro st h
    obtain ⟨st1, e1, h1, w1⟩ := shared_pool.step_invariant length c in_use0 total st i hc h
    obtain ⟨st2, e2, h2, w2⟩ := ih st1 h1
    refine ⟨st2, ?_, h2, w2.trans w1⟩
    unfold shared_pool.run
    rw [e1]
    exact e2

/-- An action of a thread that has not finished is one of the five of its
iteration: the work left goes down by one. -/
theorem shared_pool.step_progress (length : Nat) (c : PoolType) (in_use0 total : Nat)
    (st : shared_pool true) (i : Nat) (t : thread)
    (hc : smallest_fitting_class length = some c)
    (hinv : st.invariant c in_use0 total) (hget : st.threads[i]? = some t)
    (hwork : 0 < t.work) :
    ∃ st2, st.step length i = some st2 ∧
      (st2.threads.map thread.work).sum + 1 = (st.threads.map thread.work).sum := by
  obtain ⟨others, hsum, hp1, -, -, -, hmem⟩ := threads_set_split st.threads i t t hget
  have j1 := hinv.1
  have j3 := hinv.2.2.1
  have j7 := hinv.2.2.2.2.2.2 t hmem
  obtain ⟨pc, k⟩ := t
  cases pc with
  | idle =>
    cases k with
    | zero => simp [thread.work, thread_pc.stage] at hwork
    | succ k =>
      rw [(hsum (fun t => t.pc.waits)).1] at j3
      cases hfl : (st.pool.stack c).free_list_ with
      | nil =>
        rw [hfl] at j3
        simp only [thread_pc.waits, List.length_nil] at j3
        omega
      | cons r rest =>
        obtain ⟨o2, hs2, -⟩ := threads_set_split st.threads i ⟨.idle, k + 1⟩ ⟨.popped c r, k⟩ hget
        refine ⟨_, shared_pool.step_eq length st i _ _ _ _ hget
          (thread_step_idle_hit length st.pool st.world k c r rest
            ((class_of_eq st.pool length).trans hc) hfl), ?_⟩
        simp only []
        rw [(hs2 thread.work).1, (hs2 thread.work).2]
        simp only [thread.work, thread_pc.stage]
        omega
  | popped c2 r =>
    obtain ⟨o2, hs2, -⟩ := threads_set_split st.threads i ⟨.popped c2 r, k⟩ ⟨.counted c2 r, k⟩ hget
    refine ⟨_, shared_pool.step_eq length st i _ _ _ _ hget
      (thread_step_popped length st.pool st.world k c2 r), ?_⟩
    simp only []
    rw [(hs2 thread.work).1, (hs2 thread.work).2]
    simp only [thread.work, thread_pc.stage]
    omega
  | counted c2 r =>
    obtain ⟨o2, hs2, -⟩ := threads_set_split st.threads i ⟨.counted c2 r, k⟩ ⟨.holding r, k⟩ hget
    refine ⟨_, shared_pool.step_eq length st i _ _ _ _ hget
      (thread_step_counted length st.pool st.world k c2 r), ?_⟩
    simp only []
    rw [(hs2 thread.work).1, (hs2 thread.work).2]
    simp only [thread.work, thread_pc.stage]
    omega
  | holding r =>
    have hr : st.world.is_chunk c.chunk_size r := by
      refine j1 r (List.mem_append_right _ (hp1.mem_iff.2 (List.mem_append_left _ ?_)))
      simp [thread_pc.held]
    obtain ⟨o2, hs2, -⟩ := threads_set_split st.threads i ⟨.holding r, k⟩ ⟨.pushed c, k⟩ hget
    refine ⟨_, shared_pool.step_eq length st i _ _ _ _ hget
      (thread_step_holding_chunk length st.pool st.world k c r hr), ?_⟩
    simp only []
    rw [(hs2 thread.work).1, (hs2 thread.work).2]
    simp only [thread.work, thread_pc.stage]
    omega
  | pushed c2 =>
    obtain ⟨o2, hs2, -⟩ := threads_set_split st.threads i ⟨.pushed c2, k⟩ ⟨.idle, k⟩ hget
    refine ⟨_, shared_pool.step_eq length st i _ _ _ _ hget
      (thread_step_pushed length st.pool st.world k c2), ?_⟩
    simp only []
    rw [(hs2 thread.work).1, (hs2 thread.work).2]
    simp only [thread.work, thread_pc.stage]
    omega

theorem thread.work_eq_zero (t : thread) (h : t.work = 0) :
    t.pc = thread_pc.idle ∧ t.remaining = 0 := by
  obtain ⟨pc, k⟩ := t
  cases pc <;> simp_all [thread.work, thread_pc.stage]

theorem shared_pool.run_step (length : Nat) (st : shared_pool enabled) (i : Nat)
    (schedule : List Nat) :
    st.run length (i :: schedule)
      = match st.step length i with
        | none => none
        | some st2 => st2.run length schedule :=
  rfl

theorem shared_pool.run_continued (length : Nat) (a b : List Nat) :
    ∀ st st2 : shared_pool enabled, st.run length a = some st2 →
      st.run length (a ++ b) = st2.run length b := by
  induction a with
  | nil =>
    intro st st2 h
    simp only [shared_pool.run, Option.some.injEq] at h
    rw [List.nil_append, h]
  | cons i a ih =>
    intro st st2 h
    rw [List.cons_append]
    rw [shared_pool.run_step] at h ⊢
    cases hs : st.step length i with
    | none => rw [hs] at h; cases h
    | some st1 =>
      rw [hs] at h
      simp only [] at h ⊢
      exact ih st1 st2 h

/-- From every state of the invariant the threads can run to their end. -/
theorem shared_pool.can_finish (length : Nat) (c : PoolType) (in_use0 total : Nat)
    (hc : smallest_fitting_class length = some c) :
    ∀ (n : Nat) (st : shared_pool true), st.invariant c in_use0 total →
      (st.threads.map thread.work).sum = n →
      ∃ rest st3, st.run length rest = some st3 ∧ st3.finished ∧
        st3.invariant c in_use0 total := by
  intro n
  induction n with
  | zero =>
    intro st hinv hn
    refine ⟨[], st, rfl, ?_, hinv⟩
    intro t ht
    have h0 : ∀ x ∈ st.threads.map thread.work, x = 0 := List.sum_eq_zero_iff.1 hn
    exact thread.work_eq_zero t (h0 _ (List.mem_map_of_mem _ ht))
  | succ n ih =>
    intro st hinv hn
    have hex : ∃ t ∈ st.threads, 0 < t.work := by
      by_contra hcon
      have h0 : ∀ x ∈ st.threads.map thread.work, x = 0 := by
        intro x hx
        obtain ⟨t, ht, e⟩ := List.mem_map.1 hx
        have : ¬ 0 < t.work := fun h => hcon ⟨t, ht, h⟩
        omega
      have := List.sum_eq_zero h0
      omega
    obtain ⟨t, ht, hwork⟩ := hex
    obtain ⟨i, hget⟩ := List.mem_iff_getElem?.1 ht
    obtain ⟨st1, e1, hsum⟩ :=
      shared_pool.step_progress length c in_use0 total st i t hc hinv hget hwork
    obtain ⟨st1b, e1b, hinv1, -⟩ := shared_pool.step_invariant length c in_use0 total st i hc hinv
    have e : st1b = st1 := Option.some.inj (e1b.symm.trans e1)
    rw [e] at hinv1
    obtain ⟨rest, st3, hr, hfin, hinv3⟩ := ih st1 hinv1 (by omega)
    refine ⟨i :: rest, st3, ?_, hfin, hinv3⟩
    rw [shared_pool.run_step, e1]
    exact hr

/-- When all threads have finished, the counters of the invariant are read as
the two values it names. -/
theorem shared_pool.finished_counters (c : PoolType) (in_use0 total : Nat)
    (st : shared_pool true) (hinv : st.invariant c in_use0 total) (hfin : st.finished) :
    (st.pool.stack c).in_use_.read = in_use0 % 2 ^ 32 ∧
    (st.pool.stack c).accesses_.read = total % 2 ^ 32 := by
  obtain ⟨-, -, -, j4, j5, j6, -⟩ := hinv
  have hu : (st.threads.map (fun t => t.pc.uses)).sum = 0 := by
    apply List.sum_eq_zero
    intro x hx
    obtain ⟨t, ht, e⟩ := List.mem_map.1 hx
    rw [← e, (hfin t ht).1]
    rfl
  have hp : (st.threads.map (fun t => t.remaining + t.pc.pending)).sum = 0 := by
    apply List.sum_eq_zero
    intro x hx
    obtain ⟨t, ht, e⟩ := List.mem_map.1 hx
    rw [← e, (hfin t ht).1, (hfin t ht).2]
    rfl
  rw [hu] at j4
  rw [hp] at j5
  have j6b : (st.pool.stack c).accesses_.value_ < 2 ^ 32 := j6
  refine ⟨j4, ?_⟩
  show (st.pool.stack c).accesses_.value_ = total % 2 ^ 32
  omega

/-- The regions held by the threads are held once each. -/
theorem shared_pool.invariant_held (c : PoolType) (in_use0 total : Nat)
    (st : shared_pool enabled) (hinv : st.invariant c in_use0 total) :
    (shared_pool.held st.threads).Nodup :=
  (List.nodup_append.1 hinv.2.1).2.1

/-- The stack that the constructor builds: counters of value zero apart from
`chunks_avail_`, and a free list of the initial chunks, none twice. -/
theorem memory_pool_stack.make_fields (C : Nat) (w : World) (pd n : Nat) :
    (memory_pool_stack.make enabled C w pd n).1.in_use_ = performance_counter.init 32 enabled 0 ∧
    (memory_pool_stack.make enabled C w pd n).1.accesses_
      = performance_counter.init 32 enabled 0 ∧
    (memory_pool_stack.make enabled C w pd n).1.free_list_.length = n % 2 ^ 32 ∧
    (memory_pool_stack.make enabled C w pd n).1.free_list_.Nodup := by
  have hx := (@tracked_stack.make_exclusive enabled C w pd n).1
  refine ⟨?_, ?_, ?_, hx⟩
  · unfold memory_pool_stack.make
    refine (allocate_pool_spec C _ w (n % 2 ^ 32)).1 ?_
    cases enabled <;> simp [performance_counter.in_range, performance_counter.init]
  · unfold memory_pool_stack.make
    exact (allocate_pool_spec C _ w (n % 2 ^ 32)).2.1
  · unfold memory_pool_stack.make
    exact (allocate_pool_spec C _ w (n % 2 ^ 32)).2.2.2.2.1

theorem memory_pool.make_small (w : World) (pd : Nat) :
    (memory_pool.make enabled w pd).1.stack PoolType.pool_small
      = (memory_pool_stack.make enabled RDMA_POOL_SMALL_CHUNK_SIZE
          (memory_pool_stack.make enabled RDMA_POOL_1K_CHUNK_SIZE w pd
            RDMA_POOL_NUM_1K_CHUNKS).2 pd RDMA_POOL_NUM_SMALL_CHUNKS).1 := by
  simp only [memory_pool.make, memory_pool.make_with, memory_pool.stack]

/-- The invariant holds when the threads of scenario S5 start. -/
theorem scenario_S5_invariant (w : World) (pd : Nat) (hw : w.wf) :
    (scenario_S5 w pd).invariant PoolType.pool_small 0 1600000 := by
  have hwf := @memory_pool.make_with_wf true w pd RDMA_POOL_NUM_1K_CHUNKS
    RDMA_POOL_NUM_SMALL_CHUNKS RDMA_POOL_NUM_MEDIUM_CHUNKS RDMA_POOL_NUM_LARGE_CHUNKS hw
  have hs := hwf.2.1 PoolType.pool_small
  obtain ⟨f1, f2, f3, f4⟩ := @memory_pool_stack.make_fields true RDMA_POOL_SMALL_CHUNK_SIZE
    (memory_pool_stack.make true RDMA_POOL_1K_CHUNK_SIZE w pd RDMA_POOL_NUM_1K_CHUNKS).2 pd
    RDMA_POOL_NUM_SMALL_CHUNKS
  rw [← memory_pool.make_small] at f1 f2 f3 f4
  have hheld : shared_pool.held (List.replicate 16 (thread.mk thread_pc.idle 100000)) = [] := by
    decide
  unfold shared_pool.invariant scenario_S5
  simp only []
  rw [hheld, List.append_nil, f1, f2, f3]
  refine ⟨hs.1, f4, by decide, by decide, by decide, by decide, by decide⟩

/-- Two threads of one iteration each on the pool of scenario S1, interleaved
action by action: both finish, and the counters of the small stack are read as
`0` and `2`. -/
theorem two_threads_interleaved :
    (scenario_two_threads.run 8192 [0, 1, 0, 0, 1, 1, 0, 0, 1, 1]).map
        (fun st => (decide st.finished, st.pool.small_.in_use_.read,
          st.pool.small_.accesses_.read, decide (shared_pool.held st.threads).Nodup))
      = some (true, 0, 2, true) := by
  decide

/-- C37: in scenario S5 (the pool of the constructor, counters enabled, 16
threads that each run `region = allocate_region(8192); deallocate(region);`
100000 times), whatever the order in which the threads take their atomic
actions (`free_list_.pop`, `++in_use_`, `++accesses_`, `free_list_.push`,
`--in_use_`): every action returns, and after every schedule, hence at every
moment, no region is held twice, by one thread or by two; the heap of region
objects is as the constructor left it, that is, no `free_list_.pop` has missed
and `allocate_pool` has not been entered; if all threads have finished,
`in_use_` of the small stack is read as `0` and `accesses_` as `1600000`; and
every schedule can be continued to one after which all threads have finished
with these two values. -/
theorem concurrent_pairs_S5 (w : World) (pd : Nat) (schedule : List Nat) (hw : w.wf) :
    ∃ st2, (scenario_S5 w pd).run 8192 schedule = some st2 ∧
      (shared_pool.held st2.threads).Nodup ∧
      st2.world = (scenario_S5 w pd).world ∧
      (st2.finished →
        st2.pool.small_.in_use_.read = 0 ∧ st2.pool.small_.accesses_.read = 1600000) ∧
      ∃ rest st3, (scenario_S5 w pd).run 8192 (schedule ++ rest) = some st3 ∧ st3.finished ∧
        st3.pool.small_.in_use_.read = 0 ∧ st3.pool.small_.accesses_.read = 1600000 := by
  have hc : smallest_fitting_class 8192 = some PoolType.pool_small := by
    rw [smallest_fitting_class_eq]
    decide
  obtain ⟨st2, e2, hinv2, hw2⟩ := shared_pool.run_invariant 8192 PoolType.pool_small 0 1600000
    hc schedule (scenario_S5 w pd) (scenario_S5_invariant w pd hw)
  obtain ⟨rest, st3, e3, hfin3, hinv3⟩ := shared_pool.can_finish 8192 PoolType.pool_small 0
    1600000 hc _ st2 hinv2 rfl
  refine ⟨st2, e2, shared_pool.invariant_held _ _ _ st2 hinv2, hw2, ?_, rest, st3, ?_, hfin3, ?_⟩
  · intro hfin
    exact shared_pool.finished_counters PoolType.pool_small 0 1600000 st2 hinv2 hfin
  · rw [shared_pool.run_continued 8192 schedule rest _ st2 e2]
    exact e3
  · exact shared_pool.finished_counters PoolType.pool_small 0 1600000 st3 hinv3 hfin3

theorem concurrent_pairs_S5_witness :
    (World.fresh [] []).wf ∧
    ∃ st2, (scenario_S5 (World.fresh [] []) 7).run 8192 [0, 1, 0] = some st2 ∧
      (shared_pool.held st2.threads).Nodup ∧
      st2.world = (scenario_S5 (World.fresh [] []) 7).world ∧
      (st2.finished →
        st2.pool.small_.in_use_.read = 0 ∧ st2.pool.small_.accesses_.read = 1600000) ∧
      ∃ rest st3, (scenario_S5 (World.fresh [] []) 7).run 8192 ([0, 1, 0] ++ rest) = some st3 ∧
        st3.finished ∧
        st3.pool.small_.in_use_.read = 0 ∧ st3.pool.small_.accesses_.read = 1600000 :=
  ⟨by decide, concurrent_pairs_S5 (World.fresh [] []) 7 [0, 1, 0] (by decide)⟩

end alloctools
